import Mathlib

/-!
Shallow embedding of the bgpcorsaro routing-tables engine
(src/lib/bgpstream_filter_parser.c, routingtables part) and of the
bgpstream Patricia tree (src/lib/utils/bgpstream_utils_patricia.c),
with theorems settling the frozen claims about them.

Conventions of the embedding:
* C `uint32_t` timestamp arithmetic is modelled on `Nat` with explicit
  wrap-around (`u32add`, `u32sub`) exactly at the operations the source
  performs on `uint32_t` values.
* Event counters live in structure fields whose C declarations are in a
  header that is not part of the sources; following the specification
  ("Counters: rib-rows, updates applied, ...") they are modelled as
  unbounded `Nat` counters.
* The khash-based maps of the source are modelled as association lists
  with first-match lookup; iteration follows list order.
* The bgpwatcher view (peer table, prefix-peer cells, active flags) is
  not part of the sources; its accessors are modelled from the spec,
  section 4.C: each peer and each (prefix, peer) cell carries an active
  flag, mutable through the iterator, plus a user payload.
-/

namespace BgpRt

/-- 2^32, the modulus of C `uint32_t` arithmetic. -/
def U32 : Nat := 4294967296

/-- `uint32_t` addition: wraps modulo 2^32. -/
def u32add (a b : Nat) : Nat := (a + b) % U32

/-- `uint32_t` subtraction: wraps modulo 2^32. -/
def u32sub (a b : Nat) : Nat := (a + U32 - b % U32) % U32

/-- ROUTINGTABLES_RIB_BACKLOG_TIME (60 seconds). -/
def ROUTINGTABLES_RIB_BACKLOG_TIME : Nat := 60

/-- ROUTINGTABLES_MAX_INACTIVE_TIME (3600 seconds). -/
def ROUTINGTABLES_MAX_INACTIVE_TIME : Nat := 3600

/-- Modelled from the spec: BGPWATCHER_VIEW_ASN_NOEXPORT_START, the base of
the reserved ASN band, is defined in a bgpwatcher header that is not part of
the sources; per the spec it is a base lying within IANA-reserved ASN space
(we pick a value in the private-use range; no claim depends on the choice). -/
def ROUTINGTABLES_RESERVED_ASN_START : Nat := 4200000000

/-- ROUTINGTABLES_LOCAL_ORIGIN_ASN = reserved base + 0. -/
def ROUTINGTABLES_LOCAL_ORIGIN_ASN : Nat := ROUTINGTABLES_RESERVED_ASN_START + 0

/-- ROUTINGTABLES_CONFSET_ORIGIN_ASN = reserved base + 1. -/
def ROUTINGTABLES_CONFSET_ORIGIN_ASN : Nat := ROUTINGTABLES_RESERVED_ASN_START + 1

/-- ROUTINGTABLES_DOWN_ORIGIN_ASN = reserved base + 2. -/
def ROUTINGTABLES_DOWN_ORIGIN_ASN : Nat := ROUTINGTABLES_RESERVED_ASN_START + 2

/-- BGP finite-state-machine states of a peer (bgpstream_elem_peerstate_t). -/
inductive FsmState where
  | unknown
  | idle
  | connect
  | activeSt
  | openSent
  | openConfirm
  | established
deriving DecidableEq

/-- Address family of a prefix (bgpstream_addr_version_t, v4 or v6). -/
inductive AddrVersion where
  | v4
  | v6
deriving DecidableEq

/-- A BGP prefix as the engine sees it: family plus an opaque identity
(the engine only compares prefixes for equality and sorts them into
per-family sets). -/
structure Pfx where
  version : AddrVersion
  val : Nat
deriving DecidableEq

/-- A peer signature (collector name, peer ip, peer asn).  The peer-signature
registry (bgpstream_peer_sig_map, not part of the sources) is a bijection
between signatures and ids, modelled from the spec, section 4.B; we identify
peer ids with their signatures. -/
structure PeerSig where
  collector : String
  peerAddr : Nat
  peerAsn : Nat
deriving DecidableEq

/-- One segment of an AS path: a plain ASN or an AS-set/confederation
segment. -/
inductive PathSeg where
  | asn (a : Nat)
  | setOrConfed
deriving DecidableEq

/-- Element types (bgpstream_elem_type_t). -/
inductive ElemType where
  | ribRow
  | announcement
  | withdrawal
  | peerState
deriving DecidableEq

/-- A decoded BGP element of a record. -/
structure Elem where
  etype : ElemType
  peerAddr : Nat
  peerAsn : Nat
  pfx : Pfx
  aspath : List PathSeg
  newState : FsmState
deriving DecidableEq

/-- Record status (bgpstream_record_status_t). -/
inductive RecordStatus where
  | validRecord
  | corruptedSource
  | corruptedRecord
  | filteredSource
  | emptySource
deriving DecidableEq

/-- Record dump type (BGPSTREAM_RIB or BGPSTREAM_UPDATE). -/
inductive DumpType where
  | rib
  | update
deriving DecidableEq

/-- Position of a record inside its dump (start / middle / end). -/
inductive DumpPos where
  | start
  | middle
  | endPos
deriving DecidableEq

/-- A BGP record with its attributes and decoded elements. -/
structure RecordT where
  status : RecordStatus
  dump_type : DumpType
  dump_pos : DumpPos
  dump_time : Nat
  record_time : Nat
  dump_project : String
  dump_collector : String
  elems : List Elem
deriving DecidableEq

/-- Per-peer user payload (perpeer_info_t) together with the bgpwatcher
view peer active flag (`viewState`, modelled from the spec, section 4.C). -/
structure PerPeer where
  bgp_fsm_state : FsmState
  bgp_time_ref_rib_start : Nat
  bgp_time_ref_rib_end : Nat
  bgp_time_uc_rib_start : Nat
  bgp_time_uc_rib_end : Nat
  last_ts : Nat
  rib_positive_mismatches_cnt : Nat
  rib_negative_mismatches_cnt : Nat
  pfx_announcements_cnt : Nat
  pfx_withdrawals_cnt : Nat
  rib_messages_cnt : Nat
  state_messages_cnt : Nat
  announcing_ases : List Nat
  announced_v4_pfxs : List Pfx
  withdrawn_v4_pfxs : List Pfx
  announced_v6_pfxs : List Pfx
  withdrawn_v6_pfxs : List Pfx
  viewState : Bool
deriving DecidableEq

/-- Per-(prefix,peer) cell: the bgpwatcher view fields (`orig_asn` set via
set_orig_asn, `cellState` the cell active flag; modelled from the spec,
section 4.C) together with the user payload (perpfx_perpeer_info_t). -/
structure PfxPeer where
  orig_asn : Nat
  cellState : Bool
  bgp_time_last_ts : Nat
  bgp_time_uc_delta_ts : Nat
  uc_origin_asn : Nat
  announcements : Nat
  withdrawals : Nat
deriving DecidableEq

/-- Collector state enumeration (ROUTINGTABLES_COLLECTOR_STATE_*). -/
inductive CollectorState where
  | unknown
  | down
  | up
deriving DecidableEq

/-- Per-collector record (collector_t); wall-clock fields and the
metric/graphite strings are omitted (wall time is outside the model). -/
structure Collector where
  collector_peerids : List PeerSig
  bgp_time_last : Nat
  bgp_time_ref_rib_dump_time : Nat
  bgp_time_ref_rib_start_time : Nat
  bgp_time_uc_rib_dump_time : Nat
  bgp_time_uc_rib_start_time : Nat
  state : CollectorState
  active_peers_cnt : Nat
  valid_record_cnt : Nat
  corrupted_record_cnt : Nat
  empty_record_cnt : Nat
  publish_flag : Nat
deriving DecidableEq

/-- The whole engine state (routingtables_t): the view's peer table, the
view's (prefix, peer) cells, and the collector map. -/
structure RTState where
  peers : List (PeerSig × PerPeer)
  cells : List ((Pfx × PeerSig) × PfxPeer)
  collectors : List (String × Collector)
deriving DecidableEq

/-- First-match lookup in an association list (khash get). -/
def alook {K V : Type} [DecidableEq K] : List (K × V) → K → Option V
  | [], _ => none
  | (k, v) :: t, q => if k = q then some v else alook t q

/-- Store a key/value pair in an association list: replace the first
binding in place, or append a fresh binding at the end (khash put). -/
def aset {K V : Type} [DecidableEq K] : List (K × V) → K → V → List (K × V)
  | [], q, w => [(q, w)]
  | (k, v) :: t, q, w => if k = q then (q, w) :: t else (k, v) :: aset t q w

/-- Insert into a bgpstream id/prefix set: sets ignore duplicates. -/
def setInsert {A : Type} [DecidableEq A] (l : List A) (x : A) : List A :=
  if x ∈ l then l else x :: l

/-- get_origin_asn: last segment of the AS path; a plain ASN is returned
as is, a set/confederation becomes the CONFSET sentinel, an empty path
(and an ASN of 0) becomes the LOCAL sentinel. -/
def get_origin_asn (aspath : List PathSeg) : Nat :=
  let asn : Nat :=
    match aspath.getLast? with
    | none => 0
    | some (PathSeg.asn a) => a
    | some PathSeg.setOrConfed => ROUTINGTABLES_CONFSET_ORIGIN_ASN
  if asn = 0 then ROUTINGTABLES_LOCAL_ORIGIN_ASN else asn

/-- A freshly added (prefix, peer) cell: bgpwatcher add_pfx_peer stores
`asn` as the view origin, the caller immediately deactivates the cell, and
perpfx_perpeer_info_create zero-initialises the user payload with the DOWN
origin sentinel for the under-construction origin. -/
def newPfxPeer (asn : Nat) : PfxPeer :=
  { orig_asn := asn
    cellState := false
    bgp_time_last_ts := 0
    bgp_time_uc_delta_ts := 0
    uc_origin_asn := ROUTINGTABLES_DOWN_ORIGIN_ASN
    announcements := 0
    withdrawals := 0 }

/-- perpeer_info_create: all timestamps zero, fsm UNKNOWN, empty sets;
a freshly added view peer is inactive. -/
def perpeer_info_create : PerPeer :=
  { bgp_fsm_state := FsmState.unknown
    bgp_time_ref_rib_start := 0
    bgp_time_ref_rib_end := 0
    bgp_time_uc_rib_start := 0
    bgp_time_uc_rib_end := 0
    last_ts := 0
    rib_positive_mismatches_cnt := 0
    rib_negative_mismatches_cnt := 0
    pfx_announcements_cnt := 0
    pfx_withdrawals_cnt := 0
    rib_messages_cnt := 0
    state_messages_cnt := 0
    announcing_ases := []
    announced_v4_pfxs := []
    withdrawn_v4_pfxs := []
    announced_v6_pfxs := []
    withdrawn_v6_pfxs := []
    viewState := false }

/-- update_prefix_peer_stats: count the update on the cell. -/
def update_prefix_peer_stats (pp : PfxPeer) (etype : ElemType) : PfxPeer :=
  if etype = ElemType.announcement then
    { pp with announcements := pp.announcements + 1 }
  else
    { pp with withdrawals := pp.withdrawals + 1 }

/-- update_peer_stats: record the announced origin AS and sort the prefix
into the per-family announced/withdrawn set of the peer. -/
def update_peer_stats (p : PerPeer) (e : Elem) (asn : Nat) : PerPeer :=
  if e.etype = ElemType.announcement then
    let p1 := { p with announcing_ases := setInsert p.announcing_ases asn }
    if e.pfx.version = AddrVersion.v4 then
      { p1 with announced_v4_pfxs := setInsert p1.announced_v4_pfxs e.pfx }
    else
      { p1 with announced_v6_pfxs := setInsert p1.announced_v6_pfxs e.pfx }
  else
    if e.pfx.version = AddrVersion.v4 then
      { p with withdrawn_v4_pfxs := setInsert p.withdrawn_v4_pfxs e.pfx }
    else
      { p with withdrawn_v6_pfxs := setInsert p.withdrawn_v6_pfxs e.pfx }

/-- apply_prefix_update: fold one announcement or withdrawal for
`peer_id` at timestamp `ts` into the view.  The caller guarantees that the
peer exists (the source asserts it); on a missing peer the state is
returned unchanged. -/
def apply_prefix_update (s : RTState) (peer_id : PeerSig) (e : Elem)
    (ts : Nat) : RTState :=
  match alook s.peers peer_id with
  | none => s
  | some p0 =>
    let asn : Nat :=
      if e.etype = ElemType.announcement then get_origin_asn e.aspath
      else ROUTINGTABLES_DOWN_ORIGIN_ASN
    let p1 :=
      if e.etype = ElemType.announcement then
        { p0 with pfx_announcements_cnt := p0.pfx_announcements_cnt + 1 }
      else
        { p0 with pfx_withdrawals_cnt := p0.pfx_withdrawals_cnt + 1 }
    let p2 := update_peer_stats p1 e asn
    let key : Pfx × PeerSig := (e.pfx, peer_id)
    let cell0 :=
      match alook s.cells key with
      | some pp => pp
      | none => newPfxPeer asn
    if ts < cell0.bgp_time_last_ts then
      { s with
        peers := aset s.peers peer_id p2
        cells := aset s.cells key cell0 }
    else
      let cell1 := { cell0 with bgp_time_last_ts := ts, orig_asn := asn }
      let cell2 := update_prefix_peer_stats cell1 e.etype
      if p2.viewState then
        if cell2.cellState = false ∧ e.etype = ElemType.announcement then
          { s with
            peers := aset s.peers peer_id p2
            cells := aset s.cells key { cell2 with cellState := true } }
        else
          if cell2.cellState = true ∧ e.etype = ElemType.withdrawal then
            { s with
              peers := aset s.peers peer_id p2
              cells := aset s.cells key { cell2 with cellState := false } }
          else
            { s with
              peers := aset s.peers peer_id p2
              cells := aset s.cells key cell2 }
      else
        if p2.bgp_fsm_state = FsmState.unknown then
          if p2.bgp_time_uc_rib_start ≠ 0 then
            { s with
              peers := aset s.peers peer_id p2
              cells := aset s.cells key cell2 }
          else
            let cell3 :=
              { cell2 with
                bgp_time_last_ts := 0
                orig_asn := ROUTINGTABLES_DOWN_ORIGIN_ASN }
            let cell4 :=
              if e.etype = ElemType.announcement then
                { cell3 with announcements := cell3.announcements - 1 }
              else
                { cell3 with withdrawals := cell3.withdrawals - 1 }
            { s with
              peers := aset s.peers peer_id p2
              cells := aset s.cells key cell4 }
        else
          let p3 :=
            { p2 with
              viewState := true
              bgp_fsm_state := FsmState.established
              bgp_time_ref_rib_start := ts
              bgp_time_ref_rib_end := ts }
          let cell3 :=
            if e.etype = ElemType.announcement then
              { cell2 with cellState := true }
            else cell2
          { s with
            peers := aset s.peers peer_id p3
            cells := aset s.cells key cell3 }

/-- reset_peerpfxdata: wipe the live fields (and optionally the
under-construction fields) of every cell of `peer_id` and deactivate those
cells; a no-op when the peer is not in the view. -/
def reset_peerpfxdata (s : RTState) (peer_id : PeerSig)
    (reset_uc : Bool) : RTState :=
  match alook s.peers peer_id with
  | none => s
  | some _ =>
    { s with
      cells := s.cells.map (fun kpp =>
        (kpp.1,
         if kpp.1.2 = peer_id then
           let pp1 :=
             { kpp.2 with
               orig_asn := ROUTINGTABLES_DOWN_ORIGIN_ASN
               bgp_time_last_ts := 0 }
           let pp2 :=
             if reset_uc then
               { pp1 with
                 bgp_time_uc_delta_ts := 0
                 uc_origin_asn := ROUTINGTABLES_DOWN_ORIGIN_ASN }
             else pp1
           { pp2 with cellState := false }
         else kpp.2)) }

/-- apply_state_update: fold one peer-state message for `peer_id` at
timestamp `ts`.  The caller guarantees that the peer exists. -/
def apply_state_update (s : RTState) (peer_id : PeerSig)
    (new_state : FsmState) (ts : Nat) : RTState :=
  match alook s.peers peer_id with
  | none => s
  | some p0 =>
    let p1 := { p0 with state_messages_cnt := p0.state_messages_cnt + 1 }
    if p1.bgp_fsm_state = FsmState.established ∧
       new_state ≠ FsmState.established then
      let p2 :=
        { p1 with
          bgp_fsm_state := new_state
          bgp_time_ref_rib_start := ts
          bgp_time_ref_rib_end := ts }
      let reset_uc : Bool := ts ≥ p2.bgp_time_uc_rib_start
      let p3 :=
        if reset_uc then
          { p2 with bgp_time_uc_rib_start := 0, bgp_time_uc_rib_end := 0 }
        else p2
      let s1 := { s with peers := aset s.peers peer_id p3 }
      let s2 := reset_peerpfxdata s1 peer_id reset_uc
      { s2 with peers := aset s2.peers peer_id { p3 with viewState := false } }
    else
      if p1.bgp_fsm_state ≠ FsmState.established ∧
         new_state = FsmState.established then
        let p2 :=
          { p1 with
            bgp_fsm_state := new_state
            bgp_time_ref_rib_start := ts
            bgp_time_ref_rib_end := ts
            viewState := true }
        { s with peers := aset s.peers peer_id p2 }
      else
        if p1.bgp_fsm_state ≠ new_state then
          let p2 :=
            { p1 with
              bgp_fsm_state := new_state
              bgp_time_ref_rib_start := ts
              bgp_time_ref_rib_end := ts }
          { s with peers := aset s.peers peer_id p2 }
        else
          { s with peers := aset s.peers peer_id p1 }

/-- apply_rib_message: fold one RIB row for `peer_id` at timestamp `ts`:
start the peer's under-construction window if needed, extend its end, and
store the row's origin in the under-construction part of the cell only.
The caller guarantees that the peer exists. -/
def apply_rib_message (s : RTState) (peer_id : PeerSig) (e : Elem)
    (ts : Nat) : RTState :=
  match alook s.peers peer_id with
  | none => s
  | some p0 =>
    let p1 :=
      if p0.bgp_time_uc_rib_start = 0 then
        { p0 with bgp_time_uc_rib_start := ts }
      else p0
    let p2 :=
      { p1 with
        bgp_time_uc_rib_end := ts
        rib_messages_cnt := p1.rib_messages_cnt + 1 }
    let key : Pfx × PeerSig := (e.pfx, peer_id)
    let cell0 :=
      match alook s.cells key with
      | some pp => pp
      | none => newPfxPeer ROUTINGTABLES_DOWN_ORIGIN_ASN
    let cell1 :=
      { cell0 with
        bgp_time_uc_delta_ts := u32sub ts p2.bgp_time_uc_rib_start
        uc_origin_asn := get_origin_asn e.aspath }
    { s with
      peers := aset s.peers peer_id p2
      cells := aset s.cells key cell1 }

/-- Whether the view peer `pid` is present and inactive (the iterator
state test of the source's cell loops). -/
def peerIsInactive (peers : List (PeerSig × PerPeer)) (pid : PeerSig) :
    Bool :=
  match alook peers pid with
  | some p => !p.viewState
  | none => false

/-- stop_uc_process: abort the under-construction RIB of collector `c`:
clear the UC fields of every cell of the collector's peers (also wiping the
live fields of cells whose peer is inactive), clear every such peer's UC
window, and clear the collector's UC identity. -/
def stop_uc_process (s : RTState) (c : Collector) : RTState × Collector :=
  let cells1 := s.cells.map (fun kpp =>
    (kpp.1,
     if kpp.1.2 ∈ c.collector_peerids then
       let pp1 :=
         { kpp.2 with
           bgp_time_uc_delta_ts := 0
           uc_origin_asn := ROUTINGTABLES_DOWN_ORIGIN_ASN }
       if peerIsInactive s.peers kpp.1.2 then
         { pp1 with
           orig_asn := ROUTINGTABLES_DOWN_ORIGIN_ASN
           bgp_time_last_ts := 0 }
       else pp1
     else kpp.2))
  let peers1 := s.peers.map (fun kp =>
    (kp.1,
     if kp.1 ∈ c.collector_peerids then
       { kp.2 with bgp_time_uc_rib_start := 0, bgp_time_uc_rib_end := 0 }
     else kp.2))
  ({ s with cells := cells1, peers := peers1 },
   { c with bgp_time_uc_rib_dump_time := 0, bgp_time_uc_rib_start_time := 0 })

/-- The backlog predicate of end_of_valid_rib as a function of the peer's
uc_rib_start timestamp (uint32 arithmetic): the RIB timestamp for the cell
is newer than the live data, and the live data did not arrive within
ROUTINGTABLES_RIB_BACKLOG_TIME before the RIB start. -/
def backlogPredUc (pp : PfxPeer) (us : Nat) : Prop :=
  u32add pp.bgp_time_uc_delta_ts us > pp.bgp_time_last_ts ∧
  ¬ (pp.bgp_time_last_ts > u32sub us ROUTINGTABLES_RIB_BACKLOG_TIME)

instance (pp : PfxPeer) (us : Nat) : Decidable (backlogPredUc pp us) := by
  unfold backlogPredUc
  exact inferInstance

/-- The backlog predicate of end_of_valid_rib for a cell of peer `p`. -/
def backlogPredicate (pp : PfxPeer) (p : PerPeer) : Prop :=
  backlogPredUc pp p.bgp_time_uc_rib_start

instance (pp : PfxPeer) (p : PerPeer) : Decidable (backlogPredicate pp p) := by
  unfold backlogPredicate
  exact inferInstance

/-- One iteration of the cell loop of end_of_valid_rib, threading the peer
table: reconcile the under-construction data of one cell with its live
data. -/
def eovrCellStep (c : Collector)
    (acc : List (PeerSig × PerPeer) × List ((Pfx × PeerSig) × PfxPeer))
    (kpp : (Pfx × PeerSig) × PfxPeer) :
    List (PeerSig × PerPeer) × List ((Pfx × PeerSig) × PfxPeer) :=
  let peers := acc.1
  let cellsAcc := acc.2
  let k := kpp.1
  let pp := kpp.2
  match alook peers k.2 with
  | none => (peers, cellsAcc ++ [kpp])
  | some p =>
    if k.2 ∈ c.collector_peerids ∧ p.bgp_time_uc_rib_start ≠ 0 then
      if backlogPredicate pp p then
        if pp.uc_origin_asn ≠ ROUTINGTABLES_DOWN_ORIGIN_ASN then
          let p1 :=
            if pp.bgp_time_last_ts ≠ 0 ∧
               pp.orig_asn = ROUTINGTABLES_DOWN_ORIGIN_ASN then
              { p with
                rib_negative_mismatches_cnt :=
                  p.rib_negative_mismatches_cnt + 1 }
            else p
          let pp1 :=
            { pp with
              bgp_time_last_ts :=
                u32add pp.bgp_time_uc_delta_ts p.bgp_time_uc_rib_start
              orig_asn := pp.uc_origin_asn
              cellState := true
              bgp_time_uc_delta_ts := 0
              uc_origin_asn := ROUTINGTABLES_DOWN_ORIGIN_ASN }
          let p2 :=
            { p1 with
              viewState := true
              bgp_fsm_state := FsmState.established
              bgp_time_ref_rib_start := p.bgp_time_uc_rib_start
              bgp_time_ref_rib_end := p.bgp_time_uc_rib_end }
          (aset peers k.2 p2, cellsAcc ++ [(k, pp1)])
        else
          let p1 :=
            if pp.cellState then
              { p with
                rib_positive_mismatches_cnt :=
                  p.rib_positive_mismatches_cnt + 1 }
            else p
          let pp1 :=
            { pp with
              bgp_time_last_ts := 0
              orig_asn := ROUTINGTABLES_DOWN_ORIGIN_ASN
              cellState := false
              bgp_time_uc_delta_ts := 0
              uc_origin_asn := ROUTINGTABLES_DOWN_ORIGIN_ASN }
          (aset peers k.2 p1, cellsAcc ++ [(k, pp1)])
      else
        if pp.orig_asn ≠ ROUTINGTABLES_DOWN_ORIGIN_ASN then
          let p1 :=
            { p with
              viewState := true
              bgp_fsm_state := FsmState.established
              bgp_time_ref_rib_start := p.bgp_time_uc_rib_start
              bgp_time_ref_rib_end := p.bgp_time_uc_rib_end }
          let pp1 :=
            { pp with
              cellState := true
              bgp_time_uc_delta_ts := 0
              uc_origin_asn := ROUTINGTABLES_DOWN_ORIGIN_ASN }
          (aset peers k.2 p1, cellsAcc ++ [(k, pp1)])
        else
          let pp1 :=
            { pp with
              bgp_time_uc_delta_ts := 0
              uc_origin_asn := ROUTINGTABLES_DOWN_ORIGIN_ASN }
          (peers, cellsAcc ++ [(k, pp1)])
    else (peers, cellsAcc ++ [kpp])

/-- One iteration of the peer loop of end_of_valid_rib, threading the cell
table: demote peers that disappeared from the routing table, and clear the
UC window of the peers that took part in the RIB. -/
def eovrPeerStep (c : Collector)
    (acc : List (PeerSig × PerPeer) × List ((Pfx × PeerSig) × PfxPeer))
    (kp : PeerSig × PerPeer) :
    List (PeerSig × PerPeer) × List ((Pfx × PeerSig) × PfxPeer) :=
  let peersAcc := acc.1
  let cells := acc.2
  let k := kp.1
  let p := kp.2
  if k ∈ c.collector_peerids then
    if p.bgp_time_uc_rib_start = 0 ∧
       p.last_ts <
         u32sub c.bgp_time_last ROUTINGTABLES_MAX_INACTIVE_TIME then
      if p.bgp_fsm_state = FsmState.established then
        let p1 :=
          { p with
            bgp_fsm_state := FsmState.unknown
            viewState := false }
        let cells1 := cells.map (fun kpp =>
          (kpp.1,
           if kpp.1.2 = k then
             { kpp.2 with
               orig_asn := ROUTINGTABLES_DOWN_ORIGIN_ASN
               bgp_time_last_ts := 0
               cellState := false }
           else kpp.2))
        (peersAcc ++ [(k, p1)], cells1)
      else (peersAcc ++ [(k, p)], cells)
    else
      (peersAcc ++
        [(k,
          { p with bgp_time_uc_rib_start := 0, bgp_time_uc_rib_end := 0 })],
       cells)
  else (peersAcc ++ [(k, p)], cells)

/-- end_of_valid_rib: on the end of a RIB dump, reconcile every cell of the
collector's peers with the under-construction data (backlog rule), demote
peers that disappeared from the routing table, and promote the collector's
UC RIB identity to the reference identity. -/
def end_of_valid_rib (s : RTState) (c : Collector) : RTState × Collector :=
  let pc1 := s.cells.foldl (eovrCellStep c) (s.peers, [])
  let pc2 := pc1.1.foldl (eovrPeerStep c) ([], pc1.2)
  ({ s with peers := pc2.1, cells := pc2.2 },
   { c with
     publish_flag := 1
     bgp_time_ref_rib_dump_time := c.bgp_time_uc_rib_dump_time
     bgp_time_ref_rib_start_time := c.bgp_time_uc_rib_start_time
     bgp_time_uc_rib_dump_time := 0
     bgp_time_uc_rib_start_time := 0 })

/-- update_collector_state: raise bgp_time_last monotonically, count the
collector's active peers, and recompute the collector state (the wall-clock
refresh of the source is outside the model). -/
def update_collector_state (s : RTState) (c : Collector)
    (record_time : Nat) : Collector :=
  let c1 :=
    if record_time > c.bgp_time_last then
      { c with bgp_time_last := record_time }
    else c
  let cu := s.peers.foldl (fun (acc : Nat × Bool) kp =>
    if kp.1 ∈ c.collector_peerids then
      if kp.2.viewState then (acc.1 + 1, acc.2)
      else
        if kp.2.bgp_fsm_state ≠ FsmState.unknown then (acc.1, false)
        else acc
    else acc) (0, true)
  let st :=
    if cu.1 ≠ 0 then CollectorState.up
    else if cu.2 then CollectorState.unknown
    else CollectorState.down
  { c1 with active_peers_cnt := cu.1, state := st }

/-- The route-server check of collector_process_valid_bgpinfo: the first
segment of the AS path is a plain ASN different from the peer's ASN. -/
def elemFirstSegForeign (e : Elem) : Bool :=
  match e.aspath.head? with
  | some (PathSeg.asn a) => a != e.peerAsn
  | some PathSeg.setOrConfed => false
  | none => false

/-- One iteration of the element loop of collector_process_valid_bgpinfo:
skip route-server and locally-originated reachability elements, create the
peer on first sight, record it with the collector, stamp its last_ts, and
dispatch on the element type. -/
def elemStep (r : RecordT) (acc : RTState × Collector) (e : Elem) :
    RTState × Collector :=
  let s := acc.1
  let c := acc.2
  if (e.etype = ElemType.ribRow ∨ e.etype = ElemType.announcement) ∧
     (e.aspath.length = 0 ∨ elemFirstSegForeign e = true) then
    (s, c)
  else
    let pid : PeerSig :=
      { collector := r.dump_collector
        peerAddr := e.peerAddr
        peerAsn := e.peerAsn }
    let p0 :=
      match alook s.peers pid with
      | some p => p
      | none => perpeer_info_create
    let s1 :=
      { s with
        peers := aset s.peers pid ({ p0 with last_ts := r.record_time }) }
    let c1 :=
      if pid ∈ c.collector_peerids then c
      else { c with collector_peerids := c.collector_peerids ++ [pid] }
    match e.etype with
    | ElemType.announcement => (apply_prefix_update s1 pid e r.record_time, c1)
    | ElemType.withdrawal => (apply_prefix_update s1 pid e r.record_time, c1)
    | ElemType.peerState =>
        (apply_state_update s1 pid e.newState r.record_time, c1)
    | ElemType.ribRow => (apply_rib_message s1 pid e r.record_time, c1)

/-- collector_process_valid_bgpinfo: handle RIB start records (restarting a
stale UC process), ignore RIB records of a different dump, fold every
element, and run end_of_valid_rib on a RIB end record. -/
def collector_process_valid_bgpinfo (s : RTState) (c : Collector)
    (r : RecordT) : RTState × Collector :=
  let sc1 :=
    if r.dump_type = DumpType.rib then
      if r.dump_pos = DumpPos.start then
        let sc0 :=
          if c.bgp_time_uc_rib_dump_time ≠ 0 then stop_uc_process s c
          else (s, c)
        (sc0.1,
         { sc0.2 with
           bgp_time_uc_rib_dump_time := r.dump_time
           bgp_time_uc_rib_start_time := r.record_time })
      else (s, c)
    else (s, c)
  if r.dump_type = DumpType.rib ∧
     r.dump_time ≠ sc1.2.bgp_time_uc_rib_dump_time then
    sc1
  else
    let sc2 := r.elems.foldl (elemStep r) sc1
    if r.dump_type = DumpType.rib ∧ r.dump_pos = DumpPos.endPos then
      end_of_valid_rib sc2.1 sc2.2
    else sc2

/-- collector_process_corrupted_message: peers whose reference (resp.
under-construction) RIB window is hit by the corrupted record get their
live (resp. UC) information reset. -/
def collector_process_corrupted_message (s : RTState) (c : Collector)
    (record_time : Nat) : RTState :=
  let cor_affected := c.collector_peerids.filter (fun pid =>
    match alook s.peers pid with
    | some p =>
        decide (p.bgp_time_ref_rib_start ≠ 0 ∧
                record_time ≥ p.bgp_time_ref_rib_start)
    | none => false)
  let cor_uc_affected := c.collector_peerids.filter (fun pid =>
    match alook s.peers pid with
    | some p =>
        decide (p.bgp_time_uc_rib_start ≠ 0 ∧
                record_time ≥ p.bgp_time_uc_rib_start)
    | none => false)
  let cells1 := s.cells.map (fun kpp =>
    let pp1 :=
      if kpp.1.2 ∈ cor_affected ∧ kpp.2.bgp_time_last_ts ≠ 0 ∧
         kpp.2.bgp_time_last_ts ≤ record_time then
        { kpp.2 with
          bgp_time_last_ts := 0
          orig_asn := ROUTINGTABLES_DOWN_ORIGIN_ASN
          cellState := false }
      else kpp.2
    let pp2 :=
      if kpp.1.2 ∈ cor_uc_affected then
        { pp1 with
          bgp_time_uc_delta_ts := 0
          uc_origin_asn := ROUTINGTABLES_DOWN_ORIGIN_ASN }
      else pp1
    (kpp.1, pp2))
  let peers1 := s.peers.map (fun kp =>
    let p1 :=
      if kp.1 ∈ cor_affected then
        { kp.2 with
          bgp_fsm_state := FsmState.unknown
          bgp_time_ref_rib_start := 0
          bgp_time_ref_rib_end := 0
          viewState := false }
      else kp.2
    let p2 :=
      if kp.1 ∈ cor_uc_affected then
        { p1 with bgp_time_uc_rib_start := 0, bgp_time_uc_rib_end := 0 }
      else p1
    (kp.1, p2))
  { s with cells := cells1, peers := peers1 }

/-- A freshly created collector (get_collector_data). -/
def collector_create : Collector :=
  { collector_peerids := []
    bgp_time_last := 0
    bgp_time_ref_rib_dump_time := 0
    bgp_time_ref_rib_start_time := 0
    bgp_time_uc_rib_dump_time := 0
    bgp_time_uc_rib_start_time := 0
    state := CollectorState.unknown
    active_peers_cnt := 0
    valid_record_cnt := 0
    corrupted_record_cnt := 0
    empty_record_cnt := 0
    publish_flag := 0 }

/-- The body of routingtables_process_record after the early-discard check:
dispatch on the record status, then recompute the collector state. -/
def processRecordBody (s : RTState) (c : Collector) (r : RecordT) :
    RTState :=
  let sc1 :=
    match r.status with
    | RecordStatus.validRecord =>
      let sc := collector_process_valid_bgpinfo s c r
      (sc.1, { sc.2 with valid_record_cnt := sc.2.valid_record_cnt + 1 })
    | RecordStatus.corruptedSource =>
      (collector_process_corrupted_message s c r.record_time,
       { c with corrupted_record_cnt := c.corrupted_record_cnt + 1 })
    | RecordStatus.corruptedRecord =>
      (collector_process_corrupted_message s c r.record_time,
       { c with corrupted_record_cnt := c.corrupted_record_cnt + 1 })
    | RecordStatus.filteredSource =>
      let cb :=
        if r.record_time < c.bgp_time_last then
          { c with bgp_time_last := r.record_time }
        else c
      (s, { cb with empty_record_cnt := cb.empty_record_cnt + 1 })
    | RecordStatus.emptySource =>
      let cb :=
        if r.record_time < c.bgp_time_last then
          { c with bgp_time_last := r.record_time }
        else c
      (s, { cb with empty_record_cnt := cb.empty_record_cnt + 1 })
  let c2 := update_collector_state sc1.1 sc1.2 r.record_time
  { sc1.1 with collectors := aset sc1.1.collectors r.dump_collector c2 }

/-- routingtables_process_record: find or create the collector's data, then
discard the record if it refers to a time prior to the reference RIB start
(the inner check of the source repeats the comparison against the reference
RIB start time), otherwise process it according to its status. -/
def routingtables_process_record (s : RTState) (r : RecordT) : RTState :=
  let cs0 :=
    match alook s.collectors r.dump_collector with
    | some c => (c, s)
    | none =>
      (collector_create,
       { s with
         collectors := aset s.collectors r.dump_collector collector_create })
  let c0 := cs0.1
  let s0 := cs0.2
  if r.record_time < c0.bgp_time_ref_rib_start_time ∧
     c0.bgp_time_uc_rib_dump_time ≠ 0 ∧
     r.record_time < c0.bgp_time_ref_rib_start_time then
    s0
  else
    processRecordBody s0 c0 r

/-- routingtables_create: the empty engine state. -/
def routingtables_create : RTState :=
  { peers := [], cells := [], collectors := [] }

/-- Fold a list of records into the engine from creation; used to express
reachability of states. -/
def processRecords (rs : List RecordT) : RTState :=
  rs.foldl routingtables_process_record routingtables_create

/-- Whether the view peer `pid` is present and active. -/
def peerActiveOf (s : RTState) (pid : PeerSig) : Bool :=
  match alook s.peers pid with
  | some p => p.viewState
  | none => false

/-- Whether the view peer `pid` is present with a known fsm state. -/
def peerFsmKnown (s : RTState) (pid : PeerSig) : Bool :=
  match alook s.peers pid with
  | some p => decide (p.bgp_fsm_state ≠ FsmState.unknown)
  | none => false

/-- The collector state the claimed invariant prescribes: Up iff at least
one peer of the collector is active, otherwise Down if at least one has a
known fsm state, otherwise Unknown. -/
def expectedCollectorState (s : RTState) (c : Collector) : CollectorState :=
  if c.collector_peerids.any (peerActiveOf s) then CollectorState.up
  else if c.collector_peerids.any (peerFsmKnown s) then CollectorState.down
  else CollectorState.unknown

/-- The claimed collector-state invariant, for every collector. -/
def CollectorsStateOk (s : RTState) : Prop :=
  ∀ cname c, alook s.collectors cname = some c →
    c.state = expectedCollectorState s c

/-- Structural well-formedness the engine maintains: the peer table and the
collector map have no duplicate keys, and every peer id recorded with a
collector carries that collector's name in its signature. -/
def StateWF (s : RTState) : Prop :=
  (s.peers.map Prod.fst).Nodup ∧
  (s.collectors.map Prod.fst).Nodup ∧
  ∀ cname c, alook s.collectors cname = some c →
    ∀ pid ∈ c.collector_peerids, pid.collector = cname

/-- Zero the announcement/withdrawal counters of a cell (the fields whose
values are not idempotent under replay). -/
def stripCellCounters (pp : PfxPeer) : PfxPeer :=
  { pp with announcements := 0, withdrawals := 0 }

/-- Zero the per-peer announcement/withdrawal counters. -/
def stripPeerCounters (p : PerPeer) : PerPeer :=
  { p with pfx_announcements_cnt := 0, pfx_withdrawals_cnt := 0 }

/-- The engine state with every announcement/withdrawal counter (per cell
and per peer) zeroed out; two states equal under this projection agree on
everything except those counters. -/
def stripCounters (s : RTState) : RTState :=
  { s with
    peers := s.peers.map (fun kp => (kp.1, stripPeerCounters kp.2))
    cells := s.cells.map (fun kpp => (kpp.1, stripCellCounters kpp.2)) }

/-- Concrete prefix used by witnesses. -/
def pfxW : Pfx := { version := AddrVersion.v4, val := 10 }

/-- Concrete peer signature used by witnesses. -/
def pidW : PeerSig := { collector := "rrc00", peerAddr := 1, peerAsn := 65001 }

/-- A peer-state element for peer 65001. -/
def elemStateW (st : FsmState) : Elem :=
  { etype := ElemType.peerState
    peerAddr := 1
    peerAsn := 65001
    pfx := pfxW
    aspath := []
    newState := st }

/-- An announcement element for peer 65001 with origin 65002. -/
def elemAnnW : Elem :=
  { etype := ElemType.announcement
    peerAddr := 1
    peerAsn := 65001
    pfx := pfxW
    aspath := [PathSeg.asn 65001, PathSeg.asn 65002]
    newState := FsmState.unknown }

/-- A valid updates record for collector rrc00 at time `t`. -/
def updRecW (t : Nat) (es : List Elem) : RecordT :=
  { status := RecordStatus.validRecord
    dump_type := DumpType.update
    dump_pos := DumpPos.middle
    dump_time := 0
    record_time := t
    dump_project := "ris"
    dump_collector := "rrc00"
    elems := es }

/-- An empty-source record for collector rrc00 at time `t`. -/
def emptyRecW (t : Nat) : RecordT :=
  { status := RecordStatus.emptySource
    dump_type := DumpType.update
    dump_pos := DumpPos.middle
    dump_time := 0
    record_time := t
    dump_project := "ris"
    dump_collector := "rrc00"
    elems := [] }

/-- Reachable state with peer 65001 established at time 100 (witness state
for replay idempotence). -/
def stateEstabW : RTState := processRecords [updRecW 100 [elemStateW FsmState.established]]

/-- Reachable state in which peer 65001 went Established at 5 and then
Idle at 7; its reference RIB window is [7, 7]. -/
def stateIdleW : RTState :=
  processRecords
    [updRecW 5 [elemStateW FsmState.established],
     updRecW 7 [elemStateW FsmState.idle]]

/-- A small literal state for the RIB-row witness: peer 65001 with an
under-construction window [2000, 2005] and one live cell. -/
def peerRibW : PerPeer :=
  { perpeer_info_create with
    bgp_fsm_state := FsmState.established
    viewState := true
    bgp_time_uc_rib_start := 2000
    bgp_time_uc_rib_end := 2005 }

/-- The live cell of the RIB-row witness: announced at 1000 by AS 65003,
no under-construction data. -/
def cellRibW : PfxPeer :=
  { orig_asn := 65003
    cellState := true
    bgp_time_last_ts := 1000
    bgp_time_uc_delta_ts := 0
    uc_origin_asn := ROUTINGTABLES_DOWN_ORIGIN_ASN
    announcements := 1
    withdrawals := 0 }

/-- Collector data of the RIB witness state. -/
def collRibW : Collector :=
  { collector_create with
    collector_peerids := [pidW]
    bgp_time_last := 2005
    bgp_time_uc_rib_dump_time := 2000
    bgp_time_uc_rib_start_time := 2000 }

/-- The RIB witness state itself. -/
def stateRibW : RTState :=
  { peers := [(pidW, peerRibW)]
    cells := [((pfxW, pidW), cellRibW)]
    collectors := [("rrc00", collRibW)] }

/-- Collector whose reference RIB starts at 10 while an under-construction
RIB (dump time 5) is in progress; used by the discard witness. -/
def collDiscardW : Collector :=
  { collector_create with
    bgp_time_ref_rib_start_time := 10
    bgp_time_uc_rib_dump_time := 5 }

/-- State for the discard witness. -/
def stateDiscardW : RTState :=
  { peers := [], cells := [], collectors := [("rrc00", collDiscardW)] }

/-! ### Patricia tree (bgpstream_utils_patricia.c)

Prefixes are stored with their address as a list of byte values (the
16-byte `bgpstream_pfx_storage_t` address, zero beyond the bytes given);
tree nodes mirror `bgpstream_patricia_node_t` (a glue node is a node whose
prefix slot is empty; its zeroed address storage reads as zero bytes).
Node identity (the C node pointer) is rendered as the node's position: the
list of left/right branch directions from the head of its family tree. -/

/-- BGPSTREAM_PATRICIA_MAXBITS. -/
def BGPSTREAM_PATRICIA_MAXBITS : Nat := 128

/-- Byte `i` of an address storage (reads beyond the stored bytes see the
zero-initialised remainder of the 16-byte storage). -/
def byteAt (a : List Nat) (i : Nat) : Nat := a.getD i 0

/-- BIT_TEST(addr[b >> 3], 0x80 >> (b & 0x07)): bit `b` of the address in
network order. -/
def bitTest (a : List Nat) (b : Nat) : Bool :=
  Nat.land (byteAt a (b / 8)) (Nat.shiftRight 128 (b % 8)) != 0

/-- A stored prefix: family, address bytes, mask length. -/
structure PatPfx where
  version : AddrVersion
  addr : List Nat
  maskLen : Nat
deriving DecidableEq

/-- One family tree: empty stands for a NULL child pointer; a node carries
its branch bit, an optional prefix (none for glue nodes), the user payload
slot, and two children. -/
inductive PTree where
  | empty
  | node (bit : Nat) (pfx : Option PatPfx) (user : Nat) (l : PTree) (r : PTree)
deriving DecidableEq

/-- A direction out of a node. -/
inductive PDir where
  | left
  | right
deriving DecidableEq

/-- The byte storage a node presents to the differ loop: its prefix's
address, or the zeroed storage of a glue node. -/
def nodeStorageAddr (px : Option PatPfx) : List Nat :=
  match px with
  | some q => q.addr
  | none => []

/-- One zipper frame: the data of a parent node with a hole in place of
one child. -/
structure PCtx where
  bit : Nat
  pfx : Option PatPfx
  user : Nat
  dir : PDir
  sibling : PTree
deriving DecidableEq

/-- Rebuild the parent node of a frame around a subtree. -/
def plugFrame (t : PTree) (f : PCtx) : PTree :=
  match f.dir with
  | PDir.left => PTree.node f.bit f.pfx f.user t f.sibling
  | PDir.right => PTree.node f.bit f.pfx f.user f.sibling t

/-- Rebuild the whole tree around a subtree, innermost frame first. -/
def plug (t : PTree) : List PCtx → PTree
  | [] => t
  | f :: rest => plug (plugFrame t f) rest

/-- The root-to-hole direction path of a context. -/
def ctxPath (ctx : List PCtx) : List PDir := (ctx.map PCtx.dir).reverse

/-- The subtree of `t` at a direction path. -/
def nodeAt : PTree → List PDir → Option PTree
  | PTree.empty, _ => none
  | PTree.node b px u l r, [] => some (PTree.node b px u l r)
  | PTree.node _ _ _ l _, PDir.left :: ρ => nodeAt l ρ
  | PTree.node _ _ _ _ r, PDir.right :: ρ => nodeAt r ρ

/-- The descent loop of bgpstream_patricia_tree_insert: walk down while the
current node's bit is below the searched mask length or the node is glue,
stopping early at a missing child; frames of the traversal are collected
innermost-first. -/
def navigate (addr : List Nat) (bitlen : Nat) :
    PTree → List PCtx → PTree × List PCtx
  | PTree.empty, ctx => (PTree.empty, ctx)
  | PTree.node b px u l r, ctx =>
    if b < bitlen ∨ px = none then
      if b < BGPSTREAM_PATRICIA_MAXBITS ∧ bitTest addr b then
        match r with
        | PTree.empty => (PTree.node b px u l r, ctx)
        | PTree.node b2 px2 u2 l2 r2 =>
          navigate addr bitlen (PTree.node b2 px2 u2 l2 r2)
            (⟨b, px, u, PDir.right, l⟩ :: ctx)
      else
        match l with
        | PTree.empty => (PTree.node b px u l r, ctx)
        | PTree.node b2 px2 u2 l2 r2 =>
          navigate addr bitlen (PTree.node b2 px2 u2 l2 r2)
            (⟨b, px, u, PDir.left, r⟩ :: ctx)
    else (PTree.node b px u l r, ctx)

/-- The inner loop of the differ-bit computation: index of the first bit
set in a byte, scanning 0x80 down to 0x01 (7 when no bit among the first
seven is set). -/
def firstDiffInByte (rb : Nat) : Nat :=
  if Nat.land rb 128 != 0 then 0
  else if Nat.land rb 64 != 0 then 1
  else if Nat.land rb 32 != 0 then 2
  else if Nat.land rb 16 != 0 then 3
  else if Nat.land rb 8 != 0 then 4
  else if Nat.land rb 4 != 0 then 5
  else if Nat.land rb 2 != 0 then 6
  else 7

/-- The byte loop of the differ-bit computation: compare bytes while
`i * 8 < check_bit`; on the first differing byte return the position of its
first differing bit, otherwise remember the bit count compared so far. -/
def differByteLoop (addr taddr : List Nat) (check_bit : Nat)
    (i differ : Nat) : Nat :=
  if h : i * 8 < check_bit then
    let rb := Nat.xor (byteAt addr i) (byteAt taddr i)
    if rb = 0 then differByteLoop addr taddr check_bit (i + 1) ((i + 1) * 8)
    else i * 8 + firstDiffInByte rb
  else differ
termination_by check_bit - i * 8
decreasing_by omega

/-- The differ-bit of the insert routine: the byte-loop result clamped to
`check_bit`. -/
def differBit (addr taddr : List Nat) (check_bit : Nat) : Nat :=
  let d := differByteLoop addr taddr check_bit 0 0
  if d > check_bit then check_bit else d

/-- The climb of the insert routine: go back up while the parent's bit is
at least the differ-bit. -/
def walkUp (differ : Nat) : PTree → List PCtx → PTree × List PCtx
  | t, [] => (t, [])
  | t, f :: rest =>
    if f.bit ≥ differ then walkUp differ (plugFrame t f) rest
    else (t, f :: rest)

/-- The two-family Patricia tree with its per-family prefix counts. -/
structure PatTree where
  head4 : PTree
  head6 : PTree
  ipv4_active_nodes : Nat
  ipv6_active_nodes : Nat
deriving DecidableEq

/-- Head of the family tree of an address version. -/
def getHead (pt : PatTree) (v : AddrVersion) : PTree :=
  match v with
  | AddrVersion.v4 => pt.head4
  | AddrVersion.v6 => pt.head6

/-- Replace the head of the family tree of an address version. -/
def setHead (pt : PatTree) (v : AddrVersion) (t : PTree) : PatTree :=
  match v with
  | AddrVersion.v4 => { pt with head4 := t }
  | AddrVersion.v6 => { pt with head6 := t }

/-- bgpstream_patricia_node_create bumps the family's active-node count. -/
def bumpCount (pt : PatTree) (v : AddrVersion) : PatTree :=
  match v with
  | AddrVersion.v4 => { pt with ipv4_active_nodes := pt.ipv4_active_nodes + 1 }
  | AddrVersion.v6 => { pt with ipv6_active_nodes := pt.ipv6_active_nodes + 1 }

/-- bgpstream_patricia_tree_insert: returns the updated tree together with
the position (direction path) of the node the function returns. -/
def bgpstream_patricia_tree_insert (pt : PatTree) (pfx : PatPfx) :
    PatTree × List PDir :=
  let v := pfx.version
  let bitlen := pfx.maskLen
  let addr := pfx.addr
  match getHead pt v with
  | PTree.empty =>
    (setHead (bumpCount pt v) v
      (PTree.node bitlen (some pfx) 0 PTree.empty PTree.empty), [])
  | PTree.node hb hpx hu hl hr =>
    let nc := navigate addr bitlen (PTree.node hb hpx hu hl hr) []
    match nc.1 with
    | PTree.empty => (pt, [])
    | PTree.node sb spx _ _ _ =>
      let test_addr := nodeStorageAddr spx
      let check_bit := if sb < bitlen then sb else bitlen
      let differ := differBit addr test_addr check_bit
      let wc := walkUp differ nc.1 nc.2
      match wc.1 with
      | PTree.empty => (pt, [])
      | PTree.node nb npx nu nl nr =>
        if differ = bitlen ∧ nb = bitlen then
          match npx with
          | some _ => (pt, ctxPath wc.2)
          | none =>
            (setHead pt v (plug (PTree.node nb (some pfx) nu nl nr) wc.2),
             ctxPath wc.2)
        else
          let newNode := PTree.node bitlen (some pfx) 0 PTree.empty PTree.empty
          if nb = differ then
            let goRight : Bool :=
              decide (nb < BGPSTREAM_PATRICIA_MAXBITS) && bitTest addr nb
            let node1 :=
              if goRight then PTree.node nb npx nu nl newNode
              else PTree.node nb npx nu newNode nr
            let dir1 := if goRight then PDir.right else PDir.left
            (setHead (bumpCount pt v) v (plug node1 wc.2),
             ctxPath wc.2 ++ [dir1])
          else
            if bitlen = differ then
              let childRight : Bool :=
                decide (bitlen < BGPSTREAM_PATRICIA_MAXBITS) &&
                  bitTest test_addr bitlen
              let node1 :=
                if childRight then
                  PTree.node bitlen (some pfx) 0 PTree.empty
                    (PTree.node nb npx nu nl nr)
                else
                  PTree.node bitlen (some pfx) 0
                    (PTree.node nb npx nu nl nr) PTree.empty
              (setHead (bumpCount pt v) v (plug node1 wc.2), ctxPath wc.2)
            else
              let newRight : Bool :=
                decide (differ < BGPSTREAM_PATRICIA_MAXBITS) &&
                  bitTest addr differ
              let glue :=
                if newRight then
                  PTree.node differ none 0 (PTree.node nb npx nu nl nr) newNode
                else
                  PTree.node differ none 0 newNode (PTree.node nb npx nu nl nr)
              let dir1 := if newRight then PDir.right else PDir.left
              (setHead (bumpCount pt v) v (plug glue wc.2),
               ctxPath wc.2 ++ [dir1])

/-- comp_with_mask: the leading `mask / 8` bytes match and, unless the mask
is byte-aligned, the remaining `mask % 8` bits of the next byte match. -/
def comp_with_mask (a d : List Nat) (mask : Nat) : Bool :=
  if (List.range (mask / 8)).all (fun i => byteAt a i == byteAt d i) then
    let n := mask / 8
    let m := 256 - 2 ^ (8 - mask % 8)
    decide (mask % 8 = 0) ||
      (Nat.land (byteAt a n) m == Nat.land (byteAt d n) m)
  else false

/-- The descent loop of bgpstream_patricia_tree_search_exact, returning the
reached node and its position; none on a NULL child. -/
def searchNav (addr : List Nat) (bitlen : Nat) :
    PTree → List PDir → Option (PTree × List PDir)
  | PTree.empty, _ => none
  | PTree.node b px u l r, path =>
    if b < bitlen then
      if bitTest addr b then searchNav addr bitlen r (path ++ [PDir.right])
      else searchNav addr bitlen l (path ++ [PDir.left])
    else some (PTree.node b px u l r, path)

/-- bgpstream_patricia_tree_search_exact: returns the position of the exact
prefix node, or none. -/
def bgpstream_patricia_tree_search_exact (pt : PatTree) (pfx : PatPfx) :
    Option (List PDir) :=
  match getHead pt pfx.version with
  | PTree.empty => none
  | PTree.node hb hpx hu hl hr =>
    match searchNav pfx.addr pfx.maskLen (PTree.node hb hpx hu hl hr) [] with
    | none => none
    | some (PTree.empty, _) => none
    | some (PTree.node b px _ _ _, path) =>
      if b > pfx.maskLen ∨ px = none then none
      else
        match px with
        | none => none
        | some q =>
          if comp_with_mask q.addr pfx.addr pfx.maskLen then some path
          else none

/-- Agreement of two addresses on the first `n` bits. -/
def bitsAgreeUpTo (a d : List Nat) (n : Nat) : Bool :=
  (List.range n).all (fun i => bitTest a i == bitTest d i)

/-- Every prefix node of a tree satisfies a property. -/
def allPfxNodes (f : PatPfx → Bool) : PTree → Bool
  | PTree.empty => true
  | PTree.node _ px _ l r =>
    (match px with
     | some q => f q
     | none => true) && allPfxNodes f l && allPfxNodes f r

/-- The root of a nonempty tree has a branch bit above `b`. -/
def rootBitGt (b : Nat) : PTree → Bool
  | PTree.empty => true
  | PTree.node b2 _ _ _ _ => decide (b < b2)

/-- Whether a tree is empty (a NULL pointer). -/
def isEmptyT : PTree → Bool
  | PTree.empty => true
  | PTree.node _ _ _ _ _ => false

/-- Well-formedness of one family tree, rooted at version `ver`: branch
bits are at most 128 and strictly increase downward; a glue node has two
children; a prefix node's bit is its mask length, its version matches the
family, its address bytes are bytes, and every prefix below it agrees with
it on its first `bit` bits; prefix nodes below a node lie on the side their
address bit at the node's branch bit dictates. -/
def wfTree (ver : AddrVersion) : PTree → Bool
  | PTree.empty => true
  | PTree.node b px _ l r =>
    decide (b ≤ BGPSTREAM_PATRICIA_MAXBITS) &&
    (match px with
     | some q =>
       decide (q.maskLen = b) && decide (q.version = ver) &&
       q.addr.all (fun x => decide (x < 256)) &&
       allPfxNodes (fun q2 => bitsAgreeUpTo q.addr q2.addr b) l &&
       allPfxNodes (fun q2 => bitsAgreeUpTo q.addr q2.addr b) r
     | none => !isEmptyT l && !isEmptyT r) &&
    rootBitGt b l && rootBitGt b r &&
    allPfxNodes (fun q2 => !bitTest q2.addr b) l &&
    allPfxNodes (fun q2 => bitTest q2.addr b) r &&
    wfTree ver l && wfTree ver r

/-- Well-formedness of the two-family tree. -/
def wfPat (pt : PatTree) : Bool :=
  wfTree AddrVersion.v4 pt.head4 && wfTree AddrVersion.v6 pt.head6

/-- A prefix argument as the C API receives it: mask length within range
and address made of bytes. -/
def wfQuery (pfx : PatPfx) : Bool :=
  decide (pfx.maskLen ≤ BGPSTREAM_PATRICIA_MAXBITS) &&
  pfx.addr.all (fun x => decide (x < 256))

/-- A concrete witness tree node: 10.64.0.0/16 (bit 8 of its address is 0,
so it hangs on the left of the /8 head). -/
def patNodeW : PTree :=
  PTree.node 16 (some ⟨AddrVersion.v4, [10, 64], 16⟩) 7 PTree.empty PTree.empty

/-- The witness Patricia tree: 10.0.0.0/8 at the head with 10.64.0.0/16 as
its left child. -/
def patTreeW : PatTree :=
  { head4 := PTree.node 8 (some ⟨AddrVersion.v4, [10], 8⟩) 3 patNodeW PTree.empty
    head6 := PTree.empty
    ipv4_active_nodes := 2
    ipv6_active_nodes := 0 }

/-- The witness prefix 10.64.0.0/16, written with trailing zero bytes the
way a full storage would carry them. -/
def patPfxW : PatPfx := ⟨AddrVersion.v4, [10, 64, 0, 0], 16⟩

/-- The per-peer data sitting in `stateIdleW`: Established at 5, Idle at 7. -/
def peerIdleW : PerPeer :=
  { perpeer_info_create with
    bgp_fsm_state := FsmState.idle
    bgp_time_ref_rib_start := 7
    bgp_time_ref_rib_end := 7
    last_ts := 7
    state_messages_cnt := 2 }

/-- A state holding one freshly created peer (inactive, fsm Unknown, no
under-construction window) and no cells. -/
def stateUnknownW : RTState :=
  { peers := [(pidW, perpeer_info_create)], cells := [], collectors := [] }

/-- What the cell loop of end_of_valid_rib does to one in-scope cell, as a
function of the peer's uc_rib_start timestamp `us`. -/
def eovrCellResult (pp : PfxPeer) (us : Nat) : PfxPeer :=
  if backlogPredUc pp us then
    if pp.uc_origin_asn ≠ ROUTINGTABLES_DOWN_ORIGIN_ASN then
      { pp with
        bgp_time_last_ts := u32add pp.bgp_time_uc_delta_ts us
        orig_asn := pp.uc_origin_asn
        cellState := true
        bgp_time_uc_delta_ts := 0
        uc_origin_asn := ROUTINGTABLES_DOWN_ORIGIN_ASN }
    else
      { pp with
        bgp_time_last_ts := 0
        orig_asn := ROUTINGTABLES_DOWN_ORIGIN_ASN
        cellState := false
        bgp_time_uc_delta_ts := 0
        uc_origin_asn := ROUTINGTABLES_DOWN_ORIGIN_ASN }
  else
    if pp.orig_asn ≠ ROUTINGTABLES_DOWN_ORIGIN_ASN then
      { pp with
        cellState := true
        bgp_time_uc_delta_ts := 0
        uc_origin_asn := ROUTINGTABLES_DOWN_ORIGIN_ASN }
    else
      { pp with
        bgp_time_uc_delta_ts := 0
        uc_origin_asn := ROUTINGTABLES_DOWN_ORIGIN_ASN }

/-- The uc_rib_start timestamp of an optional peer. -/
def peerUcStart (x : Option PerPeer) : Option Nat :=
  x.map PerPeer.bgp_time_uc_rib_start

/-- What the cell loop of end_of_valid_rib does to one cell, given the
(optional) uc_rib_start of its peer. -/
def eovrCellTransform (c : Collector) (uc : Option Nat)
    (k : Pfx × PeerSig) (pp : PfxPeer) : PfxPeer :=
  match uc with
  | none => pp
  | some us =>
    if k.2 ∈ c.collector_peerids ∧ us ≠ 0 then eovrCellResult pp us else pp

/-- Whether processing one cell bumps its peer's positive-mismatch counter
in the cell loop of end_of_valid_rib. -/
def eovrPosHit (c : Collector) (uc : Option Nat)
    (kpp : (Pfx × PeerSig) × PfxPeer) : Bool :=
  match uc with
  | none => false
  | some us =>
    decide (kpp.1.2 ∈ c.collector_peerids) && decide (us ≠ 0) &&
    decide (backlogPredUc kpp.2 us) &&
    decide (kpp.2.uc_origin_asn = ROUTINGTABLES_DOWN_ORIGIN_ASN) &&
    kpp.2.cellState

/-- What the peer loop of end_of_valid_rib does to one peer entry. -/
def eovrPeerTransform (c : Collector) (k : PeerSig) (p : PerPeer) :
    PerPeer :=
  if k ∈ c.collector_peerids then
    if p.bgp_time_uc_rib_start = 0 ∧
       p.last_ts <
         u32sub c.bgp_time_last ROUTINGTABLES_MAX_INACTIVE_TIME then
      if p.bgp_fsm_state = FsmState.established then
        { p with bgp_fsm_state := FsmState.unknown, viewState := false }
      else p
    else { p with bgp_time_uc_rib_start := 0, bgp_time_uc_rib_end := 0 }
  else p

/-- The origin value apply_prefix_update stores for an element. -/
def pfxUpdAsn (e : Elem) : Nat :=
  if e.etype = ElemType.announcement then get_origin_asn e.aspath
  else ROUTINGTABLES_DOWN_ORIGIN_ASN

/-- The cell apply_prefix_update works on: the existing cell or the fresh
cell it creates. -/
def pfxCell0 (s : RTState) (pid : PeerSig) (e : Elem) : PfxPeer :=
  match alook s.cells (e.pfx, pid) with
  | some pp => pp
  | none => newPfxPeer (pfxUpdAsn e)

/-- The per-peer outcome of apply_prefix_update, as a function of the prior
peer data and the cell it acts on (the branches mirror the source; the
conditions read the fields update_peer_stats leaves untouched). -/
def pfxUpdPeer (p0 : PerPeer) (e : Elem) (ts : Nat) (cell0 : PfxPeer) :
    PerPeer :=
  let p1 :=
    if e.etype = ElemType.announcement then
      { p0 with pfx_announcements_cnt := p0.pfx_announcements_cnt + 1 }
    else
      { p0 with pfx_withdrawals_cnt := p0.pfx_withdrawals_cnt + 1 }
  let p2 := update_peer_stats p1 e (pfxUpdAsn e)
  if ts < cell0.bgp_time_last_ts then p2
  else if p0.viewState then p2
  else if p0.bgp_fsm_state = FsmState.unknown then p2
  else
    { p2 with
      viewState := true
      bgp_fsm_state := FsmState.established
      bgp_time_ref_rib_start := ts
      bgp_time_ref_rib_end := ts }

/-- The per-cell outcome of apply_prefix_update, as a function of the prior
peer data and the cell it acts on. -/
def pfxUpdCell (p0 : PerPeer) (e : Elem) (ts : Nat) (cell0 : PfxPeer) :
    PfxPeer :=
  if ts < cell0.bgp_time_last_ts then cell0
  else
    let cell2 :=
      update_prefix_peer_stats
        { cell0 with bgp_time_last_ts := ts, orig_asn := pfxUpdAsn e } e.etype
    if p0.viewState then
      if cell2.cellState = false ∧ e.etype = ElemType.announcement then
        { cell2 with cellState := true }
      else if cell2.cellState = true ∧ e.etype = ElemType.withdrawal then
        { cell2 with cellState := false }
      else cell2
    else
      if p0.bgp_fsm_state = FsmState.unknown then
        if p0.bgp_time_uc_rib_start ≠ 0 then cell2
        else
          let cell3 :=
            { cell2 with
              bgp_time_last_ts := 0
              orig_asn := ROUTINGTABLES_DOWN_ORIGIN_ASN }
          if e.etype = ElemType.announcement then
            { cell3 with announcements := cell3.announcements - 1 }
          else
            { cell3 with withdrawals := cell3.withdrawals - 1 }
      else
        if e.etype = ElemType.announcement then { cell2 with cellState := true }
        else cell2

/-! ### Generic association-list lemmas -/

theorem alook_aset_self {K V : Type} [DecidableEq K]
    (l : List (K × V)) (k : K) (v : V) : alook (aset l k v) k = some v := by
  induction l with
  | nil => simp [aset, alook]
  | cons h t ih =>
    by_cases hk : h.1 = k
    · simp [aset, hk, alook]
    · simp only [aset]
      rw [if_neg hk]
      simp [alook, hk, ih]

theorem alook_aset_ne {K V : Type} [DecidableEq K]
    (l : List (K × V)) (k q : K) (v : V) (h : q ≠ k) :
    alook (aset l k v) q = alook l q := by
  have hkq : k ≠ q := fun he => h he.symm
  induction l with
  | nil => simp [aset, alook, hkq]
  | cons hd t ih =>
    by_cases hk : hd.1 = k
    · simp only [aset]
      rw [if_pos hk]
      simp [alook, hkq, hk]
    · simp only [aset]
      rw [if_neg hk]
      by_cases hq : hd.1 = q
      · simp [alook, hq]
      · simp [alook, hq, ih]

theorem alook_map_keyfun {K V : Type} [DecidableEq K]
    (g : K → V → V) (l : List (K × V)) (q : K) :
    alook (l.map (fun kp => (kp.1, g kp.1 kp.2))) q =
      (alook l q).map (g q) := by
  induction l with
  | nil => simp [alook]
  | cons hd t ih =>
    by_cases hq : hd.1 = q
    · subst hq
      simp [alook, ih]
    · simp [alook, hq, ih]

theorem aset_keys {K V : Type} [DecidableEq K]
    (l : List (K × V)) (k : K) (v : V) :
    (aset l k v).map Prod.fst = l.map Prod.fst ∨
    (aset l k v).map Prod.fst = l.map Prod.fst ++ [k] := by
  induction l with
  | nil => simp [aset]
  | cons hd t ih =>
    by_cases hk : hd.1 = k
    · left
      simp only [aset]
      rw [if_pos hk]
      simp [hk]
    · simp only [aset]
      rw [if_neg hk]
      rcases ih with ih | ih
      · left; simp [ih]
      · right; simp [ih]

theorem mem_of_alook_eq_some {K V : Type} [DecidableEq K]
    {l : List (K × V)} {k : K} {v : V} (h : alook l k = some v) :
    (k, v) ∈ l := by
  induction l with
  | nil => simp [alook] at h
  | cons hd t ih =>
    by_cases hk : hd.1 = k
    · simp only [alook, if_pos hk] at h
      obtain ⟨a, b⟩ := hd
      simp_all
    · simp only [alook, if_neg hk] at h
      exact List.mem_cons_of_mem _ (ih h)

theorem alook_eq_some_of_mem_nodup {K V : Type} [DecidableEq K]
    {l : List (K × V)} {k : K} {v : V}
    (hn : (l.map Prod.fst).Nodup) (hm : (k, v) ∈ l) :
    alook l k = some v := by
  induction l with
  | nil => simp at hm
  | cons hd t ih =>
    simp only [List.map_cons, List.nodup_cons] at hn
    rcases List.mem_cons.mp hm with he | ht
    · subst he
      simp [alook]
    · have hk : hd.1 ≠ k := by
        intro he
        exact hn.1 (he ▸ List.mem_map.mpr ⟨(k, v), ht, rfl⟩)
      simp only [alook, if_neg hk]
      exact ih hn.2 ht

theorem alook_eq_none_of_not_mem {K V : Type} [DecidableEq K]
    {l : List (K × V)} {k : K} (h : k ∉ l.map Prod.fst) :
    alook l k = none := by
  induction l with
  | nil => simp [alook]
  | cons hd t ih =>
    simp only [List.map_cons, List.mem_cons] at h
    push_neg at h
    have hk : hd.1 ≠ k := fun he => h.1 he.symm
    simp only [alook, if_neg hk]
    exact ih h.2

theorem aset_aset {K V : Type} [DecidableEq K]
    (l : List (K × V)) (k : K) (a b : V) :
    aset (aset l k a) k b = aset l k b := by
  induction l with
  | nil => simp [aset]
  | cons hd t ih =>
    by_cases hk : hd.1 = k
    · simp only [aset]
      rw [if_pos hk]
      simp [aset, hk]
    · simp only [aset]
      rw [if_neg hk]
      simp only [aset]
      rw [if_neg hk, if_neg hk]
      simp [ih]

theorem map_keyfun_aset {K V : Type} [DecidableEq K]
    (g : K → V → V) (l : List (K × V)) (k : K) (v : V) :
    (aset l k v).map (fun kp => (kp.1, g kp.1 kp.2)) =
      aset (l.map (fun kp => (kp.1, g kp.1 kp.2))) k (g k v) := by
  induction l with
  | nil => simp [aset]
  | cons hd t ih =>
    by_cases hk : hd.1 = k
    · simp only [aset]
      rw [if_pos hk]
      subst hk
      simp [aset]
    · simp only [aset]
      rw [if_neg hk]
      simp only [List.map_cons]
      rw [ih]
      simp [aset, hk]

theorem setInsert_idem {A : Type} [DecidableEq A] (l : List A) (x : A) :
    setInsert (setInsert l x) x = setInsert l x := by
  unfold setInsert
  by_cases h : x ∈ l
  · simp [h]
  · simp [h]

/-! ### Projection facts about update_peer_stats -/

@[simp] theorem update_peer_stats_viewState (p : PerPeer) (e : Elem)
    (asn : Nat) : (update_peer_stats p e asn).viewState = p.viewState := by
  unfold update_peer_stats
  split_ifs <;> rfl

@[simp] theorem update_peer_stats_fsm (p : PerPeer) (e : Elem) (asn : Nat) :
    (update_peer_stats p e asn).bgp_fsm_state = p.bgp_fsm_state := by
  unfold update_peer_stats
  split_ifs <;> rfl

@[simp] theorem update_peer_stats_uc_start (p : PerPeer) (e : Elem)
    (asn : Nat) :
    (update_peer_stats p e asn).bgp_time_uc_rib_start =
      p.bgp_time_uc_rib_start := by
  unfold update_peer_stats
  split_ifs <;> rfl

@[simp] theorem update_peer_stats_uc_end (p : PerPeer) (e : Elem)
    (asn : Nat) :
    (update_peer_stats p e asn).bgp_time_uc_rib_end =
      p.bgp_time_uc_rib_end := by
  unfold update_peer_stats
  split_ifs <;> rfl

@[simp] theorem update_peer_stats_ref_start (p : PerPeer) (e : Elem)
    (asn : Nat) :
    (update_peer_stats p e asn).bgp_time_ref_rib_start =
      p.bgp_time_ref_rib_start := by
  unfold update_peer_stats
  split_ifs <;> rfl

@[simp] theorem update_peer_stats_ref_end (p : PerPeer) (e : Elem)
    (asn : Nat) :
    (update_peer_stats p e asn).bgp_time_ref_rib_end =
      p.bgp_time_ref_rib_end := by
  unfold update_peer_stats
  split_ifs <;> rfl

@[simp] theorem update_peer_stats_ann_cnt (p : PerPeer) (e : Elem)
    (asn : Nat) :
    (update_peer_stats p e asn).pfx_announcements_cnt =
      p.pfx_announcements_cnt := by
  unfold update_peer_stats
  split_ifs <;> rfl

@[simp] theorem update_peer_stats_wd_cnt (p : PerPeer) (e : Elem)
    (asn : Nat) :
    (update_peer_stats p e asn).pfx_withdrawals_cnt =
      p.pfx_withdrawals_cnt := by
  unfold update_peer_stats
  split_ifs <;> rfl

@[simp] theorem update_prefix_peer_stats_cellState (pp : PfxPeer)
    (et : ElemType) :
    (update_prefix_peer_stats pp et).cellState = pp.cellState := by
  unfold update_prefix_peer_stats
  split_ifs <;> rfl

@[simp] theorem update_prefix_peer_stats_last (pp : PfxPeer)
    (et : ElemType) :
    (update_prefix_peer_stats pp et).bgp_time_last_ts =
      pp.bgp_time_last_ts := by
  unfold update_prefix_peer_stats
  split_ifs <;> rfl

@[simp] theorem update_prefix_peer_stats_orig (pp : PfxPeer)
    (et : ElemType) :
    (update_prefix_peer_stats pp et).orig_asn = pp.orig_asn := by
  unfold update_prefix_peer_stats
  split_ifs <;> rfl

/-- The apply_prefix_update state transition, decomposed: on a present
peer the function stores `pfxUpdPeer` for the peer and `pfxUpdCell` for the
cell it touched. -/
theorem apply_prefix_update_some (s : RTState) (pid : PeerSig) (e : Elem)
    (ts : Nat) (p0 : PerPeer) (hp : alook s.peers pid = some p0) :
    apply_prefix_update s pid e ts =
      { s with
        peers := aset s.peers pid (pfxUpdPeer p0 e ts (pfxCell0 s pid e))
        cells := aset s.cells (e.pfx, pid)
          (pfxUpdCell p0 e ts (pfxCell0 s pid e)) } := by
  by_cases he : e.etype = ElemType.announcement
  · simp only [apply_prefix_update, hp, pfxUpdPeer, pfxUpdCell, pfxCell0,
      pfxUpdAsn, he, if_pos]
    cases hc : alook s.cells (e.pfx, pid) <;>
      simp only [update_peer_stats_viewState, update_peer_stats_fsm,
        update_peer_stats_uc_start] <;>
      split_ifs <;> rfl
  · simp only [apply_prefix_update, hp, pfxUpdPeer, pfxUpdCell, pfxCell0,
      pfxUpdAsn, he, if_neg, if_false]
    cases hc : alook s.cells (e.pfx, pid) <;>
      simp only [update_peer_stats_viewState, update_peer_stats_fsm,
        update_peer_stats_uc_start] <;>
      split_ifs <;> rfl

theorem map_valfun_aset {K V : Type} [DecidableEq K]
    (g : V → V) (l : List (K × V)) (k : K) (v : V) :
    (aset l k v).map (fun kp => (kp.1, g kp.2)) =
      aset (l.map (fun kp => (kp.1, g kp.2))) k (g v) := by
  induction l with
  | nil => simp [aset]
  | cons hd t ih =>
    by_cases hk : hd.1 = k
    · simp only [aset]
      rw [if_pos hk]
      subst hk
      simp [aset]
    · simp only [aset]
      rw [if_neg hk]
      simp only [List.map_cons]
      rw [ih]
      simp [aset, hk]

/-- Replaying the same update element leaves the peer unchanged up to its
announcement/withdrawal counters. -/
theorem pfxUpdPeer_replay (p0 : PerPeer) (e : Elem) (ts : Nat)
    (c0 : PfxPeer) :
    stripPeerCounters
        (pfxUpdPeer (pfxUpdPeer p0 e ts c0) e ts (pfxUpdCell p0 e ts c0)) =
      stripPeerCounters (pfxUpdPeer p0 e ts c0) := by
  by_cases he : e.etype = ElemType.announcement <;>
  by_cases hgate : ts < c0.bgp_time_last_ts <;>
  by_cases hview : p0.viewState <;>
  by_cases hfsm : p0.bgp_fsm_state = FsmState.unknown <;>
  by_cases huc : p0.bgp_time_uc_rib_start = 0 <;>
  by_cases hv : e.pfx.version = AddrVersion.v4 <;>
  simp [pfxUpdPeer, pfxUpdCell, update_peer_stats, update_prefix_peer_stats,
    stripPeerCounters, setInsert_idem, apply_ite, he, hgate, hview, hfsm,
    huc, hv]

/-- Replaying the same update element leaves the cell unchanged up to its
announcement/withdrawal counters, provided the cell of an inactive peer is
inactive (invariant of reachable states). -/
theorem pfxUpdCell_replay (p0 : PerPeer) (e : Elem) (ts : Nat)
    (c0 : PfxPeer) (hinv : p0.viewState = false → c0.cellState = false) :
    stripCellCounters
        (pfxUpdCell (pfxUpdPeer p0 e ts c0) e ts (pfxUpdCell p0 e ts c0)) =
      stripCellCounters (pfxUpdCell p0 e ts c0) := by
  by_cases he : e.etype = ElemType.announcement <;>
  by_cases hgate : ts < c0.bgp_time_last_ts <;>
  by_cases hview : p0.viewState <;>
  by_cases hcs : c0.cellState <;>
  by_cases hfsm : p0.bgp_fsm_state = FsmState.unknown <;>
  by_cases huc : p0.bgp_time_uc_rib_start = 0 <;>
  first
  | exact absurd (hinv (by simpa using hview)) (by simpa using hcs)
  | simp [pfxUpdPeer, pfxUpdCell, update_peer_stats,
      update_prefix_peer_stats, stripCellCounters, setInsert_idem,
      apply_ite, he, hgate, hview, hcs, hfsm, huc]

/-! ### C5: origin extraction -/

/-- C5, counterexample: on the single-segment path carrying ASN 0 the
extraction does not return the ASN itself (it returns the LOCAL sentinel),
and the returned value lies inside the reserved band
[RESERVED_BASE, RESERVED_BASE+2], contradicting both parts of the claim's
single-ASN clause. -/
theorem c5_counterexample :
    [PathSeg.asn 0].getLast? = some (PathSeg.asn 0) ∧
    get_origin_asn [PathSeg.asn 0] ≠ 0 ∧
    ROUTINGTABLES_RESERVED_ASN_START ≤ get_origin_asn [PathSeg.asn 0] ∧
    get_origin_asn [PathSeg.asn 0] ≤ ROUTINGTABLES_RESERVED_ASN_START + 2 := by
  refine ⟨rfl, by decide, by decide, by decide⟩

/-- C5, amended: origin extraction returns ORIGIN_LOCAL on an empty path,
returns a nonzero origin ASN unchanged (with no reserved-band guarantee:
the value is whatever the path carries), returns ORIGIN_LOCAL when the
origin ASN is 0, and returns ORIGIN_SET_OR_CONFED when the last segment is
a set or confederation. -/
theorem c5_amended (aspath : List PathSeg) :
    (aspath = [] → get_origin_asn aspath = ROUTINGTABLES_LOCAL_ORIGIN_ASN) ∧
    (∀ a, aspath.getLast? = some (PathSeg.asn a) → a ≠ 0 →
      get_origin_asn aspath = a) ∧
    (aspath.getLast? = some (PathSeg.asn 0) →
      get_origin_asn aspath = ROUTINGTABLES_LOCAL_ORIGIN_ASN) ∧
    (aspath.getLast? = some PathSeg.setOrConfed →
      get_origin_asn aspath = ROUTINGTABLES_CONFSET_ORIGIN_ASN) := by
  refine ⟨?_, ?_, ?_, ?_⟩
  · intro h
    subst h
    decide
  · intro a hlast ha
    unfold get_origin_asn
    rw [hlast]
    simp [ha]
  · intro hlast
    unfold get_origin_asn
    rw [hlast]
    simp
  · intro hlast
    unfold get_origin_asn
    rw [hlast]
    simp [ROUTINGTABLES_CONFSET_ORIGIN_ASN, ROUTINGTABLES_RESERVED_ASN_START]

/-- C5, witness: the amended theorem applied to the path 65001 65002. -/
theorem c5_witness :
    get_origin_asn [PathSeg.asn 65001, PathSeg.asn 65002] = 65002 :=
  (c5_amended [PathSeg.asn 65001, PathSeg.asn 65002]).2.1 65002 rfl (by decide)

/-! ### C3: empty/filtered records lower bgp_time_last -/

/-- C3, divergence of the code from the claim: after an empty-source record
at time 100 the collector's bgp_time_last is 100; a subsequent empty-source
record at time 50 lowers it to 50, so bgp_time_last is not updated
monotonically on the EmptySource path. -/
theorem c3_codebug_eval :
    (alook (processRecords [emptyRecW 100]).collectors "rrc00").map
        Collector.bgp_time_last = some 100 ∧
    (alook (processRecords [emptyRecW 100, emptyRecW 50]).collectors
        "rrc00").map Collector.bgp_time_last = some 50 ∧
    (50 : Nat) < 100 := by
  refine ⟨by decide, by decide, by decide⟩

/-! ### C2: replaying an update element -/

/-- C2, counterexample: in the reachable state where peer 65001 is
Established, applying the same announcement twice does not give the state
of applying it once (the cell's announcement counter reaches 2 instead of
1, and the peer's announcement counter 2 instead of 1). -/
theorem c2_counterexample :
    apply_prefix_update
        (apply_prefix_update stateEstabW pidW elemAnnW 110) pidW elemAnnW
        110 ≠
      apply_prefix_update stateEstabW pidW elemAnnW 110 := by
  decide

/-- C2, amended: for an announcement or withdrawal element, applying it
twice in a row yields the same engine state as applying it once on every
component except the announcement/withdrawal counters (the cell's and the
peer's), which count both applications; the hypothesis is the reachable
state invariant that a cell of an inactive peer is inactive. -/
theorem c2_amended (s : RTState) (pid : PeerSig) (e : Elem) (ts : Nat)
    (he : e.etype = ElemType.announcement ∨ e.etype = ElemType.withdrawal)
    (hinv : ∀ p0, alook s.peers pid = some p0 → p0.viewState = false →
      (pfxCell0 s pid e).cellState = false) :
    stripCounters
        (apply_prefix_update (apply_prefix_update s pid e ts) pid e ts) =
      stripCounters (apply_prefix_update s pid e ts) := by
  cases hp : alook s.peers pid with
  | none => simp [apply_prefix_update, hp]
  | some p0 =>
    rw [apply_prefix_update_some s pid e ts p0 hp]
    have hp1 :
        alook (aset s.peers pid (pfxUpdPeer p0 e ts (pfxCell0 s pid e)))
          pid = some (pfxUpdPeer p0 e ts (pfxCell0 s pid e)) :=
      alook_aset_self _ _ _
    rw [apply_prefix_update_some _ pid e ts _ hp1]
    have hc1 :
        pfxCell0
          { s with
            peers := aset s.peers pid (pfxUpdPeer p0 e ts (pfxCell0 s pid e))
            cells := aset s.cells (e.pfx, pid)
              (pfxUpdCell p0 e ts (pfxCell0 s pid e)) } pid e =
          pfxUpdCell p0 e ts (pfxCell0 s pid e) := by
      simp [pfxCell0, alook_aset_self]
    rw [hc1]
    simp only [aset_aset]
    unfold stripCounters
    simp only [map_valfun_aset]
    rw [pfxUpdPeer_replay, pfxUpdCell_replay p0 e ts _ (hinv p0 hp)]

/-- C2, witness: the amended theorem on the reachable Established state and
the announcement element. -/
theorem c2_witness :
    stripCounters
        (apply_prefix_update
          (apply_prefix_update stateEstabW pidW elemAnnW 110) pidW elemAnnW
          110) =
      stripCounters (apply_prefix_update stateEstabW pidW elemAnnW 110) :=
  c2_amended stateEstabW pidW elemAnnW 110 (Or.inl (by decide))
    (fun _ _ _ => by decide)

/-! ### C4: updates reaching a peer with no RIB context -/

/-- C4, counterexample: the first event ever seen for a brand-new peer is
an announcement (scenario S5); afterwards the cell is reverted (last_ts 0,
origin DOWN, cell counter back to 0) but the peer's announcement counter
ends at 1, not at its prior (creation) value 0 — so not every counter
incremented while processing the element is reverted. -/
theorem c4_counterexample :
    (alook (routingtables_process_record routingtables_create
        (updRecW 700 [elemAnnW])).peers pidW).map
      PerPeer.pfx_announcements_cnt = some 1 ∧
    perpeer_info_create.pfx_announcements_cnt = 0 ∧
    (alook (routingtables_process_record routingtables_create
        (updRecW 700 [elemAnnW])).cells (pfxW, pidW)).map
      PfxPeer.bgp_time_last_ts = some 0 ∧
    (alook (routingtables_process_record routingtables_create
        (updRecW 700 [elemAnnW])).cells (pfxW, pidW)).map
      PfxPeer.announcements = some 0 ∧
    (1 : Nat) ≠ 0 := by
  refine ⟨by decide, by decide, by decide, by decide, by decide⟩

/-- C4, amended: an announcement or withdrawal reaching an inactive peer
with fsm Unknown and no under-construction window, at a timestamp not older
than the cell, is dropped atomically at the cell level: the cell ends with
last_ts 0, origin DOWN, and its active flag and its own counters at their
prior values, while the peer stays inactive with fsm Unknown; however the
peer-level announcement/withdrawal counter keeps the increment (it is not
reverted), recording that the element was received. -/
theorem c4_amended (s : RTState) (pid : PeerSig) (e : Elem) (ts : Nat)
    (p : PerPeer)
    (hp : alook s.peers pid = some p)
    (hinact : p.viewState = false)
    (hfsm : p.bgp_fsm_state = FsmState.unknown)
    (huc : p.bgp_time_uc_rib_start = 0)
    (hts : ¬ ts < (pfxCell0 s pid e).bgp_time_last_ts) :
    ∃ p' cell',
      alook (apply_prefix_update s pid e ts).peers pid = some p' ∧
      alook (apply_prefix_update s pid e ts).cells (e.pfx, pid) =
        some cell' ∧
      cell'.bgp_time_last_ts = 0 ∧
      cell'.orig_asn = ROUTINGTABLES_DOWN_ORIGIN_ASN ∧
      cell'.cellState = (pfxCell0 s pid e).cellState ∧
      cell'.announcements = (pfxCell0 s pid e).announcements ∧
      cell'.withdrawals = (pfxCell0 s pid e).withdrawals ∧
      cell'.bgp_time_uc_delta_ts = (pfxCell0 s pid e).bgp_time_uc_delta_ts ∧
      cell'.uc_origin_asn = (pfxCell0 s pid e).uc_origin_asn ∧
      p'.viewState = false ∧
      p'.bgp_fsm_state = FsmState.unknown ∧
      p'.bgp_time_ref_rib_start = p.bgp_time_ref_rib_start ∧
      p'.bgp_time_ref_rib_end = p.bgp_time_ref_rib_end ∧
      p'.pfx_announcements_cnt =
        (if e.etype = ElemType.announcement then p.pfx_announcements_cnt + 1
         else p.pfx_announcements_cnt) ∧
      p'.pfx_withdrawals_cnt =
        (if e.etype = ElemType.announcement then p.pfx_withdrawals_cnt
         else p.pfx_withdrawals_cnt + 1) ∧
      (apply_prefix_update s pid e ts).collectors = s.collectors := by
  rw [apply_prefix_update_some s pid e ts p hp]
  refine ⟨_, _, alook_aset_self _ _ _, alook_aset_self _ _ _, ?_⟩
  by_cases hann : e.etype = ElemType.announcement <;>
  by_cases hv : e.pfx.version = AddrVersion.v4 <;>
    simp [pfxUpdPeer, pfxUpdCell, update_peer_stats,
      update_prefix_peer_stats, pfxUpdAsn, hts, hinact, hfsm, huc, hann, hv]

/-- C4, witness: the amended theorem on the fresh-peer state receiving the
announcement at time 700. -/
theorem c4_witness :
    ∃ p' cell',
      alook (apply_prefix_update stateUnknownW pidW elemAnnW 700).peers
        pidW = some p' ∧
      alook (apply_prefix_update stateUnknownW pidW elemAnnW 700).cells
        (pfxW, pidW) = some cell' ∧
      cell'.bgp_time_last_ts = 0 ∧
      cell'.orig_asn = ROUTINGTABLES_DOWN_ORIGIN_ASN ∧
      cell'.cellState = (pfxCell0 stateUnknownW pidW elemAnnW).cellState ∧
      cell'.announcements =
        (pfxCell0 stateUnknownW pidW elemAnnW).announcements ∧
      cell'.withdrawals =
        (pfxCell0 stateUnknownW pidW elemAnnW).withdrawals ∧
      cell'.bgp_time_uc_delta_ts =
        (pfxCell0 stateUnknownW pidW elemAnnW).bgp_time_uc_delta_ts ∧
      cell'.uc_origin_asn =
        (pfxCell0 stateUnknownW pidW elemAnnW).uc_origin_asn ∧
      p'.viewState = false ∧
      p'.bgp_fsm_state = FsmState.unknown ∧
      p'.bgp_time_ref_rib_start =
        perpeer_info_create.bgp_time_ref_rib_start ∧
      p'.bgp_time_ref_rib_end = perpeer_info_create.bgp_time_ref_rib_end ∧
      p'.pfx_announcements_cnt =
        (if elemAnnW.etype = ElemType.announcement then
          perpeer_info_create.pfx_announcements_cnt + 1
         else perpeer_info_create.pfx_announcements_cnt) ∧
      p'.pfx_withdrawals_cnt =
        (if elemAnnW.etype = ElemType.announcement then
          perpeer_info_create.pfx_withdrawals_cnt
         else perpeer_info_create.pfx_withdrawals_cnt + 1) ∧
      (apply_prefix_update stateUnknownW pidW elemAnnW 700).collectors =
        stateUnknownW.collectors :=
  c4_amended stateUnknownW pidW elemAnnW 700 perpeer_info_create (by decide)
    (by decide) (by decide) (by decide) (by decide)

/-! ### C1: the backlog rule of end_of_valid_rib -/

theorem aset_keys_of_present {K V : Type} [DecidableEq K]
    {l : List (K × V)} {k : K} {v0 : V} (h : alook l k = some v0) (v : V) :
    (aset l k v).map Prod.fst = l.map Prod.fst := by
  induction l with
  | nil => simp [alook] at h
  | cons hd t ih =>
    by_cases hk : hd.1 = k
    · simp only [aset]
      rw [if_pos hk]
      simp [hk]
    · simp only [alook, if_neg hk] at h
      simp only [aset]
      rw [if_neg hk]
      simp [ih h]

theorem peerUcStart_aset (peers : List (PeerSig × PerPeer))
    (k q : PeerSig) (pX p : PerPeer) (hk : alook peers k = some p)
    (hux : pX.bgp_time_uc_rib_start = p.bgp_time_uc_rib_start) :
    peerUcStart (alook (aset peers k pX) q) =
      peerUcStart (alook peers q) := by
  by_cases hq : q = k
  · subst hq
    rw [alook_aset_self, hk]
    simp [peerUcStart, hux]
  · rw [alook_aset_ne _ _ _ _ hq]

/-- One cell-loop step does not change any peer's uc_rib_start. -/
theorem eovrCellStep_ucStart (c : Collector)
    (peers : List (PeerSig × PerPeer))
    (acc : List ((Pfx × PeerSig) × PfxPeer))
    (kpp : (Pfx × PeerSig) × PfxPeer) (q : PeerSig) :
    peerUcStart (alook (eovrCellStep c (peers, acc) kpp).1 q) =
      peerUcStart (alook peers q) := by
  unfold eovrCellStep
  cases hk : alook peers kpp.1.2 with
  | none => simp [hk]
  | some p =>
    simp only [hk]
    split_ifs <;>
      first
      | rfl
      | exact peerUcStart_aset peers kpp.1.2 q _ p hk rfl

/-- One cell-loop step appends exactly the transform of its cell. -/
theorem eovrCellStep_cells (c : Collector)
    (peers : List (PeerSig × PerPeer))
    (acc : List ((Pfx × PeerSig) × PfxPeer))
    (kpp : (Pfx × PeerSig) × PfxPeer) :
    (eovrCellStep c (peers, acc) kpp).2 =
      acc ++ [(kpp.1,
        eovrCellTransform c (peerUcStart (alook peers kpp.1.2)) kpp.1
          kpp.2)] := by
  unfold eovrCellStep eovrCellTransform eovrCellResult
  cases hk : alook peers kpp.1.2 with
  | none => simp [hk, peerUcStart]
  | some p =>
    simp only [hk, peerUcStart, Option.map_some', backlogPredicate]
    by_cases hio : kpp.1.2 ∈ c.collector_peerids ∧
      p.bgp_time_uc_rib_start ≠ 0
    · simp only [if_pos hio]
      split_ifs <;> rfl
    · simp only [if_neg hio]

/-- One cell-loop step keeps peer keys unchanged. -/
theorem eovrCellStep_keys (c : Collector)
    (peers : List (PeerSig × PerPeer))
    (acc : List ((Pfx × PeerSig) × PfxPeer))
    (kpp : (Pfx × PeerSig) × PfxPeer) :
    ((eovrCellStep c (peers, acc) kpp).1).map Prod.fst =
      peers.map Prod.fst := by
  unfold eovrCellStep
  cases hk : alook peers kpp.1.2 with
  | none => simp [hk]
  | some p =>
    simp only [hk]
    split_ifs <;>
      first
      | rfl
      | exact aset_keys_of_present hk _

/-- One cell-loop step bumps the positive-mismatch counter of the cell's
peer exactly on a positive-mismatch hit, and no other counter. -/
theorem eovrCellStep_pos (c : Collector)
    (peers : List (PeerSig × PerPeer))
    (acc : List ((Pfx × PeerSig) × PfxPeer))
    (kpp : (Pfx × PeerSig) × PfxPeer) (q : PeerSig) :
    (alook (eovrCellStep c (peers, acc) kpp).1 q).map
        PerPeer.rib_positive_mismatches_cnt =
      (alook peers q).map (fun p => p.rib_positive_mismatches_cnt +
        (if decide (kpp.1.2 = q) &&
            eovrPosHit c (peerUcStart (alook peers kpp.1.2)) kpp then 1
         else 0)) := by
  unfold eovrCellStep eovrPosHit
  cases hk : alook peers kpp.1.2 with
  | none =>
    by_cases hq : kpp.1.2 = q
    · subst hq
      simp [hk]
    · simp only [hk, peerUcStart]
      cases hkq : alook peers q <;> simp [hk, hq, hkq]
  | some p =>
    by_cases hq : kpp.1.2 = q
    · subst hq
      simp only [hk, peerUcStart, Option.map_some', backlogPredicate]
      split_ifs <;>
        simp_all [alook_aset_self, eovrPosHit] <;> omega
    · have hqk : q ≠ kpp.1.2 := fun he => hq he.symm
      simp only [hk, peerUcStart, Option.map_some', backlogPredicate]
      split_ifs <;>
        simp_all [alook_aset_ne _ _ _ _ hqk] <;>
        cases hkq : alook peers q <;> simp [hkq]

theorem eovrCellStep_ucStart' (c : Collector)
    (pr : List (PeerSig × PerPeer) × List ((Pfx × PeerSig) × PfxPeer))
    (kpp : (Pfx × PeerSig) × PfxPeer) (q : PeerSig) :
    peerUcStart (alook (eovrCellStep c pr kpp).1 q) =
      peerUcStart (alook pr.1 q) := by
  obtain ⟨a, b⟩ := pr
  exact eovrCellStep_ucStart c a b kpp q

theorem eovrCellStep_cells' (c : Collector)
    (pr : List (PeerSig × PerPeer) × List ((Pfx × PeerSig) × PfxPeer))
    (kpp : (Pfx × PeerSig) × PfxPeer) :
    (eovrCellStep c pr kpp).2 =
      pr.2 ++ [(kpp.1,
        eovrCellTransform c (peerUcStart (alook pr.1 kpp.1.2)) kpp.1
          kpp.2)] := by
  obtain ⟨a, b⟩ := pr
  exact eovrCellStep_cells c a b kpp

theorem eovrCellStep_keys' (c : Collector)
    (pr : List (PeerSig × PerPeer) × List ((Pfx × PeerSig) × PfxPeer))
    (kpp : (Pfx × PeerSig) × PfxPeer) :
    ((eovrCellStep c pr kpp).1).map Prod.fst = pr.1.map Prod.fst := by
  obtain ⟨a, b⟩ := pr
  exact eovrCellStep_keys c a b kpp

theorem eovrCellStep_pos' (c : Collector)
    (pr : List (PeerSig × PerPeer) × List ((Pfx × PeerSig) × PfxPeer))
    (kpp : (Pfx × PeerSig) × PfxPeer) (q : PeerSig) :
    (alook (eovrCellStep c pr kpp).1 q).map
        PerPeer.rib_positive_mismatches_cnt =
      (alook pr.1 q).map (fun p => p.rib_positive_mismatches_cnt +
        (if decide (kpp.1.2 = q) &&
            eovrPosHit c (peerUcStart (alook pr.1 kpp.1.2)) kpp then 1
         else 0)) := by
  obtain ⟨a, b⟩ := pr
  exact eovrCellStep_pos c a b kpp q

/-- The cell loop preserves every peer's uc_rib_start. -/
theorem eovrCellLoop_ucStart (c : Collector)
    (cells : List ((Pfx × PeerSig) × PfxPeer)) :
    ∀ (pr : List (PeerSig × PerPeer) × List ((Pfx × PeerSig) × PfxPeer))
      (q : PeerSig),
      peerUcStart (alook (cells.foldl (eovrCellStep c) pr).1 q) =
        peerUcStart (alook pr.1 q) := by
  induction cells with
  | nil => intro pr q; rfl
  | cons hd t ih =>
    intro pr q
    rw [List.foldl_cons]
    exact (ih (eovrCellStep c pr hd) q).trans
      (eovrCellStep_ucStart' c pr hd q)

/-- The cell loop preserves the peer table's keys. -/
theorem eovrCellLoop_keys (c : Collector)
    (cells : List ((Pfx × PeerSig) × PfxPeer)) :
    ∀ (pr : List (PeerSig × PerPeer) × List ((Pfx × PeerSig) × PfxPeer)),
      ((cells.foldl (eovrCellStep c) pr).1).map Prod.fst =
        pr.1.map Prod.fst := by
  induction cells with
  | nil => intro pr; rfl
  | cons hd t ih =>
    intro pr
    rw [List.foldl_cons]
    exact (ih (eovrCellStep c pr hd)).trans (eovrCellStep_keys' c pr hd)

/-- The cell loop rewrites the cell table entrywise with
eovrCellTransform. -/
theorem eovrCellLoop_cells (c : Collector)
    (cells : List ((Pfx × PeerSig) × PfxPeer)) :
    ∀ (pr : List (PeerSig × PerPeer) × List ((Pfx × PeerSig) × PfxPeer)),
      (cells.foldl (eovrCellStep c) pr).2 =
        pr.2 ++ cells.map (fun kpp =>
          (kpp.1,
           eovrCellTransform c (peerUcStart (alook pr.1 kpp.1.2)) kpp.1
             kpp.2)) := by
  induction cells with
  | nil => intro pr; simp
  | cons hd t ih =>
    intro pr
    rw [List.foldl_cons, ih (eovrCellStep c pr hd),
      eovrCellStep_cells' c pr hd]
    have hmap :
        t.map (fun kpp =>
          (kpp.1,
           eovrCellTransform c
             (peerUcStart (alook (eovrCellStep c pr hd).1 kpp.1.2)) kpp.1
             kpp.2)) =
        t.map (fun kpp =>
          (kpp.1,
           eovrCellTransform c (peerUcStart (alook pr.1 kpp.1.2)) kpp.1
             kpp.2)) := by
      congr 1
      funext kpp
      rw [eovrCellStep_ucStart' c pr hd]
    rw [hmap]
    simp

/-- The cell loop adds to each peer's positive-mismatch counter the number
of its positive-mismatch cells. -/
theorem eovrCellLoop_pos (c : Collector)
    (cells : List ((Pfx × PeerSig) × PfxPeer)) :
    ∀ (pr : List (PeerSig × PerPeer) × List ((Pfx × PeerSig) × PfxPeer))
      (q : PeerSig),
      (alook (cells.foldl (eovrCellStep c) pr).1 q).map
          PerPeer.rib_positive_mismatches_cnt =
        (alook pr.1 q).map (fun p => p.rib_positive_mismatches_cnt +
          cells.countP (fun kpp => decide (kpp.1.2 = q) &&
            eovrPosHit c (peerUcStart (alook pr.1 kpp.1.2)) kpp)) := by
  induction cells with
  | nil =>
    intro pr q
    simp only [List.foldl_nil, List.countP_nil, Nat.add_zero]
  | cons hd t ih =>
    intro pr q
    rw [List.foldl_cons]
    have h1 := ih (eovrCellStep c pr hd) q
    have hcnt :
        t.countP (fun kpp => decide (kpp.1.2 = q) &&
          eovrPosHit c
            (peerUcStart (alook (eovrCellStep c pr hd).1 kpp.1.2)) kpp) =
        t.countP (fun kpp => decide (kpp.1.2 = q) &&
          eovrPosHit c (peerUcStart (alook pr.1 kpp.1.2)) kpp) := by
      apply List.countP_congr
      intro kpp _
      rw [eovrCellStep_ucStart' c pr hd]
    rw [hcnt] at h1
    have h2 := eovrCellStep_pos' c pr hd q
    rw [List.countP_cons]
    cases hq : alook pr.1 q with
    | none =>
      rw [hq] at h2
      simp only [Option.map_none'] at h2 ⊢
      cases hx : alook (eovrCellStep c pr hd).1 q with
      | none =>
        rw [hx] at h1
        simpa using h1
      | some p' => rw [hx] at h2; simp at h2
    | some p =>
      rw [hq] at h2
      simp only [Option.map_some'] at h2
      cases hx : alook (eovrCellStep c pr hd).1 q with
      | none => rw [hx] at h2; simp at h2
      | some p' =>
        rw [hx] at h2
        simp only [Option.map_some', Option.some.injEq] at h2
        rw [hx] at h1
        simp only [Option.map_some'] at h1
        rw [h1]
        simp only [Option.map_some', Option.some.injEq]
        by_cases hhit : (decide (hd.1.2 = q) &&
            eovrPosHit c (peerUcStart (alook pr.1 hd.1.2)) hd) = true <;>
          simp [hhit] at h2 ⊢ <;> omega

/-- One peer-loop step appends exactly the transform of its peer. -/
theorem eovrPeerStep_peers (c : Collector)
    (pr : List (PeerSig × PerPeer) × List ((Pfx × PeerSig) × PfxPeer))
    (kp : PeerSig × PerPeer) :
    (eovrPeerStep c pr kp).1 =
      pr.1 ++ [(kp.1, eovrPeerTransform c kp.1 kp.2)] := by
  simp only [eovrPeerStep, eovrPeerTransform]
  split_ifs <;> rfl

/-- One peer-loop step with a peer still in its UC window leaves the cell
table untouched. -/
theorem eovrPeerStep_cells_ucne (c : Collector)
    (pr : List (PeerSig × PerPeer) × List ((Pfx × PeerSig) × PfxPeer))
    (kp : PeerSig × PerPeer) (h : kp.2.bgp_time_uc_rib_start ≠ 0) :
    (eovrPeerStep c pr kp).2 = pr.2 := by
  simp only [eovrPeerStep]
  split_ifs with h1 h2 h3
  · exact absurd h2.1 h
  · rfl
  · rfl
  · rfl

/-- One peer-loop step leaves the cells of every other peer unchanged. -/
theorem eovrPeerStep_cells_other (c : Collector)
    (pr : List (PeerSig × PerPeer) × List ((Pfx × PeerSig) × PfxPeer))
    (kp : PeerSig × PerPeer) (key : Pfx × PeerSig) (h : key.2 ≠ kp.1) :
    alook (eovrPeerStep c pr kp).2 key = alook pr.2 key := by
  simp only [eovrPeerStep]
  split_ifs with h1 h2 h3
  · rw [alook_map_keyfun
      (fun k2 pp => if k2.2 = kp.1 then
        { pp with
          orig_asn := ROUTINGTABLES_DOWN_ORIGIN_ASN
          bgp_time_last_ts := 0
          cellState := false }
      else pp) pr.2 key]
    cases alook pr.2 key with
    | none => rfl
    | some pp => simp [h]
  · rfl
  · rfl
  · rfl

/-- The peer loop rewrites the peer table entrywise with
eovrPeerTransform. -/
theorem eovrPeerLoop_peers (c : Collector)
    (l : List (PeerSig × PerPeer)) :
    ∀ (pr : List (PeerSig × PerPeer) × List ((Pfx × PeerSig) × PfxPeer)),
      (l.foldl (eovrPeerStep c) pr).1 =
        pr.1 ++ l.map (fun kp => (kp.1, eovrPeerTransform c kp.1 kp.2)) := by
  induction l with
  | nil => intro pr; simp
  | cons hd t ih =>
    intro pr
    rw [List.foldl_cons, ih (eovrPeerStep c pr hd),
      eovrPeerStep_peers c pr hd]
    simp

/-- The peer loop does not touch the cells of a peer that still has a
non-zero UC window everywhere it occurs in the peer table. -/
theorem eovrPeerLoop_cells (c : Collector)
    (l : List (PeerSig × PerPeer)) :
    ∀ (pr : List (PeerSig × PerPeer) × List ((Pfx × PeerSig) × PfxPeer))
      (key : Pfx × PeerSig),
      (∀ kv ∈ l, kv.1 = key.2 → kv.2.bgp_time_uc_rib_start ≠ 0) →
      alook (l.foldl (eovrPeerStep c) pr).2 key = alook pr.2 key := by
  induction l with
  | nil => intro pr key _; rfl
  | cons hd t ih =>
    intro pr key h
    rw [List.foldl_cons]
    refine (ih (eovrPeerStep c pr hd) key
      (fun kv hm he => h kv (List.mem_cons_of_mem _ hm) he)).trans ?_
    by_cases hk : hd.1 = key.2
    · rw [eovrPeerStep_cells_ucne c pr hd
        (h hd (List.mem_cons_self hd t) hk)]
    · exact eovrPeerStep_cells_other c pr hd key (fun he => hk he.symm)

/-- The peer-loop transform never changes the positive-mismatch counter. -/
theorem eovrPeerTransform_pos (c : Collector) (k : PeerSig) (p : PerPeer) :
    (eovrPeerTransform c k p).rib_positive_mismatches_cnt =
      p.rib_positive_mismatches_cnt := by
  simp only [eovrPeerTransform]
  split_ifs <;> rfl

/-- C1: on the end of a valid RIB dump, every (prefix, peer) cell of a
collector peer with a non-zero uc_rib_start is reconciled by the backlog
rule: the cell becomes eovrCellResult of its old value, which promotes the
under-construction data over the live data exactly when
uc_delta_ts + uc_rib_start > last_ts and not
(last_ts > uc_rib_start - 60) (uint32 arithmetic); when the predicate
holds and uc_origin_asn is ORIGIN_DOWN the live data becomes absent
(last_ts 0, origin ORIGIN_DOWN, cell deactivated), and the peer's
positive-mismatch counter counts exactly the cells whose positive-mismatch
condition fires, which for such a cell is exactly its previous Active
state. -/
theorem c1_backlog (s : RTState) (c : Collector) (pid : PeerSig)
    (pfx : Pfx) (p : PerPeer) (pp : PfxPeer)
    (hpn : (s.peers.map Prod.fst).Nodup)
    (hp : alook s.peers pid = some p)
    (hmem : pid ∈ c.collector_peerids)
    (huc : p.bgp_time_uc_rib_start ≠ 0)
    (hcell : alook s.cells (pfx, pid) = some pp) :
    alook ((end_of_valid_rib s c).1).cells (pfx, pid) =
      some (eovrCellResult pp p.bgp_time_uc_rib_start) ∧
    (backlogPredUc pp p.bgp_time_uc_rib_start →
      pp.uc_origin_asn = ROUTINGTABLES_DOWN_ORIGIN_ASN →
      (eovrCellResult pp p.bgp_time_uc_rib_start).bgp_time_last_ts = 0 ∧
      (eovrCellResult pp p.bgp_time_uc_rib_start).orig_asn =
        ROUTINGTABLES_DOWN_ORIGIN_ASN ∧
      (eovrCellResult pp p.bgp_time_uc_rib_start).cellState = false) ∧
    (backlogPredUc pp p.bgp_time_uc_rib_start →
      pp.uc_origin_asn ≠ ROUTINGTABLES_DOWN_ORIGIN_ASN →
      (eovrCellResult pp p.bgp_time_uc_rib_start).bgp_time_last_ts =
        u32add pp.bgp_time_uc_delta_ts p.bgp_time_uc_rib_start ∧
      (eovrCellResult pp p.bgp_time_uc_rib_start).orig_asn =
        pp.uc_origin_asn ∧
      (eovrCellResult pp p.bgp_time_uc_rib_start).cellState = true) ∧
    (¬ backlogPredUc pp p.bgp_time_uc_rib_start →
      (eovrCellResult pp p.bgp_time_uc_rib_start).bgp_time_last_ts =
        pp.bgp_time_last_ts ∧
      (eovrCellResult pp p.bgp_time_uc_rib_start).orig_asn =
        pp.orig_asn) ∧
    (alook ((end_of_valid_rib s c).1).peers pid).map
        PerPeer.rib_positive_mismatches_cnt =
      some (p.rib_positive_mismatches_cnt +
        s.cells.countP (fun kpp => decide (kpp.1.2 = pid) &&
          eovrPosHit c (peerUcStart (alook s.peers kpp.1.2)) kpp)) ∧
    (backlogPredUc pp p.bgp_time_uc_rib_start →
      pp.uc_origin_asn = ROUTINGTABLES_DOWN_ORIGIN_ASN →
      eovrPosHit c (some p.bgp_time_uc_rib_start) ((pfx, pid), pp) =
        pp.cellState) := by
  have hcn :
      (s.cells.foldl (eovrCellStep c) (s.peers, [])).2 =
        s.cells.map (fun kpp =>
          (kpp.1,
           eovrCellTransform c (peerUcStart (alook s.peers kpp.1.2)) kpp.1
             kpp.2)) := by
    have h0 := eovrCellLoop_cells c s.cells (s.peers, [])
    simpa using h0
  have hkeys1 :
      (((s.cells.foldl (eovrCellStep c) (s.peers, [])).1).map
        Prod.fst).Nodup := by
    have h0 := eovrCellLoop_keys c s.cells (s.peers, [])
    rw [h0]
    exact hpn
  have hloop :
      ∀ kv ∈ (s.cells.foldl (eovrCellStep c) (s.peers, [])).1,
        kv.1 = pid → kv.2.bgp_time_uc_rib_start ≠ 0 := by
    intro kv hm he
    obtain ⟨k0, v0⟩ := kv
    subst he
    have halk :
        alook ((s.cells.foldl (eovrCellStep c) (s.peers, [])).1) k0 =
          some v0 :=
      alook_eq_some_of_mem_nodup hkeys1 hm
    have hu :
        peerUcStart
            (alook ((s.cells.foldl (eovrCellStep c) (s.peers, [])).1)
              k0) =
          peerUcStart (alook s.peers k0) :=
      eovrCellLoop_ucStart c s.cells (s.peers, []) k0
    rw [halk, hp] at hu
    simp only [peerUcStart, Option.map_some', Option.some.injEq] at hu
    simpa [hu] using huc
  refine ⟨?_, ?_, ?_, ?_, ?_, ?_⟩
  · have hc2 :
        alook ((end_of_valid_rib s c).1).cells (pfx, pid) =
          alook ((s.cells.foldl (eovrCellStep c) (s.peers, [])).2)
            (pfx, pid) := by
      simp only [end_of_valid_rib]
      exact eovrPeerLoop_cells c
        ((s.cells.foldl (eovrCellStep c) (s.peers, [])).1)
        ([], (s.cells.foldl (eovrCellStep c) (s.peers, [])).2)
        (pfx, pid) hloop
    rw [hc2, hcn,
      alook_map_keyfun
        (fun k2 pp2 =>
          eovrCellTransform c (peerUcStart (alook s.peers k2.2)) k2 pp2)
        s.cells (pfx, pid),
      hcell]
    simp [eovrCellTransform, peerUcStart, hp, hmem, huc]
  · intro h1 h2
    unfold eovrCellResult
    rw [if_pos h1, if_neg (fun hne => hne h2)]
    exact ⟨rfl, rfl, rfl⟩
  · intro h1 h2
    unfold eovrCellResult
    rw [if_pos h1, if_pos h2]
    exact ⟨rfl, rfl, rfl⟩
  · intro h1
    unfold eovrCellResult
    rw [if_neg h1]
    split_ifs <;> exact ⟨rfl, rfl⟩
  · have hpp :
        (end_of_valid_rib s c).1.peers =
          ((s.cells.foldl (eovrCellStep c) (s.peers, [])).1).map
            (fun kp => (kp.1, eovrPeerTransform c kp.1 kp.2)) := by
      simp only [end_of_valid_rib]
      have h0 := eovrPeerLoop_peers c
        ((s.cells.foldl (eovrCellStep c) (s.peers, [])).1)
        ([], (s.cells.foldl (eovrCellStep c) (s.peers, [])).2)
      simpa using h0
    have hpos :
        (alook ((s.cells.foldl (eovrCellStep c) (s.peers, [])).1)
            pid).map PerPeer.rib_positive_mismatches_cnt =
          (alook s.peers pid).map
            (fun x => x.rib_positive_mismatches_cnt +
              s.cells.countP (fun kpp => decide (kpp.1.2 = pid) &&
                eovrPosHit c (peerUcStart (alook s.peers kpp.1.2)) kpp)) :=
      eovrCellLoop_pos c s.cells (s.peers, []) pid
    rw [hp] at hpos
    rw [hpp, alook_map_keyfun (eovrPeerTransform c)
      ((s.cells.foldl (eovrCellStep c) (s.peers, [])).1) pid]
    cases hx :
        alook ((s.cells.foldl (eovrCellStep c) (s.peers, [])).1) pid with
    | none => rw [hx] at hpos; simp at hpos
    | some v =>
      rw [hx] at hpos
      simp only [Option.map_some', Option.some.injEq] at hpos
      simp only [Option.map_some', Option.some.injEq,
        eovrPeerTransform_pos]
      exact hpos
  · intro h1 h2
    simp only [eovrPosHit]
    rw [decide_eq_true hmem, decide_eq_true huc, decide_eq_true h1,
      decide_eq_true h2]
    simp

/-- C1, witness: the RIB witness state, where the backlog predicate holds
for the cell of peer 65001, the under-construction origin is ORIGIN_DOWN,
the cell was Active, and the positive-mismatch counter goes from 0 to 1. -/
theorem c1_witness :
    alook ((end_of_valid_rib stateRibW collRibW).1).cells (pfxW, pidW) =
      some (eovrCellResult cellRibW peerRibW.bgp_time_uc_rib_start) ∧
    (backlogPredUc cellRibW peerRibW.bgp_time_uc_rib_start →
      cellRibW.uc_origin_asn = ROUTINGTABLES_DOWN_ORIGIN_ASN →
      (eovrCellResult cellRibW
        peerRibW.bgp_time_uc_rib_start).bgp_time_last_ts = 0 ∧
      (eovrCellResult cellRibW peerRibW.bgp_time_uc_rib_start).orig_asn =
        ROUTINGTABLES_DOWN_ORIGIN_ASN ∧
      (eovrCellResult cellRibW peerRibW.bgp_time_uc_rib_start).cellState =
        false) ∧
    (backlogPredUc cellRibW peerRibW.bgp_time_uc_rib_start →
      cellRibW.uc_origin_asn ≠ ROUTINGTABLES_DOWN_ORIGIN_ASN →
      (eovrCellResult cellRibW
        peerRibW.bgp_time_uc_rib_start).bgp_time_last_ts =
        u32add cellRibW.bgp_time_uc_delta_ts
          peerRibW.bgp_time_uc_rib_start ∧
      (eovrCellResult cellRibW peerRibW.bgp_time_uc_rib_start).orig_asn =
        cellRibW.uc_origin_asn ∧
      (eovrCellResult cellRibW peerRibW.bgp_time_uc_rib_start).cellState =
        true) ∧
    (¬ backlogPredUc cellRibW peerRibW.bgp_time_uc_rib_start →
      (eovrCellResult cellRibW
        peerRibW.bgp_time_uc_rib_start).bgp_time_last_ts =
        cellRibW.bgp_time_last_ts ∧
      (eovrCellResult cellRibW peerRibW.bgp_time_uc_rib_start).orig_asn =
        cellRibW.orig_asn) ∧
    (alook ((end_of_valid_rib stateRibW collRibW).1).peers pidW).map
        PerPeer.rib_positive_mismatches_cnt =
      some (peerRibW.rib_positive_mismatches_cnt +
        stateRibW.cells.countP (fun kpp => decide (kpp.1.2 = pidW) &&
          eovrPosHit collRibW
            (peerUcStart (alook stateRibW.peers kpp.1.2)) kpp)) ∧
    (backlogPredUc cellRibW peerRibW.bgp_time_uc_rib_start →
      cellRibW.uc_origin_asn = ROUTINGTABLES_DOWN_ORIGIN_ASN →
      eovrPosHit collRibW (some peerRibW.bgp_time_uc_rib_start)
          ((pfxW, pidW), cellRibW) =
        cellRibW.cellState) :=
  c1_backlog stateRibW collRibW pidW pfxW peerRibW cellRibW (by decide)
    (by decide) (by decide) (by decide) (by decide)

end BgpRt

namespace BgpRt

/-! ### C7: peer-state updates that do not change the active status -/

/-- C7, counterexample: peer 65001 goes Established at 5 and Idle at 7; a
further Idle message at 100 is a transition that does not change the active
status, yet the reference RIB window stays at 7 instead of being set to the
message timestamp 100 as claimed. -/
theorem c7_counterexample :
    (alook (processRecords
        [updRecW 5 [elemStateW FsmState.established],
         updRecW 7 [elemStateW FsmState.idle],
         updRecW 100 [elemStateW FsmState.idle]]).peers pidW).map
      PerPeer.bgp_time_ref_rib_start = some 7 ∧ (7 : Nat) ≠ 100 := by
  refine ⟨by decide, by decide⟩

/-- C7, amended: on a peer-state update that changes neither direction of
the active status, the fsm state and both reference RIB bounds are set to
the new state and the timestamp only when the new state differs from the
prior fsm state; when it is the same state, only the state-message counter
moves. -/
theorem c7_amended (s : RTState) (pid : PeerSig) (new_state : FsmState)
    (ts : Nat) (p : PerPeer)
    (hp : alook s.peers pid = some p)
    (hdown : ¬ (p.bgp_fsm_state = FsmState.established ∧
                new_state ≠ FsmState.established))
    (hup : ¬ (p.bgp_fsm_state ≠ FsmState.established ∧
              new_state = FsmState.established)) :
    (new_state ≠ p.bgp_fsm_state →
      apply_state_update s pid new_state ts =
        { s with peers := (aset s.peers pid
            { p with
              bgp_fsm_state := new_state
              bgp_time_ref_rib_start := ts
              bgp_time_ref_rib_end := ts
              state_messages_cnt := p.state_messages_cnt + 1 }) }) ∧
    (new_state = p.bgp_fsm_state →
      apply_state_update s pid new_state ts =
        { s with peers := (aset s.peers pid
            { p with state_messages_cnt := p.state_messages_cnt + 1 }) }) := by
  simp only [apply_state_update, hp]
  constructor
  · intro hne
    rw [if_neg (by simpa using hdown), if_neg (by simpa using hup),
      if_pos (by simpa using fun he => hne he.symm)]
  · intro he
    rw [if_neg (by simpa using hdown), if_neg (by simpa using hup),
      if_neg (by simpa using he.symm)]

/-- C7, witness: the amended theorem on the reachable Idle peer receiving a
Connect message at 100. -/
theorem c7_witness :
    apply_state_update stateIdleW pidW FsmState.connect 100 =
      { stateIdleW with peers := (aset stateIdleW.peers pidW
          { peerIdleW with
            bgp_fsm_state := FsmState.connect
            bgp_time_ref_rib_start := 100
            bgp_time_ref_rib_end := 100
            state_messages_cnt := peerIdleW.state_messages_cnt + 1 }) } :=
  (c7_amended stateIdleW pidW FsmState.connect 100 peerIdleW (by decide)
    (by decide) (by decide)).1 (by decide)

/-! ### C6: RIB rows only touch the under-construction side -/

/-- C6: applying a RIB row for a present peer and an existing cell sets the
peer's UC window (start only if it was 0, end always) and the cell's UC
delta and origin, and leaves the live fields — the cell's last_ts, origin,
active flag and counters, and the peer's view state and fsm state —
unchanged. -/
theorem c6_rib_row (s : RTState) (pid : PeerSig) (e : Elem) (ts : Nat)
    (p : PerPeer) (cell : PfxPeer)
    (hp : alook s.peers pid = some p)
    (hcell : alook s.cells (e.pfx, pid) = some cell) :
    ∃ p' cell',
      alook (apply_rib_message s pid e ts).peers pid = some p' ∧
      alook (apply_rib_message s pid e ts).cells (e.pfx, pid) = some cell' ∧
      p'.bgp_time_uc_rib_start =
        (if p.bgp_time_uc_rib_start = 0 then ts
         else p.bgp_time_uc_rib_start) ∧
      p'.bgp_time_uc_rib_end = ts ∧
      cell'.bgp_time_uc_delta_ts = u32sub ts p'.bgp_time_uc_rib_start ∧
      cell'.uc_origin_asn = get_origin_asn e.aspath ∧
      cell'.bgp_time_last_ts = cell.bgp_time_last_ts ∧
      cell'.orig_asn = cell.orig_asn ∧
      cell'.cellState = cell.cellState ∧
      cell'.announcements = cell.announcements ∧
      cell'.withdrawals = cell.withdrawals ∧
      p'.viewState = p.viewState ∧
      p'.bgp_fsm_state = p.bgp_fsm_state := by
  simp only [apply_rib_message, hp, hcell]
  refine ⟨_, _, alook_aset_self _ _ _, alook_aset_self _ _ _, ?_⟩
  by_cases h0 : p.bgp_time_uc_rib_start = 0 <;> simp [h0]

/-- C6, witness: a RIB row for 10.0.0.0/24 with origin 65999 at time 2001
on the RIB witness state. -/
theorem c6_witness :
    ∃ p' cell',
      alook (apply_rib_message stateRibW pidW
        { etype := ElemType.ribRow
          peerAddr := 1
          peerAsn := 65001
          pfx := pfxW
          aspath := [PathSeg.asn 65001, PathSeg.asn 65999]
          newState := FsmState.unknown } 2001).peers pidW = some p' ∧
      alook (apply_rib_message stateRibW pidW
        { etype := ElemType.ribRow
          peerAddr := 1
          peerAsn := 65001
          pfx := pfxW
          aspath := [PathSeg.asn 65001, PathSeg.asn 65999]
          newState := FsmState.unknown } 2001).cells (pfxW, pidW) =
        some cell' ∧
      p'.bgp_time_uc_rib_start =
        (if peerRibW.bgp_time_uc_rib_start = 0 then 2001
         else peerRibW.bgp_time_uc_rib_start) ∧
      p'.bgp_time_uc_rib_end = 2001 ∧
      cell'.bgp_time_uc_delta_ts = u32sub 2001 p'.bgp_time_uc_rib_start ∧
      cell'.uc_origin_asn =
        get_origin_asn [PathSeg.asn 65001, PathSeg.asn 65999] ∧
      cell'.bgp_time_last_ts = cellRibW.bgp_time_last_ts ∧
      cell'.orig_asn = cellRibW.orig_asn ∧
      cell'.cellState = cellRibW.cellState ∧
      cell'.announcements = cellRibW.announcements ∧
      cell'.withdrawals = cellRibW.withdrawals ∧
      p'.viewState = peerRibW.viewState ∧
      p'.bgp_fsm_state = peerRibW.bgp_fsm_state :=
  c6_rib_row stateRibW pidW _ 2001 peerRibW cellRibW (by decide) (by decide)

/-! ### C10: the early-discard rule of routingtables_process_record -/

/-- C10: a record older than the collector's reference RIB start time is
discarded with no state change exactly when an under-construction RIB is in
progress (the source's inner check repeats the comparison against the
reference RIB start time); with no UC RIB in progress the record is
processed normally. -/
theorem c10_discard (s : RTState) (c : Collector) (r : RecordT)
    (hc : alook s.collectors r.dump_collector = some c)
    (hlt : r.record_time < c.bgp_time_ref_rib_start_time) :
    (c.bgp_time_uc_rib_dump_time ≠ 0 →
      routingtables_process_record s r = s) ∧
    (c.bgp_time_uc_rib_dump_time = 0 →
      routingtables_process_record s r = processRecordBody s c r) := by
  simp only [routingtables_process_record, hc]
  constructor
  · intro huc
    rw [if_pos ⟨hlt, huc, hlt⟩]
  · intro huc
    rw [if_neg (by simp [huc])]

/-- C10, witness: a record at time 3 against a collector whose reference
RIB starts at 10 while a UC RIB (dump time 5) is in progress is dropped
without any state change. -/
theorem c10_witness :
    routingtables_process_record stateDiscardW (emptyRecW 3) =
      stateDiscardW :=
  (c10_discard stateDiscardW collDiscardW (emptyRecW 3) (by decide)
    (by decide)).1 (by decide)

/-! ### C8: the collector-state invariant -/

theorem mem_aset_keys {K V : Type} [DecidableEq K]
    (l : List (K × V)) (k : K) (v : V) (q : K) :
    q ∈ (aset l k v).map Prod.fst ↔ q ∈ l.map Prod.fst ∨ q = k := by
  induction l with
  | nil => simp [aset]
  | cons hd t ih =>
    by_cases hk : hd.1 = k
    · simp only [aset]
      rw [if_pos hk]
      subst hk
      simp
      tauto
    · simp only [aset]
      rw [if_neg hk]
      simp [ih]
      tauto

theorem nodup_aset {K V : Type} [DecidableEq K]
    (l : List (K × V)) (k : K) (v : V)
    (hn : (l.map Prod.fst).Nodup) :
    ((aset l k v).map Prod.fst).Nodup := by
  induction l with
  | nil => simp [aset]
  | cons hd t ih =>
    simp only [List.map_cons, List.nodup_cons] at hn
    by_cases hk : hd.1 = k
    · simp only [aset]
      rw [if_pos hk]
      subst hk
      simp only [List.map_cons, List.nodup_cons]
      exact hn
    · simp only [aset]
      rw [if_neg hk]
      simp only [List.map_cons, List.nodup_cons]
      refine ⟨?_, ih hn.2⟩
      intro hmem
      rcases (mem_aset_keys t k v hd.1).mp hmem with h | h
      · exact hn.1 h
      · exact hk h

/-- The peer-counting fold of update_collector_state, characterized: it
counts the collector's active peer entries and detects a non-active entry
with a known fsm state. -/
theorem ucsFold_eq (P : List PeerSig) (l : List (PeerSig × PerPeer)) :
    ∀ (n : Nat) (b : Bool),
      l.foldl (fun (acc : Nat × Bool) kp =>
        if kp.1 ∈ P then
          if kp.2.viewState then (acc.1 + 1, acc.2)
          else
            if kp.2.bgp_fsm_state ≠ FsmState.unknown then (acc.1, false)
            else acc
        else acc) (n, b) =
      (n + l.countP (fun kp => decide (kp.1 ∈ P) && kp.2.viewState),
       b && !(l.any (fun kp => decide (kp.1 ∈ P) && !kp.2.viewState &&
         decide (kp.2.bgp_fsm_state ≠ FsmState.unknown)))) := by
  induction l with
  | nil => intro n b; simp
  | cons hd t ih =>
    intro n b
    rw [List.foldl_cons]
    by_cases h1 : hd.1 ∈ P
    · by_cases h2 : hd.2.viewState = true
      · simp only [if_pos h1, h2, if_true]
        rw [ih (n + 1) b]
        simp [List.countP_cons, List.any_cons, h1, h2, Prod.ext_iff]
        all_goals omega
      · rw [Bool.not_eq_true] at h2
        by_cases h3 : hd.2.bgp_fsm_state ≠ FsmState.unknown
        · simp only [if_pos h1, h2, if_false, Bool.false_eq_true,
            if_pos h3]
          rw [ih n false]
          simp [List.countP_cons, List.any_cons, h1, h2, h3]
        · simp only [if_pos h1, h2, if_false, Bool.false_eq_true,
            if_neg h3]
          rw [not_not] at h3
          rw [ih n b]
          simp [List.countP_cons, List.any_cons, h1, h2, h3]
    · simp only [if_neg h1]
      rw [ih n b]
      simp [List.countP_cons, List.any_cons, h1]

/-- update_collector_state stores exactly the collector state the claimed
invariant prescribes, provided the peer table has no duplicate keys. -/
theorem update_collector_state_state (s : RTState) (c : Collector)
    (rt : Nat) (hn : (s.peers.map Prod.fst).Nodup) :
    (update_collector_state s c rt).state = expectedCollectorState s c := by
  simp only [update_collector_state, ucsFold_eq, Nat.zero_add,
    Bool.true_and]
  unfold expectedCollectorState
  by_cases hup : c.collector_peerids.any (peerActiveOf s) = true
  · obtain ⟨pid, hmem, hact⟩ := List.any_eq_true.mp hup
    unfold peerActiveOf at hact
    have hpos :
        0 < s.peers.countP (fun kp =>
          decide (kp.1 ∈ c.collector_peerids) && kp.2.viewState) := by
      rw [List.countP_pos]
      cases hq : alook s.peers pid with
      | none =>
        rw [hq] at hact
        exact absurd hact Bool.false_ne_true
      | some p =>
        rw [hq] at hact
        have hact2 : p.viewState = true := hact
        exact ⟨(pid, p), mem_of_alook_eq_some hq, by simp [hmem, hact2]⟩
    rw [if_pos (by omega), if_pos hup]
  · have hcnt :
        s.peers.countP (fun kp =>
          decide (kp.1 ∈ c.collector_peerids) && kp.2.viewState) = 0 := by
      by_contra hne
      obtain ⟨kp, hmem, hp⟩ :=
        List.countP_pos.mp (Nat.pos_of_ne_zero hne)
      simp only [Bool.and_eq_true, decide_eq_true_eq] at hp
      obtain ⟨k0, v0⟩ := kp
      have halk : alook s.peers k0 = some v0 :=
        alook_eq_some_of_mem_nodup hn hmem
      exact hup (List.any_eq_true.mpr
        ⟨k0, hp.1, by unfold peerActiveOf; rw [halk]; exact hp.2⟩)
    rw [if_neg (by simp [hcnt]), if_neg hup]
    by_cases hdn : c.collector_peerids.any (peerFsmKnown s) = true
    · obtain ⟨pid, hmem, hkn⟩ := List.any_eq_true.mp hdn
      unfold peerFsmKnown at hkn
      have hany :
          s.peers.any (fun kp =>
            decide (kp.1 ∈ c.collector_peerids) && !kp.2.viewState &&
            decide (kp.2.bgp_fsm_state ≠ FsmState.unknown)) = true := by
        cases hq : alook s.peers pid with
        | none =>
          rw [hq] at hkn
          exact absurd hkn Bool.false_ne_true
        | some p =>
          rw [hq] at hkn
          have hkn2 : p.bgp_fsm_state ≠ FsmState.unknown :=
            of_decide_eq_true hkn
          have hvs : p.viewState = false := by
            cases hb : p.viewState with
            | false => rfl
            | true =>
              exact absurd (List.any_eq_true.mpr
                ⟨pid, hmem, by unfold peerActiveOf; rw [hq]; exact hb⟩)
                hup
          exact List.any_eq_true.mpr
            ⟨(pid, p), mem_of_alook_eq_some hq, by simp [hmem, hvs, hkn2]⟩
      rw [hany, if_pos hdn]
      simp
    · have hany :
          s.peers.any (fun kp =>
            decide (kp.1 ∈ c.collector_peerids) && !kp.2.viewState &&
            decide (kp.2.bgp_fsm_state ≠ FsmState.unknown)) = false := by
        cases hb : s.peers.any (fun kp =>
            decide (kp.1 ∈ c.collector_peerids) && !kp.2.viewState &&
            decide (kp.2.bgp_fsm_state ≠ FsmState.unknown)) with
        | false => rfl
        | true =>
          obtain ⟨kp, hmem, hp⟩ := List.any_eq_true.mp hb
          simp only [Bool.and_eq_true, Bool.not_eq_true',
            decide_eq_true_eq] at hp
          obtain ⟨k0, v0⟩ := kp
          have halk : alook s.peers k0 = some v0 :=
            alook_eq_some_of_mem_nodup hn hmem
          exact absurd (List.any_eq_true.mpr
            ⟨k0, hp.1.1, by
              unfold peerFsmKnown
              rw [halk]
              exact decide_eq_true hp.2⟩) hdn
      rw [hany, if_neg hdn]
      simp

theorem reset_peerpfxdata_peers (s : RTState) (pid : PeerSig) (b : Bool) :
    (reset_peerpfxdata s pid b).peers = s.peers := by
  unfold reset_peerpfxdata
  cases alook s.peers pid <;> rfl

theorem reset_peerpfxdata_collectors (s : RTState) (pid : PeerSig)
    (b : Bool) :
    (reset_peerpfxdata s pid b).collectors = s.collectors := by
  unfold reset_peerpfxdata
  cases alook s.peers pid <;> rfl

/-- apply_prefix_update touches no peer entry other than its peer. -/
theorem apply_prefix_update_peers_ne (s : RTState) (pid q : PeerSig)
    (e : Elem) (ts : Nat) (hq : q ≠ pid) :
    alook (apply_prefix_update s pid e ts).peers q = alook s.peers q := by
  cases hp : alook s.peers pid with
  | none => unfold apply_prefix_update; rw [hp]
  | some p0 =>
    rw [apply_prefix_update_some s pid e ts p0 hp]
    exact alook_aset_ne _ _ _ _ hq

/-- apply_prefix_update keeps the peer table free of duplicate keys. -/
theorem apply_prefix_update_nodup (s : RTState) (pid : PeerSig)
    (e : Elem) (ts : Nat) (hn : (s.peers.map Prod.fst).Nodup) :
    ((apply_prefix_update s pid e ts).peers.map Prod.fst).Nodup := by
  cases hp : alook s.peers pid with
  | none => unfold apply_prefix_update; rw [hp]; exact hn
  | some p0 =>
    rw [apply_prefix_update_some s pid e ts p0 hp]
    exact nodup_aset _ _ _ hn

/-- apply_prefix_update leaves the collector map alone. -/
theorem apply_prefix_update_collectors (s : RTState) (pid : PeerSig)
    (e : Elem) (ts : Nat) :
    (apply_prefix_update s pid e ts).collectors = s.collectors := by
  cases hp : alook s.peers pid with
  | none => unfold apply_prefix_update; rw [hp]
  | some p0 => rw [apply_prefix_update_some s pid e ts p0 hp]

/-- apply_state_update touches no peer entry other than its peer. -/
theorem apply_state_update_peers_ne (s : RTState) (pid q : PeerSig)
    (ns : FsmState) (ts : Nat) (hq : q ≠ pid) :
    alook (apply_state_update s pid ns ts).peers q = alook s.peers q := by
  cases hp : alook s.peers pid with
  | none => unfold apply_state_update; rw [hp]
  | some p0 =>
    simp only [apply_state_update, hp]
    split_ifs <;>
      simp [reset_peerpfxdata_peers, alook_aset_ne _ _ _ _ hq]

/-- apply_state_update keeps the peer table free of duplicate keys. -/
theorem apply_state_update_nodup (s : RTState) (pid : PeerSig)
    (ns : FsmState) (ts : Nat) (hn : (s.peers.map Prod.fst).Nodup) :
    ((apply_state_update s pid ns ts).peers.map Prod.fst).Nodup := by
  cases hp : alook s.peers pid with
  | none => unfold apply_state_update; rw [hp]; exact hn
  | some p0 =>
    simp only [apply_state_update, hp]
    split_ifs <;>
      simp only [reset_peerpfxdata_peers] <;>
      first
      | exact nodup_aset _ _ _ hn
      | exact nodup_aset _ _ _ (nodup_aset _ _ _ hn)

/-- apply_state_update leaves the collector map alone. -/
theorem apply_state_update_collectors (s : RTState) (pid : PeerSig)
    (ns : FsmState) (ts : Nat) :
    (apply_state_update s pid ns ts).collectors = s.collectors := by
  cases hp : alook s.peers pid with
  | none => unfold apply_state_update; rw [hp]
  | some p0 =>
    simp only [apply_state_update, hp]
    split_ifs <;> simp [reset_peerpfxdata_collectors]

/-- apply_rib_message touches no peer entry other than its peer. -/
theorem apply_rib_message_peers_ne (s : RTState) (pid q : PeerSig)
    (e : Elem) (ts : Nat) (hq : q ≠ pid) :
    alook (apply_rib_message s pid e ts).peers q = alook s.peers q := by
  cases hp : alook s.peers pid with
  | none => unfold apply_rib_message; rw [hp]
  | some p0 =>
    simp only [apply_rib_message, hp]
    exact alook_aset_ne _ _ _ _ hq

/-- apply_rib_message keeps the peer table free of duplicate keys. -/
theorem apply_rib_message_nodup (s : RTState) (pid : PeerSig)
    (e : Elem) (ts : Nat) (hn : (s.peers.map Prod.fst).Nodup) :
    ((apply_rib_message s pid e ts).peers.map Prod.fst).Nodup := by
  cases hp : alook s.peers pid with
  | none => unfold apply_rib_message; rw [hp]; exact hn
  | some p0 =>
    simp only [apply_rib_message, hp]
    exact nodup_aset _ _ _ hn

/-- apply_rib_message leaves the collector map alone. -/
theorem apply_rib_message_collectors (s : RTState) (pid : PeerSig)
    (e : Elem) (ts : Nat) :
    (apply_rib_message s pid e ts).collectors = s.collectors := by
  cases hp : alook s.peers pid with
  | none => unfold apply_rib_message; rw [hp]
  | some p0 => simp only [apply_rib_message, hp]

theorem alook_map_keyfun2 {K V : Type} [DecidableEq K]
    (g : K × V → V) (l : List (K × V)) (q : K) :
    alook (l.map (fun kv => (kv.1, g kv))) q =
      (alook l q).map (fun v => g (q, v)) := by
  induction l with
  | nil => rfl
  | cons hd t ih =>
    obtain ⟨k0, v0⟩ := hd
    simp only [List.map_cons, alook]
    by_cases hk : k0 = q
    · subst hk
      simp
    · simp only [if_neg hk, ih]

theorem map_keyfun2_keys {K V : Type}
    (g : K × V → V) (l : List (K × V)) :
    (l.map (fun kv => (kv.1, g kv))).map Prod.fst = l.map Prod.fst := by
  induction l with
  | nil => rfl
  | cons hd t ih => simp [ih]

theorem map_keyfun_keys {K V : Type} (g : K → V → V) (l : List (K × V)) :
    (l.map (fun kp => (kp.1, g kp.1 kp.2))).map Prod.fst =
      l.map Prod.fst := by
  induction l with
  | nil => rfl
  | cons hd t ih => simp [ih]

/-- One element touches no peer entry of another collector. -/
theorem elemStep_peers_ne (r : RecordT) (acc : RTState × Collector)
    (e : Elem) (q : PeerSig) (hq : q.collector ≠ r.dump_collector) :
    alook (elemStep r acc e).1.peers q = alook acc.1.peers q := by
  have hqpid : q ≠ ({ collector := r.dump_collector
                      peerAddr := e.peerAddr
                      peerAsn := e.peerAsn } : PeerSig) := by
    intro he
    exact hq (by rw [he])
  simp only [elemStep]
  split_ifs with hskip hmem <;>
    first
    | rfl
    | (cases he : e.etype <;>
        simp only [he] <;>
        first
        | exact (apply_prefix_update_peers_ne _ _ _ _ _ hqpid).trans
            (alook_aset_ne _ _ _ _ hqpid)
        | exact (apply_state_update_peers_ne _ _ _ _ _ hqpid).trans
            (alook_aset_ne _ _ _ _ hqpid)
        | exact (apply_rib_message_peers_ne _ _ _ _ _ hqpid).trans
            (alook_aset_ne _ _ _ _ hqpid))

/-- One element keeps the peer table free of duplicate keys. -/
theorem elemStep_nodup (r : RecordT) (acc : RTState × Collector)
    (e : Elem) (hn : (acc.1.peers.map Prod.fst).Nodup) :
    (((elemStep r acc e).1).peers.map Prod.fst).Nodup := by
  simp only [elemStep]
  split_ifs with hskip hmem <;>
    first
    | exact hn
    | (cases he : e.etype <;>
        simp only [he] <;>
        first
        | exact apply_prefix_update_nodup _ _ _ _ (nodup_aset _ _ _ hn)
        | exact apply_state_update_nodup _ _ _ _ (nodup_aset _ _ _ hn)
        | exact apply_rib_message_nodup _ _ _ _ (nodup_aset _ _ _ hn))

/-- One element leaves the collector map alone. -/
theorem elemStep_collectors (r : RecordT) (acc : RTState × Collector)
    (e : Elem) :
    (elemStep r acc e).1.collectors = acc.1.collectors := by
  simp only [elemStep]
  split_ifs with hskip hmem <;>
    first
    | rfl
    | (cases he : e.etype <;>
        simp only [he] <;>
        first
        | exact apply_prefix_update_collectors _ _ _ _
        | exact apply_state_update_collectors _ _ _ _
        | exact apply_rib_message_collectors _ _ _ _)

/-- One element only adds peers of the record's collector to the
collector's peer list. -/
theorem elemStep_peerids (r : RecordT) (acc : RTState × Collector)
    (e : Elem) :
    ∀ x ∈ (elemStep r acc e).2.collector_peerids,
      x ∈ acc.2.collector_peerids ∨ x.collector = r.dump_collector := by
  intro x hx
  simp only [elemStep] at hx
  split_ifs at hx with hskip hmem
  · exact Or.inl hx
  · cases he : e.etype <;> simp only [he] at hx <;> exact Or.inl hx
  · cases he : e.etype <;> simp only [he] at hx <;>
      [skip; skip; skip; skip] <;>
      (rcases List.mem_append.mp hx with h | h
       · exact Or.inl h
       · right
         rw [List.mem_singleton.mp h])

/-- The element fold touches no peer entry of another collector. -/
theorem elemFold_peers_ne (r : RecordT) (l : List Elem) :
    ∀ (acc : RTState × Collector) (q : PeerSig),
      q.collector ≠ r.dump_collector →
      alook (l.foldl (elemStep r) acc).1.peers q = alook acc.1.peers q := by
  induction l with
  | nil => intro acc q _; rfl
  | cons hd t ih =>
    intro acc q hq
    rw [List.foldl_cons]
    exact (ih (elemStep r acc hd) q hq).trans
      (elemStep_peers_ne r acc hd q hq)

/-- The element fold keeps the peer table free of duplicate keys. -/
theorem elemFold_nodup (r : RecordT) (l : List Elem) :
    ∀ (acc : RTState × Collector),
      (acc.1.peers.map Prod.fst).Nodup →
      ((l.foldl (elemStep r) acc).1.peers.map Prod.fst).Nodup := by
  induction l with
  | nil => intro acc hn; exact hn
  | cons hd t ih =>
    intro acc hn
    rw [List.foldl_cons]
    exact ih (elemStep r acc hd) (elemStep_nodup r acc hd hn)

/-- The element fold leaves the collector map alone. -/
theorem elemFold_collectors (r : RecordT) (l : List Elem) :
    ∀ (acc : RTState × Collector),
      (l.foldl (elemStep r) acc).1.collectors = acc.1.collectors := by
  induction l with
  | nil => intro acc; rfl
  | cons hd t ih =>
    intro acc
    rw [List.foldl_cons]
    exact (ih (elemStep r acc hd)).trans (elemStep_collectors r acc hd)

/-- The element fold only adds peers of the record's collector. -/
theorem elemFold_peerids (r : RecordT) (l : List Elem) :
    ∀ (acc : RTState × Collector) (x : PeerSig),
      x ∈ (l.foldl (elemStep r) acc).2.collector_peerids →
      x ∈ acc.2.collector_peerids ∨ x.collector = r.dump_collector := by
  induction l with
  | nil => intro acc x hx; exact Or.inl hx
  | cons hd t ih =>
    intro acc x hx
    rw [List.foldl_cons] at hx
    rcases ih (elemStep r acc hd) x hx with h | h
    · exact elemStep_peerids r acc hd x h
    · exact Or.inr h

/-- stop_uc_process touches no peer entry outside the collector. -/
theorem stop_uc_process_peers_notin (s : RTState) (c : Collector)
    (q : PeerSig) (hq : q ∉ c.collector_peerids) :
    alook (stop_uc_process s c).1.peers q = alook s.peers q := by
  simp only [stop_uc_process]
  rw [alook_map_keyfun
    (fun k p => if k ∈ c.collector_peerids then
      { p with bgp_time_uc_rib_start := 0, bgp_time_uc_rib_end := 0 }
    else p) s.peers q]
  cases alook s.peers q <;> simp [hq]

/-- stop_uc_process keeps the peer keys. -/
theorem stop_uc_process_keys (s : RTState) (c : Collector) :
    (stop_uc_process s c).1.peers.map Prod.fst = s.peers.map Prod.fst := by
  simp only [stop_uc_process]
  exact map_keyfun_keys
    (fun k p => if k ∈ c.collector_peerids then
      { p with bgp_time_uc_rib_start := 0, bgp_time_uc_rib_end := 0 }
    else p) s.peers

/-- stop_uc_process leaves the collector map alone. -/
theorem stop_uc_process_collectors (s : RTState) (c : Collector) :
    (stop_uc_process s c).1.collectors = s.collectors := rfl

/-- stop_uc_process never changes the collector's peer list. -/
theorem stop_uc_process_peerids (s : RTState) (c : Collector) :
    (stop_uc_process s c).2.collector_peerids = c.collector_peerids := rfl

/-- One cell-loop step touches no peer entry outside the collector. -/
theorem eovrCellStep_peers_notin (c : Collector)
    (pr : List (PeerSig × PerPeer) × List ((Pfx × PeerSig) × PfxPeer))
    (kpp : (Pfx × PeerSig) × PfxPeer) (q : PeerSig)
    (hq : q ∉ c.collector_peerids) :
    alook (eovrCellStep c pr kpp).1 q = alook pr.1 q := by
  unfold eovrCellStep
  cases hk : alook pr.1 kpp.1.2 with
  | none => simp [hk]
  | some p =>
    simp only [hk]
    split_ifs with h1 h2 h3 h4 <;>
      first
      | rfl
      | exact alook_aset_ne _ _ _ _ (fun he => hq (by rw [he]; exact h1.1))

/-- The cell loop touches no peer entry outside the collector. -/
theorem eovrCellLoop_peers_notin (c : Collector)
    (cells : List ((Pfx × PeerSig) × PfxPeer)) :
    ∀ (pr : List (PeerSig × PerPeer) × List ((Pfx × PeerSig) × PfxPeer))
      (q : PeerSig), q ∉ c.collector_peerids →
      alook (cells.foldl (eovrCellStep c) pr).1 q = alook pr.1 q := by
  induction cells with
  | nil => intro pr q _; rfl
  | cons hd t ih =>
    intro pr q hq
    rw [List.foldl_cons]
    exact (ih (eovrCellStep c pr hd) q hq).trans
      (eovrCellStep_peers_notin c pr hd q hq)

/-- end_of_valid_rib touches no peer entry outside the collector. -/
theorem end_of_valid_rib_peers_notin (s : RTState) (c : Collector)
    (q : PeerSig) (hq : q ∉ c.collector_peerids) :
    alook (end_of_valid_rib s c).1.peers q = alook s.peers q := by
  simp only [end_of_valid_rib]
  rw [eovrPeerLoop_peers c
    ((s.cells.foldl (eovrCellStep c) (s.peers, [])).1)
    ([], (s.cells.foldl (eovrCellStep c) (s.peers, [])).2)]
  simp only [List.nil_append, alook_map_keyfun]
  rw [eovrCellLoop_peers_notin c s.cells (s.peers, []) q hq]
  cases halk : alook s.peers q <;>
    simp [halk, eovrPeerTransform, hq]

/-- end_of_valid_rib keeps the peer keys. -/
theorem end_of_valid_rib_keys (s : RTState) (c : Collector) :
    (end_of_valid_rib s c).1.peers.map Prod.fst =
      s.peers.map Prod.fst := by
  simp only [end_of_valid_rib]
  rw [eovrPeerLoop_peers c
    ((s.cells.foldl (eovrCellStep c) (s.peers, [])).1)
    ([], (s.cells.foldl (eovrCellStep c) (s.peers, [])).2)]
  simp only [List.nil_append]
  exact (map_keyfun_keys (eovrPeerTransform c) _).trans
    (eovrCellLoop_keys c s.cells (s.peers, []))

/-- end_of_valid_rib leaves the collector map alone. -/
theorem end_of_valid_rib_collectors (s : RTState) (c : Collector) :
    (end_of_valid_rib s c).1.collectors = s.collectors := rfl

/-- end_of_valid_rib never changes the collector's peer list. -/
theorem end_of_valid_rib_peerids (s : RTState) (c : Collector) :
    (end_of_valid_rib s c).2.collector_peerids =
      c.collector_peerids := rfl

/-- A corrupted message touches no peer entry outside the collector. -/
theorem corrupted_peers_notin (s : RTState) (c : Collector) (rt : Nat)
    (q : PeerSig) (hq : q ∉ c.collector_peerids) :
    alook (collector_process_corrupted_message s c rt).peers q =
      alook s.peers q := by
  simp only [collector_process_corrupted_message]
  rw [alook_map_keyfun2]
  cases alook s.peers q <;> simp [hq]

/-- A corrupted message keeps the peer keys. -/
theorem corrupted_keys (s : RTState) (c : Collector) (rt : Nat) :
    (collector_process_corrupted_message s c rt).peers.map Prod.fst =
      s.peers.map Prod.fst := by
  simp only [collector_process_corrupted_message]
  exact map_keyfun2_keys _ s.peers

/-- A corrupted message leaves the collector map alone. -/
theorem corrupted_collectors (s : RTState) (c : Collector) (rt : Nat) :
    (collector_process_corrupted_message s c rt).collectors =
      s.collectors := rfl

/-- collector_process_valid_bgpinfo touches no peer entry of another
collector. -/
theorem cpv_peers_ne (s : RTState) (c : Collector) (r : RecordT)
    (q : PeerSig) (hq : q.collector ≠ r.dump_collector)
    (htag : ∀ pid ∈ c.collector_peerids, pid.collector = r.dump_collector) :
    alook (collector_process_valid_bgpinfo s c r).1.peers q =
      alook s.peers q := by
  have hqc : q ∉ c.collector_peerids := fun hm => hq (htag q hm)
  simp only [collector_process_valid_bgpinfo]
  split_ifs <;>
    first
    | rfl
    | exact stop_uc_process_peers_notin s c q hqc
    | exact elemFold_peers_ne r r.elems _ q hq
    | exact (elemFold_peers_ne r r.elems _ q hq).trans
        (stop_uc_process_peers_notin s c q hqc)
    | (refine (end_of_valid_rib_peers_notin _ _ q ?_).trans ?_
       · intro hm
         rcases elemFold_peerids r r.elems _ q hm with h | h
         · exact hqc h
         · exact hq h
       · first
         | exact elemFold_peers_ne r r.elems _ q hq
         | exact (elemFold_peers_ne r r.elems _ q hq).trans
             (stop_uc_process_peers_notin s c q hqc))

/-- collector_process_valid_bgpinfo keeps the peer table free of duplicate
keys. -/
theorem cpv_nodup (s : RTState) (c : Collector) (r : RecordT)
    (hn : (s.peers.map Prod.fst).Nodup) :
    ((collector_process_valid_bgpinfo s c r).1.peers.map Prod.fst).Nodup := by
  simp only [collector_process_valid_bgpinfo]
  split_ifs <;>
    first
    | exact hn
    | (rw [stop_uc_process_keys]; exact hn)
    | (refine elemFold_nodup r r.elems _ ?_
       first
       | exact hn
       | (rw [stop_uc_process_keys]; exact hn))
    | (rw [end_of_valid_rib_keys]
       refine elemFold_nodup r r.elems _ ?_
       first
       | exact hn
       | (rw [stop_uc_process_keys]; exact hn))

/-- collector_process_valid_bgpinfo leaves the collector map alone. -/
theorem cpv_collectors (s : RTState) (c : Collector) (r : RecordT) :
    (collector_process_valid_bgpinfo s c r).1.collectors =
      s.collectors := by
  simp only [collector_process_valid_bgpinfo]
  split_ifs <;>
    first
    | rfl
    | exact stop_uc_process_collectors s c
    | exact elemFold_collectors r r.elems _
    | exact (end_of_valid_rib_collectors _ _).trans
        (elemFold_collectors r r.elems _)

/-- After collector_process_valid_bgpinfo every recorded peer of the
collector carries the record's collector name. -/
theorem cpv_peerids (s : RTState) (c : Collector) (r : RecordT)
    (htag : ∀ pid ∈ c.collector_peerids, pid.collector = r.dump_collector) :
    ∀ x ∈ (collector_process_valid_bgpinfo s c r).2.collector_peerids,
      x.collector = r.dump_collector := by
  intro x hx
  simp only [collector_process_valid_bgpinfo] at hx
  split_ifs at hx <;>
    first
    | exact htag x hx
    | (rcases elemFold_peerids r r.elems _ x hx with h | h
       · exact htag x h
       · exact h)

theorem peerActiveOf_congr (s s' : RTState) (pid : PeerSig)
    (h : alook s'.peers pid = alook s.peers pid) :
    peerActiveOf s' pid = peerActiveOf s pid := by
  unfold peerActiveOf
  rw [h]

theorem peerFsmKnown_congr (s s' : RTState) (pid : PeerSig)
    (h : alook s'.peers pid = alook s.peers pid) :
    peerFsmKnown s' pid = peerFsmKnown s pid := by
  unfold peerFsmKnown
  rw [h]

theorem any_congr_mem {A : Type} (l : List A) (p q : A → Bool)
    (h : ∀ a ∈ l, p a = q a) : l.any p = l.any q := by
  induction l with
  | nil => rfl
  | cons hd t ih =>
    simp only [List.any_cons, h hd (List.mem_cons_self hd t),
      ih (fun a ha => h a (List.mem_cons_of_mem _ ha))]

/-- The prescribed collector state only looks at the peer entries of the
collector's peers. -/
theorem expectedCollectorState_congr (s s' : RTState) (c : Collector)
    (h : ∀ pid ∈ c.collector_peerids,
      alook s'.peers pid = alook s.peers pid) :
    expectedCollectorState s' c = expectedCollectorState s c := by
  unfold expectedCollectorState
  rw [any_congr_mem c.collector_peerids (peerActiveOf s') (peerActiveOf s)
      (fun a ha => peerActiveOf_congr s s' a (h a ha)),
    any_congr_mem c.collector_peerids (peerFsmKnown s') (peerFsmKnown s)
      (fun a ha => peerFsmKnown_congr s s' a (h a ha))]

/-- The prescribed collector state only looks at the collector's peer
list. -/
theorem expectedCollectorState_peerids (s : RTState) (c c' : Collector)
    (h : c'.collector_peerids = c.collector_peerids) :
    expectedCollectorState s c' = expectedCollectorState s c := by
  unfold expectedCollectorState
  rw [h]

/-- update_collector_state never changes the collector's peer list. -/
theorem update_collector_state_peerids (s : RTState) (c : Collector)
    (rt : Nat) :
    (update_collector_state s c rt).collector_peerids =
      c.collector_peerids := by
  unfold update_collector_state
  split_ifs <;> rfl

/-- Writing back the recomputed collector re-establishes well-formedness
and the collector-state invariant, given the frame facts about the
processing stage. -/
theorem finalize_inv (s1 : RTState) (c1 : Collector) (s : RTState)
    (r : RecordT)
    (hpn1 : (s1.peers.map Prod.fst).Nodup)
    (hcoll : s1.collectors = s.collectors)
    (hcn : (s.collectors.map Prod.fst).Nodup)
    (htagAll : ∀ cname cc, alook s.collectors cname = some cc →
        ∀ pid ∈ cc.collector_peerids, pid.collector = cname)
    (hok : CollectorsStateOk s)
    (hframe : ∀ q : PeerSig, q.collector ≠ r.dump_collector →
        alook s1.peers q = alook s.peers q)
    (htag1 : ∀ x ∈ c1.collector_peerids,
        x.collector = r.dump_collector) :
    StateWF { s1 with collectors := (aset s1.collectors r.dump_collector
        (update_collector_state s1 c1 r.record_time)) } ∧
    CollectorsStateOk { s1 with collectors := (aset s1.collectors
        r.dump_collector (update_collector_state s1 c1 r.record_time)) } := by
  constructor
  · refine ⟨hpn1, ?_, ?_⟩
    · rw [hcoll]
      exact nodup_aset _ _ _ hcn
    · intro cname cc hcc pid hpid
      by_cases hd : cname = r.dump_collector
      · subst hd
        have hcc2 : alook (aset s1.collectors r.dump_collector
            (update_collector_state s1 c1 r.record_time))
            r.dump_collector = some cc := hcc
        rw [alook_aset_self] at hcc2
        obtain rfl := Option.some.inj hcc2
        rw [update_collector_state_peerids] at hpid
        exact htag1 pid hpid
      · have hcc2 : alook (aset s1.collectors r.dump_collector
            (update_collector_state s1 c1 r.record_time)) cname =
            some cc := hcc
        rw [alook_aset_ne _ _ _ _ hd, hcoll] at hcc2
        exact htagAll cname cc hcc2 pid hpid
  · intro cname cc hcc
    by_cases hd : cname = r.dump_collector
    · subst hd
      have hcc2 : alook (aset s1.collectors r.dump_collector
          (update_collector_state s1 c1 r.record_time))
          r.dump_collector = some cc := hcc
      rw [alook_aset_self] at hcc2
      obtain rfl := Option.some.inj hcc2
      rw [update_collector_state_state s1 c1 r.record_time hpn1]
      show expectedCollectorState s1 c1 =
        expectedCollectorState s1 (update_collector_state s1 c1
          r.record_time)
      exact (expectedCollectorState_peerids s1 c1 _
        (update_collector_state_peerids s1 c1 r.record_time)).symm
    · have hcc2 : alook (aset s1.collectors r.dump_collector
          (update_collector_state s1 c1 r.record_time)) cname =
          some cc := hcc
      rw [alook_aset_ne _ _ _ _ hd, hcoll] at hcc2
      exact (hok cname cc hcc2).trans
        (expectedCollectorState_congr s s1 cc (fun pid hpid =>
          hframe pid (by rw [htagAll cname cc hcc2 pid hpid]
                         exact hd))).symm

/-- The record body preserves well-formedness and the collector-state
invariant. -/
theorem processRecordBody_inv (s : RTState) (c : Collector) (r : RecordT)
    (hpn : (s.peers.map Prod.fst).Nodup)
    (hcn : (s.collectors.map Prod.fst).Nodup)
    (htagAll : ∀ cname cc, alook s.collectors cname = some cc →
        ∀ pid ∈ cc.collector_peerids, pid.collector = cname)
    (hok : CollectorsStateOk s)
    (hc : alook s.collectors r.dump_collector = some c) :
    StateWF (processRecordBody s c r) ∧
    CollectorsStateOk (processRecordBody s c r) := by
  have htag : ∀ pid ∈ c.collector_peerids,
      pid.collector = r.dump_collector :=
    htagAll r.dump_collector c hc
  cases hst : r.status with
  | validRecord =>
    simp only [processRecordBody, hst]
    exact finalize_inv _ _ s r (cpv_nodup s c r hpn)
      (cpv_collectors s c r) hcn htagAll hok
      (fun q hq => cpv_peers_ne s c r q hq htag)
      (fun x hx => cpv_peerids s c r htag x hx)
  | corruptedSource =>
    simp only [processRecordBody, hst]
    refine finalize_inv _ _ s r ?_ (corrupted_collectors s c r.record_time)
      hcn htagAll hok ?_ ?_
    · rw [corrupted_keys]
      exact hpn
    · intro q hq
      exact corrupted_peers_notin s c r.record_time q
        (fun hm => hq (htag q hm))
    · intro x hx
      exact htag x hx
  | corruptedRecord =>
    simp only [processRecordBody, hst]
    refine finalize_inv _ _ s r ?_ (corrupted_collectors s c r.record_time)
      hcn htagAll hok ?_ ?_
    · rw [corrupted_keys]
      exact hpn
    · intro q hq
      exact corrupted_peers_notin s c r.record_time q
        (fun hm => hq (htag q hm))
    · intro x hx
      exact htag x hx
  | filteredSource =>
    simp only [processRecordBody, hst]
    refine finalize_inv _ _ s r hpn rfl hcn htagAll hok
      (fun q hq => rfl) ?_
    intro x hx
    have hx2 : x ∈ (if r.record_time < c.bgp_time_last then
        { c with bgp_time_last := r.record_time }
      else c).collector_peerids := hx
    split_ifs at hx2 <;> exact htag x hx2
  | emptySource =>
    simp only [processRecordBody, hst]
    refine finalize_inv _ _ s r hpn rfl hcn htagAll hok
      (fun q hq => rfl) ?_
    intro x hx
    have hx2 : x ∈ (if r.record_time < c.bgp_time_last then
        { c with bgp_time_last := r.record_time }
      else c).collector_peerids := hx
    split_ifs at hx2 <;> exact htag x hx2

/-- Processing one record preserves well-formedness and the
collector-state invariant. -/
theorem process_record_inv (s : RTState) (r : RecordT)
    (hwf : StateWF s) (hok : CollectorsStateOk s) :
    StateWF (routingtables_process_record s r) ∧
    CollectorsStateOk (routingtables_process_record s r) := by
  obtain ⟨hpn, hcn, htagAll⟩ := hwf
  cases hc : alook s.collectors r.dump_collector with
  | some c0 =>
    simp only [routingtables_process_record, hc]
    first
    | (split_ifs with hdisc
       · exact ⟨⟨hpn, hcn, htagAll⟩, hok⟩
       · exact processRecordBody_inv s c0 r hpn hcn htagAll hok hc)
    | exact processRecordBody_inv s c0 r hpn hcn htagAll hok hc
  | none =>
    have hwf0 : StateWF { s with collectors := (aset s.collectors
        r.dump_collector collector_create) } := by
      refine ⟨hpn, nodup_aset _ _ _ hcn, ?_⟩
      intro cname cc hcc pid hpid
      by_cases hd : cname = r.dump_collector
      · subst hd
        have hcc2 : alook (aset s.collectors r.dump_collector
            collector_create) r.dump_collector = some cc := hcc
        rw [alook_aset_self] at hcc2
        obtain rfl := Option.some.inj hcc2
        simp [collector_create] at hpid
      · have hcc2 : alook (aset s.collectors r.dump_collector
            collector_create) cname = some cc := hcc
        rw [alook_aset_ne _ _ _ _ hd] at hcc2
        exact htagAll cname cc hcc2 pid hpid
    have hok0 : CollectorsStateOk { s with collectors := (aset s.collectors
        r.dump_collector collector_create) } := by
      intro cname cc hcc
      by_cases hd : cname = r.dump_collector
      · subst hd
        have hcc2 : alook (aset s.collectors r.dump_collector
            collector_create) r.dump_collector = some cc := hcc
        rw [alook_aset_self] at hcc2
        obtain rfl := Option.some.inj hcc2
        simp [collector_create, expectedCollectorState]
      · have hcc2 : alook (aset s.collectors r.dump_collector
            collector_create) cname = some cc := hcc
        rw [alook_aset_ne _ _ _ _ hd] at hcc2
        exact hok cname cc hcc2
    obtain ⟨hpn0, hcn0, htag0⟩ := hwf0
    simp only [routingtables_process_record, hc]
    first
    | (split_ifs with hdisc
       · exact ⟨⟨hpn0, hcn0, htag0⟩, hok0⟩
       · exact processRecordBody_inv _ collector_create r hpn0 hcn0 htag0
           hok0 (alook_aset_self _ _ _))
    | exact processRecordBody_inv _ collector_create r hpn0 hcn0 htag0
        hok0 (alook_aset_self _ _ _)

/-- Folding records preserves well-formedness and the collector-state
invariant. -/
theorem processRecordsFold_inv (rs : List RecordT) :
    ∀ s, StateWF s → CollectorsStateOk s →
      StateWF (rs.foldl routingtables_process_record s) ∧
      CollectorsStateOk (rs.foldl routingtables_process_record s) := by
  induction rs with
  | nil => intro s hwf hok; exact ⟨hwf, hok⟩
  | cons hd t ih =>
    intro s hwf hok
    rw [List.foldl_cons]
    obtain ⟨hwf1, hok1⟩ := process_record_inv s hd hwf hok
    exact ih _ hwf1 hok1

/-- The empty engine is well-formed. -/
theorem routingtables_create_wf : StateWF routingtables_create := by
  refine ⟨?_, ?_, ?_⟩
  · simp [routingtables_create]
  · simp [routingtables_create]
  · intro cname cc hcc
    simp [routingtables_create, alook] at hcc

/-- C8: after every sequence of routingtables_process_record calls starting
from the freshly created engine, every stored collector's state equals the
prescribed state: Up exactly when at least one of its peers is Active,
otherwise Down when at least one of its peers has a known fsm state,
otherwise Unknown. -/
theorem c8_collector_state (rs : List RecordT) :
    ∀ cname c, alook (processRecords rs).collectors cname = some c →
      c.state = expectedCollectorState (processRecords rs) c := by
  have hstart : CollectorsStateOk routingtables_create := by
    intro cname cc hcc
    simp [routingtables_create, alook] at hcc
  exact (processRecordsFold_inv rs routingtables_create
    routingtables_create_wf hstart).2

/-- C8, witness: after one empty-source record at time 100 the collector
rrc00 is stored with state Unknown, which is the prescribed state of a
collector with no recorded peers. -/
theorem c8_witness :
    alook (processRecords [emptyRecW 100]).collectors "rrc00" =
      some { collector_create with
             bgp_time_last := 100
             empty_record_cnt := 1 } ∧
    ({ collector_create with
       bgp_time_last := 100
       empty_record_cnt := 1 } : Collector).state =
      expectedCollectorState (processRecords [emptyRecW 100])
        { collector_create with
          bgp_time_last := 100
          empty_record_cnt := 1 } :=
  ⟨by decide, c8_collector_state [emptyRecW 100] "rrc00"
     { collector_create with
       bgp_time_last := 100
       empty_record_cnt := 1 } (by decide)⟩

/-! ### C9: the Patricia tree -/

theorem bxor_false_eq (a b : Bool) (h : (a.xor b) = false) : a = b := by
  cases a <;> cases b <;> simp_all

theorem le_two_pow_of_ge8 (i : Nat) (hi : 8 ≤ i) : (256 : Nat) ≤ 2 ^ i :=
  le_trans (by norm_num) (Nat.pow_le_pow_right (by norm_num) hi)

theorem land_two_pow_bne (x m : Nat) :
    (Nat.land x (2 ^ m) != 0) = x.testBit m := by
  cases h : x.testBit m with
  | true =>
    have hland : Nat.land x (2 ^ m) = 2 ^ m := by
      refine Nat.eq_of_testBit_eq (fun i => ?_)
      rw [show Nat.land x (2 ^ m) = x &&& 2 ^ m from rfl, Nat.testBit_land]
      by_cases him : i = m
      · subst him
        simp [h, Nat.testBit_two_pow_self]
      · simp [Nat.testBit_two_pow_of_ne (fun he => him he.symm)]
    rw [hland]
    simp [bne_iff_ne, (Nat.two_pow_pos m).ne', h]
  | false =>
    have hland : Nat.land x (2 ^ m) = 0 := by
      refine Nat.eq_of_testBit_eq (fun i => ?_)
      rw [show Nat.land x (2 ^ m) = x &&& 2 ^ m from rfl, Nat.testBit_land,
        Nat.zero_testBit]
      by_cases him : i = m
      · subst him
        simp [h]
      · simp [Nat.testBit_two_pow_of_ne (fun he => him he.symm)]
    rw [hland]
    simp

theorem bitTest_single (x k : Nat) (hk : k < 8) :
    bitTest [x] k = x.testBit (7 - k) := by
  unfold bitTest byteAt
  rw [Nat.div_eq_of_lt hk, Nat.mod_eq_of_lt hk]
  have h3 : Nat.shiftRight 128 k = 2 ^ (7 - k) := by
    interval_cases k <;> rfl
  rw [show ([x].getD 0 0 : Nat) = x from rfl, h3, land_two_pow_bne]

theorem bitTest_byte (a : List Nat) (j : Nat) :
    bitTest a j = bitTest [byteAt a (j / 8)] (j % 8) := by
  have hlt : j % 8 < 8 := Nat.mod_lt _ (by norm_num)
  unfold bitTest byteAt
  rw [Nat.div_eq_of_lt hlt, Nat.mod_eq_of_lt hlt]
  rfl

theorem byteAt_lt (a : List Nat)
    (ha : a.all (fun t => decide (t < 256)) = true) (i : Nat) :
    byteAt a i < 256 := by
  unfold byteAt
  rw [List.getD_eq_getElem?_getD]
  cases hx : a[i]? with
  | none => simp
  | some v =>
    have hm : v ∈ a := List.getElem?_mem hx
    have := List.all_eq_true.mp ha _ hm
    simpa using this

theorem firstDiff_spec (x y : Nat) (hx : x < 256) (hy : y < 256)
    (hne : x ≠ y) :
    firstDiffInByte (Nat.xor x y) < 8 ∧
    bitTest [x] (firstDiffInByte (Nat.xor x y)) ≠
      bitTest [y] (firstDiffInByte (Nat.xor x y)) ∧
    ∀ j < firstDiffInByte (Nat.xor x y), bitTest [x] j = bitTest [y] j := by
  have hrb0 : Nat.xor x y ≠ 0 := by
    intro h
    exact hne (Nat.xor_eq_zero.mp h)
  have hrblt : Nat.xor x y < 256 := by
    exact Nat.xor_lt_two_pow (n := 8) hx hy
  have hxor : ∀ m, (Nat.xor x y).testBit m =
      (x.testBit m).xor (y.testBit m) := fun m =>
    Nat.testBit_xor x y m
  unfold firstDiffInByte
  split_ifs with h0 h1 h2 h3 h4 h5 h6
  · -- first differing bit is bit 0
    rw [show (128 : Nat) = 2 ^ 7 from rfl, land_two_pow_bne] at h0
    refine ⟨by norm_num, ?_, ?_⟩
    · rw [bitTest_single x 0 (by norm_num), bitTest_single y 0 (by norm_num)]
      intro he
      rw [hxor, he, Bool.xor_self] at h0
      exact Bool.false_ne_true h0
    · intro j hj
      omega
  · -- first differing bit is bit 1
    rw [show (64 : Nat) = 2 ^ 6 from rfl, land_two_pow_bne] at h1
    rw [show (128 : Nat) = 2 ^ 7 from rfl, land_two_pow_bne,
      Bool.not_eq_true] at h0
    refine ⟨by norm_num, ?_, ?_⟩
    · rw [bitTest_single x 1 (by norm_num), bitTest_single y 1 (by norm_num)]
      intro he
      rw [hxor, he, Bool.xor_self] at h1
      exact Bool.false_ne_true h1
    · intro j hj
      interval_cases j
      · rw [bitTest_single x 0 (by norm_num), bitTest_single y 0 (by norm_num)]
        refine bxor_false_eq _ _ ?_
        rw [← hxor]
        exact h0
  · -- first differing bit is bit 2
    rw [show (32 : Nat) = 2 ^ 5 from rfl, land_two_pow_bne] at h2
    rw [show (128 : Nat) = 2 ^ 7 from rfl, land_two_pow_bne,
      Bool.not_eq_true] at h0
    rw [show (64 : Nat) = 2 ^ 6 from rfl, land_two_pow_bne,
      Bool.not_eq_true] at h1
    refine ⟨by norm_num, ?_, ?_⟩
    · rw [bitTest_single x 2 (by norm_num), bitTest_single y 2 (by norm_num)]
      intro he
      rw [hxor, he, Bool.xor_self] at h2
      exact Bool.false_ne_true h2
    · intro j hj
      interval_cases j
      · rw [bitTest_single x 0 (by norm_num), bitTest_single y 0 (by norm_num)]
        refine bxor_false_eq _ _ ?_
        rw [← hxor]
        exact h0
      · rw [bitTest_single x 1 (by norm_num), bitTest_single y 1 (by norm_num)]
        refine bxor_false_eq _ _ ?_
        rw [← hxor]
        exact h1
  · -- first differing bit is bit 3
    rw [show (16 : Nat) = 2 ^ 4 from rfl, land_two_pow_bne] at h3
    rw [show (128 : Nat) = 2 ^ 7 from rfl, land_two_pow_bne,
      Bool.not_eq_true] at h0
    rw [show (64 : Nat) = 2 ^ 6 from rfl, land_two_pow_bne,
      Bool.not_eq_true] at h1
    rw [show (32 : Nat) = 2 ^ 5 from rfl, land_two_pow_bne,
      Bool.not_eq_true] at h2
    refine ⟨by norm_num, ?_, ?_⟩
    · rw [bitTest_single x 3 (by norm_num), bitTest_single y 3 (by norm_num)]
      intro he
      rw [hxor, he, Bool.xor_self] at h3
      exact Bool.false_ne_true h3
    · intro j hj
      interval_cases j
      · rw [bitTest_single x 0 (by norm_num), bitTest_single y 0 (by norm_num)]
        refine bxor_false_eq _ _ ?_
        rw [← hxor]
        exact h0
      · rw [bitTest_single x 1 (by norm_num), bitTest_single y 1 (by norm_num)]
        refine bxor_false_eq _ _ ?_
        rw [← hxor]
        exact h1
      · rw [bitTest_single x 2 (by norm_num), bitTest_single y 2 (by norm_num)]
        refine bxor_false_eq _ _ ?_
        rw [← hxor]
        exact h2
  · -- first differing bit is bit 4
    rw [show (8 : Nat) = 2 ^ 3 from rfl, land_two_pow_bne] at h4
    rw [show (128 : Nat) = 2 ^ 7 from rfl, land_two_pow_bne,
      Bool.not_eq_true] at h0
    rw [show (64 : Nat) = 2 ^ 6 from rfl, land_two_pow_bne,
      Bool.not_eq_true] at h1
    rw [show (32 : Nat) = 2 ^ 5 from rfl, land_two_pow_bne,
      Bool.not_eq_true] at h2
    rw [show (16 : Nat) = 2 ^ 4 from rfl, land_two_pow_bne,
      Bool.not_eq_true] at h3
    refine ⟨by norm_num, ?_, ?_⟩
    · rw [bitTest_single x 4 (by norm_num), bitTest_single y 4 (by norm_num)]
      intro he
      rw [hxor, he, Bool.xor_self] at h4
      exact Bool.false_ne_true h4
    · intro j hj
      interval_cases j
      · rw [bitTest_single x 0 (by norm_num), bitTest_single y 0 (by norm_num)]
        refine bxor_false_eq _ _ ?_
        rw [← hxor]
        exact h0
      · rw [bitTest_single x 1 (by norm_num), bitTest_single y 1 (by norm_num)]
        refine bxor_false_eq _ _ ?_
        rw [← hxor]
        exact h1
      · rw [bitTest_single x 2 (by norm_num), bitTest_single y 2 (by norm_num)]
        refine bxor_false_eq _ _ ?_
        rw [← hxor]
        exact h2
      · rw [bitTest_single x 3 (by norm_num), bitTest_single y 3 (by norm_num)]
        refine bxor_false_eq _ _ ?_
        rw [← hxor]
        exact h3
  · -- first differing bit is bit 5
    rw [show (4 : Nat) = 2 ^ 2 from rfl, land_two_pow_bne] at h5
    rw [show (128 : Nat) = 2 ^ 7 from rfl, land_two_pow_bne,
      Bool.not_eq_true] at h0
    rw [show (64 : Nat) = 2 ^ 6 from rfl, land_two_pow_bne,
      Bool.not_eq_true] at h1
    rw [show (32 : Nat) = 2 ^ 5 from rfl, land_two_pow_bne,
      Bool.not_eq_true] at h2
    rw [show (16 : Nat) = 2 ^ 4 from rfl, land_two_pow_bne,
      Bool.not_eq_true] at h3
    rw [show (8 : Nat) = 2 ^ 3 from rfl, land_two_pow_bne,
      Bool.not_eq_true] at h4
    refine ⟨by norm_num, ?_, ?_⟩
    · rw [bitTest_single x 5 (by norm_num), bitTest_single y 5 (by norm_num)]
      intro he
      rw [hxor, he, Bool.xor_self] at h5
      exact Bool.false_ne_true h5
    · intro j hj
      interval_cases j
      · rw [bitTest_single x 0 (by norm_num), bitTest_single y 0 (by norm_num)]
        refine bxor_false_eq _ _ ?_
        rw [← hxor]
        exact h0
      · rw [bitTest_single x 1 (by norm_num), bitTest_single y 1 (by norm_num)]
        refine bxor_false_eq _ _ ?_
        rw [← hxor]
        exact h1
      · rw [bitTest_single x 2 (by norm_num), bitTest_single y 2 (by norm_num)]
        refine bxor_false_eq _ _ ?_
        rw [← hxor]
        exact h2
      · rw [bitTest_single x 3 (by norm_num), bitTest_single y 3 (by norm_num)]
        refine bxor_false_eq _ _ ?_
        rw [← hxor]
        exact h3
      · rw [bitTest_single x 4 (by norm_num), bitTest_single y 4 (by norm_num)]
        refine bxor_false_eq _ _ ?_
        rw [← hxor]
        exact h4
  · -- first differing bit is bit 6
    rw [show (2 : Nat) = 2 ^ 1 from rfl, land_two_pow_bne] at h6
    rw [show (128 : Nat) = 2 ^ 7 from rfl, land_two_pow_bne,
      Bool.not_eq_true] at h0
    rw [show (64 : Nat) = 2 ^ 6 from rfl, land_two_pow_bne,
      Bool.not_eq_true] at h1
    rw [show (32 : Nat) = 2 ^ 5 from rfl, land_two_pow_bne,
      Bool.not_eq_true] at h2
    rw [show (16 : Nat) = 2 ^ 4 from rfl, land_two_pow_bne,
      Bool.not_eq_true] at h3
    rw [show (8 : Nat) = 2 ^ 3 from rfl, land_two_pow_bne,
      Bool.not_eq_true] at h4
    rw [show (4 : Nat) = 2 ^ 2 from rfl, land_two_pow_bne,
      Bool.not_eq_true] at h5
    refine ⟨by norm_num, ?_, ?_⟩
    · rw [bitTest_single x 6 (by norm_num), bitTest_single y 6 (by norm_num)]
      intro he
      rw [hxor, he, Bool.xor_self] at h6
      exact Bool.false_ne_true h6
    · intro j hj
      interval_cases j
      · rw [bitTest_single x 0 (by norm_num), bitTest_single y 0 (by norm_num)]
        refine bxor_false_eq _ _ ?_
        rw [← hxor]
        exact h0
      · rw [bitTest_single x 1 (by norm_num), bitTest_single y 1 (by norm_num)]
        refine bxor_false_eq _ _ ?_
        rw [← hxor]
        exact h1
      · rw [bitTest_single x 2 (by norm_num), bitTest_single y 2 (by norm_num)]
        refine bxor_false_eq _ _ ?_
        rw [← hxor]
        exact h2
      · rw [bitTest_single x 3 (by norm_num), bitTest_single y 3 (by norm_num)]
        refine bxor_false_eq _ _ ?_
        rw [← hxor]
        exact h3
      · rw [bitTest_single x 4 (by norm_num), bitTest_single y 4 (by norm_num)]
        refine bxor_false_eq _ _ ?_
        rw [← hxor]
        exact h4
      · rw [bitTest_single x 5 (by norm_num), bitTest_single y 5 (by norm_num)]
        refine bxor_false_eq _ _ ?_
        rw [← hxor]
        exact h5
  · -- bytes differ only in bit 7
    rw [show (128 : Nat) = 2 ^ 7 from rfl, land_two_pow_bne,
      Bool.not_eq_true] at h0
    rw [show (64 : Nat) = 2 ^ 6 from rfl, land_two_pow_bne,
      Bool.not_eq_true] at h1
    rw [show (32 : Nat) = 2 ^ 5 from rfl, land_two_pow_bne,
      Bool.not_eq_true] at h2
    rw [show (16 : Nat) = 2 ^ 4 from rfl, land_two_pow_bne,
      Bool.not_eq_true] at h3
    rw [show (8 : Nat) = 2 ^ 3 from rfl, land_two_pow_bne,
      Bool.not_eq_true] at h4
    rw [show (4 : Nat) = 2 ^ 2 from rfl, land_two_pow_bne,
      Bool.not_eq_true] at h5
    rw [show (2 : Nat) = 2 ^ 1 from rfl, land_two_pow_bne,
      Bool.not_eq_true] at h6
    have hbit0 : (Nat.xor x y).testBit 0 = true := by
      cases hb : (Nat.xor x y).testBit 0 with
      | true => rfl
      | false =>
        exfalso
        apply hrb0
        refine Nat.eq_of_testBit_eq (fun i => ?_)
        rw [Nat.zero_testBit]
        by_cases hi : i < 8
        · interval_cases i
          · exact hb
          · exact h6
          · exact h5
          · exact h4
          · exact h3
          · exact h2
          · exact h1
          · exact h0
        · exact Nat.testBit_lt_two_pow (Nat.lt_of_lt_of_le hrblt
            (le_two_pow_of_ge8 i (by omega)))
    refine ⟨by norm_num, ?_, ?_⟩
    · rw [bitTest_single x 7 (by norm_num), bitTest_single y 7 (by norm_num)]
      intro he
      rw [hxor, he, Bool.xor_self] at hbit0
      exact Bool.false_ne_true hbit0
    · intro j hj
      interval_cases j
      · rw [bitTest_single x 0 (by norm_num), bitTest_single y 0 (by norm_num)]
        refine bxor_false_eq _ _ ?_
        rw [← hxor]
        exact h0
      · rw [bitTest_single x 1 (by norm_num), bitTest_single y 1 (by norm_num)]
        refine bxor_false_eq _ _ ?_
        rw [← hxor]
        exact h1
      · rw [bitTest_single x 2 (by norm_num), bitTest_single y 2 (by norm_num)]
        refine bxor_false_eq _ _ ?_
        rw [← hxor]
        exact h2
      · rw [bitTest_single x 3 (by norm_num), bitTest_single y 3 (by norm_num)]
        refine bxor_false_eq _ _ ?_
        rw [← hxor]
        exact h3
      · rw [bitTest_single x 4 (by norm_num), bitTest_single y 4 (by norm_num)]
        refine bxor_false_eq _ _ ?_
        rw [← hxor]
        exact h4
      · rw [bitTest_single x 5 (by norm_num), bitTest_single y 5 (by norm_num)]
        refine bxor_false_eq _ _ ?_
        rw [← hxor]
        exact h5
      · rw [bitTest_single x 6 (by norm_num), bitTest_single y 6 (by norm_num)]
        refine bxor_false_eq _ _ ?_
        rw [← hxor]
        exact h6

theorem byte_eq_of_bits (x y : Nat) (hx : x < 256) (hy : y < 256)
    (h : ∀ k < 8, bitTest [x] k = bitTest [y] k) : x = y := by
  refine Nat.eq_of_testBit_eq (fun i => ?_)
  by_cases hi : i < 8
  · have hk := h (7 - i) (by omega)
    rw [bitTest_single x (7 - i) (by omega),
      bitTest_single y (7 - i) (by omega),
      show 7 - (7 - i) = i from by omega] at hk
    exact hk
  · rw [Nat.testBit_lt_two_pow (Nat.lt_of_lt_of_le hx
        (le_two_pow_of_ge8 i (by omega))),
      Nat.testBit_lt_two_pow (Nat.lt_of_lt_of_le hy
        (le_two_pow_of_ge8 i (by omega)))]

theorem mask_testBit (j : Nat) (hj0 : j ≠ 0) (hj : j < 8) :
    ∀ i, (256 - 2 ^ (8 - j) : Nat).testBit i =
      (decide (8 - j ≤ i) && decide (i < 8)) := by
  intro i
  by_cases hi : i < 8
  · interval_cases j <;> interval_cases i <;> decide
  · rw [Nat.testBit_lt_two_pow (x := 256 - 2 ^ (8 - j))
      (Nat.lt_of_lt_of_le (Nat.sub_lt (by norm_num) (Nat.two_pow_pos (8 - j)))
        (le_two_pow_of_ge8 i (by omega)))]
    simp [hi]

theorem land_mask_eq_iff (x y j : Nat) (hx : x < 256) (hy : y < 256)
    (hj0 : j ≠ 0) (hj : j < 8) :
    Nat.land x (256 - 2 ^ (8 - j)) = Nat.land y (256 - 2 ^ (8 - j)) ↔
    ∀ k < j, bitTest [x] k = bitTest [y] k := by
  constructor
  · intro h k hk
    have hb := congrArg (fun z => z.testBit (7 - k)) h
    simp only at hb
    rw [show Nat.land x (256 - 2 ^ (8 - j)) =
          x &&& (256 - 2 ^ (8 - j)) from rfl,
      show Nat.land y (256 - 2 ^ (8 - j)) =
          y &&& (256 - 2 ^ (8 - j)) from rfl,
      Nat.testBit_land, Nat.testBit_land,
      mask_testBit j hj0 hj (7 - k)] at hb
    have hcond : (decide (8 - j ≤ 7 - k) && decide (7 - k < 8)) = true := by
      simp
      omega
    rw [hcond, Bool.and_true, Bool.and_true] at hb
    rw [bitTest_single x k (by omega), bitTest_single y k (by omega)]
    exact hb
  · intro h
    refine Nat.eq_of_testBit_eq (fun i => ?_)
    rw [show Nat.land x (256 - 2 ^ (8 - j)) =
          x &&& (256 - 2 ^ (8 - j)) from rfl,
      show Nat.land y (256 - 2 ^ (8 - j)) =
          y &&& (256 - 2 ^ (8 - j)) from rfl,
      Nat.testBit_land, Nat.testBit_land, mask_testBit j hj0 hj i]
    by_cases hc : 8 - j ≤ i ∧ i < 8
    · have hk := h (7 - i) (by omega)
      rw [bitTest_single x (7 - i) (by omega),
        bitTest_single y (7 - i) (by omega),
        show 7 - (7 - i) = i from by omega] at hk
      rw [hk]
    · have : (decide (8 - j ≤ i) && decide (i < 8)) = false := by
        simp only [Bool.and_eq_false_iff, decide_eq_false_iff_not]
        omega
      rw [this, Bool.and_false, Bool.and_false]


theorem differByteLoop_ge (a d : List Nat) (cb : Nat)
    (ha : a.all (fun t => decide (t < 256)) = true)
    (hd : d.all (fun t => decide (t < 256)) = true) :
    ∀ n i d0, cb - i * 8 ≤ n →
      (∀ j, i * 8 ≤ j → j < cb → bitTest a j = bitTest d j) →
      (cb ≤ i * 8 ∧ differByteLoop a d cb i d0 = d0) ∨
        cb ≤ differByteLoop a d cb i d0 := by
  intro n
  induction n with
  | zero =>
    intro i d0 hn hagree
    unfold differByteLoop
    rw [dif_neg (by omega)]
    exact Or.inl ⟨by omega, rfl⟩
  | succ n ih =>
    intro i d0 hn hagree
    unfold differByteLoop
    by_cases hlt : i * 8 < cb
    · rw [dif_pos hlt]
      by_cases hrb : Nat.xor (byteAt a i) (byteAt d i) = 0
      · rw [if_pos hrb]
        rcases ih (i + 1) ((i + 1) * 8) (by omega)
            (fun j h1 h2 => hagree j (by omega) h2) with ⟨h1, h2⟩ | h
        · right
          rw [h2]
          omega
        · exact Or.inr h
      · rw [if_neg hrb]
        right
        have hxy : byteAt a i ≠ byteAt d i := fun he =>
          hrb (by rw [he]; exact Nat.xor_self _)
        obtain ⟨hk8, hkne, hkagree⟩ := firstDiff_spec (byteAt a i)
          (byteAt d i) (byteAt_lt a ha i) (byteAt_lt d hd i) hxy
        by_contra hcon
        push_neg at hcon
        apply hkne
        have hag := hagree
          (i * 8 + firstDiffInByte (Nat.xor (byteAt a i) (byteAt d i)))
          (by omega) (by omega)
        rw [bitTest_byte a, bitTest_byte d,
          show (i * 8 + firstDiffInByte
              (Nat.xor (byteAt a i) (byteAt d i))) / 8 = i from by omega,
          show (i * 8 + firstDiffInByte
              (Nat.xor (byteAt a i) (byteAt d i))) % 8 =
            firstDiffInByte (Nat.xor (byteAt a i) (byteAt d i)) from
            by omega] at hag
        exact hag
    · rw [dif_neg hlt]
      exact Or.inl ⟨by omega, rfl⟩

theorem differByteLoop_agree (a d : List Nat) (cb : Nat)
    (ha : a.all (fun t => decide (t < 256)) = true)
    (hd : d.all (fun t => decide (t < 256)) = true) :
    ∀ n i d0, cb - i * 8 ≤ n →
      (∀ j, j < i * 8 → j < cb → bitTest a j = bitTest d j) →
      ∀ j, j < cb → j < differByteLoop a d cb i d0 →
        bitTest a j = bitTest d j := by
  intro n
  induction n with
  | zero =>
    intro i d0 hn hinv j hj _
    exact hinv j (by omega) hj
  | succ n ih =>
    intro i d0 hn hinv j hj hjr
    unfold differByteLoop at hjr
    by_cases hlt : i * 8 < cb
    · rw [dif_pos hlt] at hjr
      by_cases hrb : Nat.xor (byteAt a i) (byteAt d i) = 0
      · rw [if_pos hrb] at hjr
        have hbeq : byteAt a i = byteAt d i := Nat.xor_eq_zero.mp hrb
        refine ih (i + 1) ((i + 1) * 8) (by omega) ?_ j hj ?_
        · intro j2 hj2 hj2cb
          by_cases hlo : j2 < i * 8
          · exact hinv j2 hlo hj2cb
          · rw [bitTest_byte a, bitTest_byte d,
              show j2 / 8 = i from by omega, hbeq]
        · exact hjr
      · rw [if_neg hrb] at hjr
        have hxy : byteAt a i ≠ byteAt d i := fun he =>
          hrb (by rw [he]; exact Nat.xor_self _)
        obtain ⟨hk8, hkne, hkagree⟩ := firstDiff_spec (byteAt a i)
          (byteAt d i) (byteAt_lt a ha i) (byteAt_lt d hd i) hxy
        by_cases hlo : j < i * 8
        · exact hinv j hlo hj
        · have hkj := hkagree (j % 8) (by omega)
          rw [bitTest_byte a, bitTest_byte d, show j / 8 = i from by omega]
          exact hkj
    · rw [dif_neg hlt] at hjr
      exact hinv j (by omega) hj

/-- The differ-bit equals the searched mask length exactly when the two
addresses agree on the first `check_bit` bits. -/
theorem differBit_eq_iff (a d : List Nat) (cb : Nat)
    (ha : a.all (fun t => decide (t < 256)) = true)
    (hd : d.all (fun t => decide (t < 256)) = true) :
    differBit a d cb = cb ↔ bitsAgreeUpTo a d cb = true := by
  constructor
  · intro h
    have hge : cb ≤ differByteLoop a d cb 0 0 := by
      unfold differBit at h
      by_cases hgt : differByteLoop a d cb 0 0 > cb
      · omega
      · rw [if_neg hgt] at h
        omega
    unfold bitsAgreeUpTo
    rw [List.all_eq_true]
    intro m hm
    rw [List.mem_range] at hm
    have := differByteLoop_agree a d cb ha hd cb 0 0 (by omega)
      (fun j hj _ => by omega) m hm (by omega)
    simp [this]
  · intro h
    have hagree : ∀ j, 0 * 8 ≤ j → j < cb → bitTest a j = bitTest d j := by
      intro j _ hj
      unfold bitsAgreeUpTo at h
      rw [List.all_eq_true] at h
      have := h j (List.mem_range.mpr hj)
      simpa using this
    rcases differByteLoop_ge a d cb ha hd cb 0 0 (by omega) hagree with
      ⟨h1, h2⟩ | hge
    · unfold differBit
      rw [h2]
      have : cb = 0 := by omega
      simp [this]
    · unfold differBit
      by_cases hgt : differByteLoop a d cb 0 0 > cb
      · rw [if_pos hgt]
      · rw [if_neg hgt]
        omega

theorem bitsAgree_iff (a d : List Nat) (n : Nat) :
    bitsAgreeUpTo a d n = true ↔ ∀ j < n, bitTest a j = bitTest d j := by
  unfold bitsAgreeUpTo
  rw [List.all_eq_true]
  constructor
  · intro h j hj
    have := h j (List.mem_range.mpr hj)
    simpa using this
  · intro h j hj
    rw [List.mem_range] at hj
    simp [h j hj]

/-- comp_with_mask is reflexive. -/
theorem comp_with_mask_refl (a : List Nat) (m : Nat) :
    comp_with_mask a a m = true := by
  unfold comp_with_mask
  simp

/-- Agreement on the first `m` bits gives a successful masked compare. -/
theorem comp_with_mask_of_agree (a d : List Nat) (m : Nat)
    (ha : a.all (fun t => decide (t < 256)) = true)
    (hd : d.all (fun t => decide (t < 256)) = true)
    (h : bitsAgreeUpTo a d m = true) : comp_with_mask a d m = true := by
  rw [bitsAgree_iff] at h
  unfold comp_with_mask
  have hall : (List.range (m / 8)).all
      (fun i => byteAt a i == byteAt d i) = true := by
    rw [List.all_eq_true]
    intro i hi
    rw [List.mem_range] at hi
    have hbyte : byteAt a i = byteAt d i := by
      refine byte_eq_of_bits _ _ (byteAt_lt a ha i) (byteAt_lt d hd i) ?_
      intro k hk
      have hj := h (i * 8 + k) (by omega)
      rw [bitTest_byte a, bitTest_byte d,
        show (i * 8 + k) / 8 = i from by omega,
        show (i * 8 + k) % 8 = k from by omega] at hj
      exact hj
    simp [hbyte]
  rw [if_pos hall]
  by_cases hm0 : m % 8 = 0
  · simp [hm0]
  · have hland : Nat.land (byteAt a (m / 8)) (256 - 2 ^ (8 - m % 8)) =
        Nat.land (byteAt d (m / 8)) (256 - 2 ^ (8 - m % 8)) := by
      rw [land_mask_eq_iff _ _ (m % 8) (byteAt_lt a ha (m / 8))
        (byteAt_lt d hd (m / 8)) hm0 (by omega)]
      intro k hk
      have hj := h (m / 8 * 8 + k) (by omega)
      rw [bitTest_byte a, bitTest_byte d,
        show (m / 8 * 8 + k) / 8 = m / 8 from by omega,
        show (m / 8 * 8 + k) % 8 = k from by omega] at hj
      exact hj
    simp [hland]

/-- A successful masked compare gives agreement on the first `m` bits. -/
theorem agree_of_comp_with_mask (a d : List Nat) (m : Nat)
    (ha : a.all (fun t => decide (t < 256)) = true)
    (hd : d.all (fun t => decide (t < 256)) = true)
    (h : comp_with_mask a d m = true) : bitsAgreeUpTo a d m = true := by
  unfold comp_with_mask at h
  by_cases hall : (List.range (m / 8)).all
      (fun i => byteAt a i == byteAt d i) = true
  · rw [if_pos hall] at h
    rw [List.all_eq_true] at hall
    rw [bitsAgree_iff]
    intro j hj
    by_cases hjb : j / 8 < m / 8
    · have hbyte := hall (j / 8) (List.mem_range.mpr hjb)
      simp only [beq_iff_eq] at hbyte
      rw [bitTest_byte a, bitTest_byte d, hbyte]
    · have hjd : j / 8 = m / 8 := by omega
      have hjm : j % 8 < m % 8 := by omega
      have hm0 : ¬ m % 8 = 0 := by omega
      rw [Bool.or_eq_true, decide_eq_true_eq] at h
      rcases h with h | h
      · omega
      · rw [beq_iff_eq] at h
        have := (land_mask_eq_iff _ _ (m % 8) (byteAt_lt a ha (m / 8))
          (byteAt_lt d hd (m / 8)) hm0 (by omega)).mp h (j % 8) hjm
        rw [bitTest_byte a, bitTest_byte d, hjd]
        exact this
  · rw [if_neg hall] at h
    exact absurd h Bool.false_ne_true

theorem ctxPath_cons (f : PCtx) (rest : List PCtx) :
    ctxPath (f :: rest) = ctxPath rest ++ [f.dir] := by
  simp [ctxPath]

theorem nodeAt_append (ρ1 : List PDir) :
    ∀ (t : PTree) (ρ2 : List PDir),
      nodeAt t (ρ1 ++ ρ2) = (nodeAt t ρ1).bind (fun s => nodeAt s ρ2) := by
  induction ρ1 with
  | nil =>
    intro t ρ2
    cases t with
    | empty => rfl
    | node b px u l r => rfl
  | cons d ρ ih =>
    intro t ρ2
    cases t with
    | empty => rfl
    | node b px u l r =>
      cases d with
      | left => exact ih l ρ2
      | right => exact ih r ρ2

theorem plug_node (ctx : List PCtx) :
    ∀ (b : Nat) (px : Option PatPfx) (u : Nat) (l r : PTree),
      ∃ b2 px2 u2 l2 r2,
        plug (PTree.node b px u l r) ctx = PTree.node b2 px2 u2 l2 r2 := by
  induction ctx with
  | nil => intro b px u l r; exact ⟨b, px, u, l, r, rfl⟩
  | cons f rest ih =>
    intro b px u l r
    cases hfd : f.dir with
    | left =>
      have : plugFrame (PTree.node b px u l r) f =
          PTree.node f.bit f.pfx f.user (PTree.node b px u l r)
            f.sibling := by
        unfold plugFrame
        rw [hfd]
      rw [show plug (PTree.node b px u l r) (f :: rest) =
          plug (plugFrame (PTree.node b px u l r) f) rest from rfl, this]
      exact ih _ _ _ _ _
    | right =>
      have : plugFrame (PTree.node b px u l r) f =
          PTree.node f.bit f.pfx f.user f.sibling
            (PTree.node b px u l r) := by
        unfold plugFrame
        rw [hfd]
      rw [show plug (PTree.node b px u l r) (f :: rest) =
          plug (plugFrame (PTree.node b px u l r) f) rest from rfl, this]
      exact ih _ _ _ _ _

theorem nodeAt_plug (ctx : List PCtx) :
    ∀ (b : Nat) (px : Option PatPfx) (u : Nat) (l r : PTree),
      nodeAt (plug (PTree.node b px u l r) ctx) (ctxPath ctx) =
        some (PTree.node b px u l r) := by
  induction ctx with
  | nil => intro b px u l r; rfl
  | cons f rest ih =>
    intro b px u l r
    rw [ctxPath_cons]
    cases hfd : f.dir with
    | left =>
      have hpf : plugFrame (PTree.node b px u l r) f =
          PTree.node f.bit f.pfx f.user (PTree.node b px u l r)
            f.sibling := by
        unfold plugFrame
        rw [hfd]
      rw [show plug (PTree.node b px u l r) (f :: rest) =
          plug (plugFrame (PTree.node b px u l r) f) rest from rfl, hpf,
        nodeAt_append, ih]
      rfl
    | right =>
      have hpf : plugFrame (PTree.node b px u l r) f =
          PTree.node f.bit f.pfx f.user f.sibling
            (PTree.node b px u l r) := by
        unfold plugFrame
        rw [hfd]
      rw [show plug (PTree.node b px u l r) (f :: rest) =
          plug (plugFrame (PTree.node b px u l r) f) rest from rfl, hpf,
        nodeAt_append, ih]
      rfl

theorem wfTree_node_iff (ver : AddrVersion) (b : Nat) (px : Option PatPfx)
    (u : Nat) (l r : PTree) :
    wfTree ver (PTree.node b px u l r) = true ↔
      b ≤ BGPSTREAM_PATRICIA_MAXBITS ∧
      (∀ q, px = some q → q.maskLen = b ∧ q.version = ver ∧
        q.addr.all (fun x => decide (x < 256)) = true ∧
        allPfxNodes (fun q2 => bitsAgreeUpTo q.addr q2.addr b) l = true ∧
        allPfxNodes (fun q2 => bitsAgreeUpTo q.addr q2.addr b) r = true) ∧
      (px = none → isEmptyT l = false ∧ isEmptyT r = false) ∧
      rootBitGt b l = true ∧ rootBitGt b r = true ∧
      allPfxNodes (fun q2 => !bitTest q2.addr b) l = true ∧
      allPfxNodes (fun q2 => bitTest q2.addr b) r = true ∧
      wfTree ver l = true ∧ wfTree ver r = true := by
  cases px with
  | none =>
    simp [wfTree, Bool.and_eq_true, Bool.not_eq_true', and_assoc]
  | some q =>
    simp [wfTree, Bool.and_eq_true, decide_eq_true_eq, and_assoc]

theorem allPfxNodes_node_iff (f : PatPfx → Bool) (b : Nat)
    (px : Option PatPfx) (u : Nat) (l r : PTree) :
    allPfxNodes f (PTree.node b px u l r) = true ↔
      (∀ q, px = some q → f q = true) ∧
      allPfxNodes f l = true ∧ allPfxNodes f r = true := by
  cases px with
  | none => simp [allPfxNodes, Bool.and_eq_true, and_assoc]
  | some q => simp [allPfxNodes, Bool.and_eq_true, and_assoc]

theorem allPfx_nodeAt (f : PatPfx → Bool) :
    ∀ (ρ : List PDir) (t : PTree) (b2 : Nat) (q : PatPfx) (u2 : Nat)
      (l2 r2 : PTree),
      allPfxNodes f t = true →
      nodeAt t ρ = some (PTree.node b2 (some q) u2 l2 r2) →
      f q = true := by
  intro ρ
  induction ρ with
  | nil =>
    intro t b2 q u2 l2 r2 hall hat
    cases t with
    | empty => simp [nodeAt] at hat
    | node b px u l r =>
      simp only [nodeAt, Option.some.injEq] at hat
      obtain ⟨h1, h2, h3, h4, h5⟩ := PTree.node.inj hat
      exact ((allPfxNodes_node_iff f b px u l r).mp hall).1 q h2
  | cons d ρ2 ih =>
    intro t b2 q u2 l2 r2 hall hat
    cases t with
    | empty => simp [nodeAt] at hat
    | node b px u l r =>
      obtain ⟨-, hl, hr⟩ := (allPfxNodes_node_iff f b px u l r).mp hall
      cases d with
      | left => exact ih l b2 q u2 l2 r2 hl hat
      | right => exact ih r b2 q u2 l2 r2 hr hat

theorem wfTree_nodeAt (ver : AddrVersion) :
    ∀ (ρ : List PDir) (t s : PTree),
      wfTree ver t = true → nodeAt t ρ = some s → wfTree ver s = true := by
  intro ρ
  induction ρ with
  | nil =>
    intro t s hwf hat
    cases t with
    | empty => simp [nodeAt] at hat
    | node b px u l r =>
      simp only [nodeAt, Option.some.injEq] at hat
      rw [← hat]
      exact hwf
  | cons d ρ2 ih =>
    intro t s hwf hat
    cases t with
    | empty => simp [nodeAt] at hat
    | node b px u l r =>
      obtain ⟨-, -, -, -, -, -, -, hwl, hwr⟩ :=
        (wfTree_node_iff ver b px u l r).mp hwf
      cases d with
      | left => exact ih l s hwl hat
      | right => exact ih r s hwr hat

theorem getHead_setHead (pt : PatTree) (v : AddrVersion) (t : PTree) :
    getHead (setHead pt v t) v = t := by
  cases v <;> rfl

theorem walkUp_eq (differ : Nat) :
    ∀ (ctx : List PCtx) (t : PTree),
      walkUp differ t ctx =
        (plug t (ctx.takeWhile (fun f => decide (differ ≤ f.bit))),
         ctx.dropWhile (fun f => decide (differ ≤ f.bit))) := by
  intro ctx
  induction ctx with
  | nil => intro t; rfl
  | cons f rest ih =>
    intro t
    unfold walkUp
    by_cases h : f.bit ≥ differ
    · rw [if_pos h, ih (plugFrame t f),
        List.takeWhile_cons_of_pos (by simp [h]),
        List.dropWhile_cons_of_pos (by simp [h])]
      rfl
    · rw [if_neg h,
        List.takeWhile_cons_of_neg (by simp; omega),
        List.dropWhile_cons_of_neg (by simp; omega)]
      rfl

theorem walkUp_nopop (differ : Nat) (t : PTree) (ctx : List PCtx)
    (h : ∀ f ∈ ctx, f.bit < differ) :
    walkUp differ t ctx = (t, ctx) := by
  cases ctx with
  | nil => rfl
  | cons f rest =>
    unfold walkUp
    rw [if_neg (by have := h f (List.mem_cons_self f rest); omega)]

theorem dropWhile_bits_lt (differ : Nat) :
    ∀ (ctx : List PCtx),
      List.Pairwise (fun f g => g.bit < f.bit) ctx →
      ∀ f ∈ ctx.dropWhile (fun f => decide (differ ≤ f.bit)),
        f.bit < differ := by
  intro ctx
  induction ctx with
  | nil => intro _ f hf; simp at hf
  | cons a rest ih =>
    intro hp f hf
    by_cases ha : differ ≤ a.bit
    · rw [List.dropWhile_cons_of_pos (by simp [ha])] at hf
      exact ih (List.pairwise_cons.mp hp).2 f hf
    · rw [List.dropWhile_cons_of_neg (by simp; omega)] at hf
      rcases List.mem_cons.mp hf with rfl | hf2
      · omega
      · have := (List.pairwise_cons.mp hp).1 f hf2
        omega

theorem searchNav_plugFrame (addr : List Nat) (bitlen : Nat) (f : PCtx)
    (t : PTree) (path : List PDir)
    (hb : f.bit < bitlen) (hbl : bitlen ≤ 128)
    (hdir : f.dir = PDir.right ↔
      (f.bit < 128 ∧ bitTest addr f.bit = true)) :
    searchNav addr bitlen (plugFrame t f) path =
      searchNav addr bitlen t (path ++ [f.dir]) := by
  cases hfd : f.dir with
  | left =>
    have hbt : bitTest addr f.bit = false := by
      cases hbt : bitTest addr f.bit with
      | false => rfl
      | true =>
        have := hdir.mpr ⟨by omega, hbt⟩
        rw [hfd] at this
        exact absurd this (by simp)
    unfold plugFrame
    rw [hfd]
    simp [searchNav, hb, hbt]
  | right =>
    have hbt : bitTest addr f.bit = true := (hdir.mp hfd).2
    unfold plugFrame
    rw [hfd]
    simp [searchNav, hb, hbt]

theorem searchNav_plug (addr : List Nat) (bitlen : Nat)
    (hbl : bitlen ≤ 128) :
    ∀ (ctx : List PCtx) (t : PTree) (path : List PDir),
      (∀ f ∈ ctx, f.bit < bitlen ∧
        (f.dir = PDir.right ↔
          (f.bit < 128 ∧ bitTest addr f.bit = true))) →
      searchNav addr bitlen (plug t ctx) path =
        searchNav addr bitlen t (path ++ ctxPath ctx) := by
  intro ctx
  induction ctx with
  | nil =>
    intro t path _
    simp [plug, ctxPath]
  | cons f rest ih =>
    intro t path h
    rw [show plug t (f :: rest) = plug (plugFrame t f) rest from rfl,
      ih (plugFrame t f) path (fun g hg => h g (List.mem_cons_of_mem _ hg))]
    obtain ⟨hb, hdir⟩ := h f (List.mem_cons_self f rest)
    rw [searchNav_plugFrame addr bitlen f t (path ++ ctxPath rest) hb hbl
      hdir, ctxPath_cons, ← List.append_assoc]

theorem navigate_node_stop (addr : List Nat) (bitlen b : Nat)
    (px : Option PatPfx) (u : Nat) (l r : PTree) (ctx : List PCtx)
    (h : ¬(b < bitlen ∨ px = none)) :
    navigate addr bitlen (PTree.node b px u l r) ctx =
      (PTree.node b px u l r, ctx) := by
  unfold navigate
  rw [if_neg h]

theorem navigate_node_right (addr : List Nat) (bitlen b : Nat)
    (px : Option PatPfx) (u : Nat) (l : PTree) (ctx : List PCtx)
    (b2 : Nat) (px2 : Option PatPfx) (u2 : Nat) (l2 r2 : PTree)
    (h1 : b < bitlen ∨ px = none)
    (h2 : b < BGPSTREAM_PATRICIA_MAXBITS ∧ bitTest addr b = true) :
    navigate addr bitlen
        (PTree.node b px u l (PTree.node b2 px2 u2 l2 r2)) ctx =
      navigate addr bitlen (PTree.node b2 px2 u2 l2 r2)
        (⟨b, px, u, PDir.right, l⟩ :: ctx) := by
  conv_lhs => unfold navigate
  rw [if_pos h1, if_pos h2]

theorem navigate_node_right_empty (addr : List Nat) (bitlen b : Nat)
    (px : Option PatPfx) (u : Nat) (l : PTree) (ctx : List PCtx)
    (h1 : b < bitlen ∨ px = none)
    (h2 : b < BGPSTREAM_PATRICIA_MAXBITS ∧ bitTest addr b = true) :
    navigate addr bitlen (PTree.node b px u l PTree.empty) ctx =
      (PTree.node b px u l PTree.empty, ctx) := by
  unfold navigate
  rw [if_pos h1, if_pos h2]

theorem navigate_node_left (addr : List Nat) (bitlen b : Nat)
    (px : Option PatPfx) (u : Nat) (r : PTree) (ctx : List PCtx)
    (b2 : Nat) (px2 : Option PatPfx) (u2 : Nat) (l2 r2 : PTree)
    (h1 : b < bitlen ∨ px = none)
    (h2 : ¬(b < BGPSTREAM_PATRICIA_MAXBITS ∧ bitTest addr b = true)) :
    navigate addr bitlen
        (PTree.node b px u (PTree.node b2 px2 u2 l2 r2) r) ctx =
      navigate addr bitlen (PTree.node b2 px2 u2 l2 r2)
        (⟨b, px, u, PDir.left, r⟩ :: ctx) := by
  conv_lhs => unfold navigate
  rw [if_pos h1, if_neg h2]

theorem navigate_node_left_empty (addr : List Nat) (bitlen b : Nat)
    (px : Option PatPfx) (u : Nat) (r : PTree) (ctx : List PCtx)
    (h1 : b < bitlen ∨ px = none)
    (h2 : ¬(b < BGPSTREAM_PATRICIA_MAXBITS ∧ bitTest addr b = true)) :
    navigate addr bitlen (PTree.node b px u PTree.empty r) ctx =
      (PTree.node b px u PTree.empty r, ctx) := by
  unfold navigate
  rw [if_pos h1, if_neg h2]

/-- The descent loop of insert: it stops at a node of the tree, preserves
the zipper reconstruction, and pushes only frames whose direction matches
the searched address. -/
theorem navigate_spec (addr : List Nat) (bitlen : Nat)
    (ver : AddrVersion) :
    ∀ (t : PTree) (ctx : List PCtx),
      wfTree ver t = true → t ≠ PTree.empty →
      (∀ f ∈ ctx, f.dir = PDir.right ↔
        (f.bit < 128 ∧ bitTest addr f.bit = true)) →
      List.Pairwise (fun f g => g.bit < f.bit) ctx →
      (∀ f ∈ ctx, rootBitGt f.bit t = true) →
      (navigate addr bitlen t ctx).1 ≠ PTree.empty ∧
      wfTree ver (navigate addr bitlen t ctx).1 = true ∧
      plug (navigate addr bitlen t ctx).1 (navigate addr bitlen t ctx).2 =
        plug t ctx ∧
      (∀ f ∈ (navigate addr bitlen t ctx).2, f.dir = PDir.right ↔
        (f.bit < 128 ∧ bitTest addr f.bit = true)) ∧
      List.Pairwise (fun f g => g.bit < f.bit)
        (navigate addr bitlen t ctx).2 ∧
      (∀ f ∈ (navigate addr bitlen t ctx).2,
        rootBitGt f.bit (navigate addr bitlen t ctx).1 = true) ∧
      (∀ b2 px2 u2 l2 r2,
        (navigate addr bitlen t ctx).1 = PTree.node b2 px2 u2 l2 r2 →
        px2 ≠ none) := by
  intro t
  induction t with
  | empty => intro ctx _ hne; exact absurd rfl hne
  | node b px u l r ihl ihr =>
    intro ctx hwf _ hctxd hctxs hctxl
    obtain ⟨hb128, hpxs, hpxn, hrgl, hrgr, hdl, hdr, hwl, hwr⟩ :=
      (wfTree_node_iff ver b px u l r).mp hwf
    by_cases hgo : b < bitlen ∨ px = none
    · by_cases hdir : b < BGPSTREAM_PATRICIA_MAXBITS ∧
          bitTest addr b = true
      · cases r with
        | empty =>
          rw [navigate_node_right_empty addr bitlen b px u l ctx hgo hdir]
          refine ⟨by simp, hwf, rfl, hctxd, hctxs, hctxl, ?_⟩
          intro b2 px2 u2 l2 r2 he hn
          injection he with e1 e2 e3 e4 e5
          have := (hpxn (e2.trans hn)).2
          simp [isEmptyT] at this
        | node b2 px2 u2 l2 r2 =>
          rw [navigate_node_right addr bitlen b px u l ctx b2 px2 u2 l2 r2
            hgo hdir]
          have hb2 : b < b2 := by
            have := hrgr
            unfold rootBitGt at this
            simpa using this
          refine ihr (⟨b, px, u, PDir.right, l⟩ :: ctx) hwr (by simp) ?_ ?_
            ?_
          · intro f hf
            rcases List.mem_cons.mp hf with rfl | hf2
            · exact ⟨fun _ => ⟨hdir.1, hdir.2⟩, fun _ => rfl⟩
            · exact hctxd f hf2
          · rw [List.pairwise_cons]
            refine ⟨?_, hctxs⟩
            intro g hg
            have := hctxl g hg
            unfold rootBitGt at this
            simpa using this
          · intro f hf
            unfold rootBitGt
            rcases List.mem_cons.mp hf with rfl | hf2
            · simpa using hb2
            · have := hctxl f hf2
              unfold rootBitGt at this
              simp at this
              simp
              omega
      · cases l with
        | empty =>
          rw [navigate_node_left_empty addr bitlen b px u r ctx hgo hdir]
          refine ⟨by simp, hwf, rfl, hctxd, hctxs, hctxl, ?_⟩
          intro b2 px2 u2 l2 r2 he hn
          injection he with e1 e2 e3 e4 e5
          have := (hpxn (e2.trans hn)).1
          simp [isEmptyT] at this
        | node b2 px2 u2 l2 r2 =>
          rw [navigate_node_left addr bitlen b px u r ctx b2 px2 u2 l2 r2
            hgo hdir]
          have hb2 : b < b2 := by
            have := hrgl
            unfold rootBitGt at this
            simpa using this
          refine ihl (⟨b, px, u, PDir.left, r⟩ :: ctx) hwl (by simp) ?_ ?_
            ?_
          · intro f hf
            rcases List.mem_cons.mp hf with rfl | hf2
            · constructor
              · intro h
                exact absurd h (by simp)
              · intro h
                exact absurd (And.intro h.1 h.2) hdir
            · exact hctxd f hf2
          · rw [List.pairwise_cons]
            refine ⟨?_, hctxs⟩
            intro g hg
            have := hctxl g hg
            unfold rootBitGt at this
            simpa using this
          · intro f hf
            unfold rootBitGt
            rcases List.mem_cons.mp hf with rfl | hf2
            · simpa using hb2
            · have := hctxl f hf2
              unfold rootBitGt at this
              simp at this
              simp
              omega
    · rw [navigate_node_stop addr bitlen b px u l r ctx hgo]
      refine ⟨by simp, hwf, rfl, hctxd, hctxs, hctxl, ?_⟩
      intro b2 px2 u2 l2 r2 he hn
      apply hgo
      right
      injection he with e1 e2 e3 e4 e5
      rw [e2, hn]

theorem plug_append (l1 l2 : List PCtx) :
    ∀ t : PTree, plug t (l1 ++ l2) = plug (plug t l1) l2 := by
  induction l1 with
  | nil => intro t; rfl
  | cons f rest ih => intro t; exact ih (plugFrame t f)

theorem ctxPath_append (l1 l2 : List PCtx) :
    ctxPath (l1 ++ l2) = ctxPath l2 ++ ctxPath l1 := by
  simp [ctxPath]

theorem differBit_le (a d : List Nat) (cb : Nat) :
    differBit a d cb ≤ cb := by
  simp only [differBit]
  split_ifs <;> omega

theorem wfPat_head (pt : PatTree) (ver : AddrVersion)
    (hw : wfPat pt = true) : wfTree ver (getHead pt ver) = true := by
  unfold wfPat at hw
  rw [Bool.and_eq_true] at hw
  cases ver with
  | v4 => exact hw.1
  | v6 => exact hw.2

theorem bitsAgree_symm (a d : List Nat) (n : Nat)
    (h : bitsAgreeUpTo a d n = true) : bitsAgreeUpTo d a n = true := by
  rw [bitsAgree_iff] at h ⊢
  intro j hj
  exact (h j hj).symm

theorem bitsAgree_trans (a d e : List Nat) (n : Nat)
    (h1 : bitsAgreeUpTo a d n = true) (h2 : bitsAgreeUpTo d e n = true) :
    bitsAgreeUpTo a e n = true := by
  rw [bitsAgree_iff] at h1 h2 ⊢
  intro j hj
  exact (h1 j hj).trans (h2 j hj)

theorem bitsAgree_mono (a d : List Nat) (n m : Nat) (hm : m ≤ n)
    (h : bitsAgreeUpTo a d n = true) : bitsAgreeUpTo a d m = true := by
  rw [bitsAgree_iff] at h ⊢
  intro j hj
  exact h j (by omega)

theorem nodeAt_bit_lt (ver : AddrVersion) :
    ∀ (ρ : List PDir) (d : PDir) (b : Nat) (px : Option PatPfx) (u : Nat)
      (l r : PTree) (bt : Nat) (pxt : Option PatPfx) (ut : Nat)
      (lt2 rt : PTree),
      wfTree ver (PTree.node b px u l r) = true →
      nodeAt (PTree.node b px u l r) (d :: ρ) =
        some (PTree.node bt pxt ut lt2 rt) →
      b < bt := by
  intro ρ
  induction ρ with
  | nil =>
    intro d b px u l r bt pxt ut lt2 rt hwf hat
    obtain ⟨-, -, -, hrgl, hrgr, -, -, -, -⟩ :=
      (wfTree_node_iff ver b px u l r).mp hwf
    cases d with
    | left =>
      have hat2 : nodeAt l [] = some (PTree.node bt pxt ut lt2 rt) := hat
      cases l with
      | empty => simp [nodeAt] at hat2
      | node bl pxl ul ll rl =>
        simp only [nodeAt, Option.some.injEq] at hat2
        injection hat2 with e1 e2 e3 e4 e5
        unfold rootBitGt at hrgl
        simp at hrgl
        omega
    | right =>
      have hat2 : nodeAt r [] = some (PTree.node bt pxt ut lt2 rt) := hat
      cases r with
      | empty => simp [nodeAt] at hat2
      | node br pxr ur lr rr =>
        simp only [nodeAt, Option.some.injEq] at hat2
        injection hat2 with e1 e2 e3 e4 e5
        unfold rootBitGt at hrgr
        simp at hrgr
        omega
  | cons d2 ρ2 ih =>
    intro d b px u l r bt pxt ut lt2 rt hwf hat
    obtain ⟨-, -, -, hrgl, hrgr, -, -, hwl, hwr⟩ :=
      (wfTree_node_iff ver b px u l r).mp hwf
    cases d with
    | left =>
      have hat2 : nodeAt l (d2 :: ρ2) =
          some (PTree.node bt pxt ut lt2 rt) := hat
      cases l with
      | empty => simp [nodeAt] at hat2
      | node bl pxl ul ll rl =>
        have hlt := ih d2 bl pxl ul ll rl bt pxt ut lt2 rt hwl hat2
        unfold rootBitGt at hrgl
        simp at hrgl
        omega
    | right =>
      have hat2 : nodeAt r (d2 :: ρ2) =
          some (PTree.node bt pxt ut lt2 rt) := hat
      cases r with
      | empty => simp [nodeAt] at hat2
      | node br pxr ur lr rr =>
        have hlt := ih d2 br pxr ur lr rr bt pxt ut lt2 rt hwr hat2
        unfold rootBitGt at hrgr
        simp at hrgr
        omega

theorem searchNav_reach (addr : List Nat) (bitlen : Nat)
    (ver : AddrVersion) :
    ∀ (ρ : List PDir) (t : PTree) (path : List PDir) (q : PatPfx)
      (u2 : Nat) (l2 r2 : PTree),
      wfTree ver t = true →
      nodeAt t ρ = some (PTree.node bitlen (some q) u2 l2 r2) →
      bitsAgreeUpTo q.addr addr bitlen = true →
      searchNav addr bitlen t path =
        some (PTree.node bitlen (some q) u2 l2 r2, path ++ ρ) := by
  intro ρ
  induction ρ with
  | nil =>
    intro t path q u2 l2 r2 hwf hat hag
    cases t with
    | empty => simp [nodeAt] at hat
    | node b px u l r =>
      simp only [nodeAt, Option.some.injEq] at hat
      injection hat with e1 e2 e3 e4 e5
      subst e1
      subst e2
      subst e3
      subst e4
      subst e5
      simp [searchNav]
  | cons d ρ2 ih =>
    intro t path q u2 l2 r2 hwf hat hag
    cases t with
    | empty => simp [nodeAt] at hat
    | node b px u l r =>
      have hblt : b < bitlen :=
        nodeAt_bit_lt ver ρ2 d b px u l r bitlen (some q) u2 l2 r2 hwf hat
      obtain ⟨-, -, -, -, -, hdirl, hdirr, hwl, hwr⟩ :=
        (wfTree_node_iff ver b px u l r).mp hwf
      have hagr := (bitsAgree_iff q.addr addr bitlen).mp hag b hblt
      cases d with
      | left =>
        have hat2 : nodeAt l ρ2 =
            some (PTree.node bitlen (some q) u2 l2 r2) := hat
        have hqb : bitTest q.addr b = false := by
          have := allPfx_nodeAt (fun q2 => !bitTest q2.addr b) ρ2 l bitlen
            q u2 l2 r2 hdirl hat2
          simpa using this
        have hbt : bitTest addr b = false := by
          rw [← hagr]
          exact hqb
        rw [show searchNav addr bitlen (PTree.node b px u l r) path =
            searchNav addr bitlen l (path ++ [PDir.left]) from by
          simp [searchNav, hblt, hbt]]
        rw [ih l (path ++ [PDir.left]) q u2 l2 r2 hwl hat2 hag]
        simp
      | right =>
        have hat2 : nodeAt r ρ2 =
            some (PTree.node bitlen (some q) u2 l2 r2) := hat
        have hqb : bitTest q.addr b = true := by
          have := allPfx_nodeAt (fun q2 => bitTest q2.addr b) ρ2 r bitlen
            q u2 l2 r2 hdirr hat2
          simpa using this
        have hbt : bitTest addr b = true := by
          rw [← hagr]
          exact hqb
        rw [show searchNav addr bitlen (PTree.node b px u l r) path =
            searchNav addr bitlen r (path ++ [PDir.right]) from by
          simp [searchNav, hblt, hbt]]
        rw [ih r (path ++ [PDir.right]) q u2 l2 r2 hwr hat2 hag]
        simp

theorem navigate_reach (addr : List Nat) (bitlen : Nat)
    (ver : AddrVersion) (hbl : bitlen ≤ 128) :
    ∀ (ρ : List PDir) (t : PTree) (ctx : List PCtx) (q : PatPfx)
      (u2 : Nat) (l2 r2 : PTree),
      wfTree ver t = true →
      nodeAt t ρ = some (PTree.node bitlen (some q) u2 l2 r2) →
      bitsAgreeUpTo q.addr addr bitlen = true →
      ∃ ctx2,
        navigate addr bitlen t ctx =
          (PTree.node bitlen (some q) u2 l2 r2, ctx2) ∧
        ctxPath ctx2 = ctxPath ctx ++ ρ ∧
        (∀ f ∈ ctx2, f ∈ ctx ∨ f.bit < bitlen) := by
  intro ρ
  induction ρ with
  | nil =>
    intro t ctx q u2 l2 r2 hwf hat hag
    cases t with
    | empty => simp [nodeAt] at hat
    | node b px u l r =>
      simp only [nodeAt, Option.some.injEq] at hat
      injection hat with e1 e2 e3 e4 e5
      refine ⟨ctx, ?_, by simp, fun f hf => Or.inl hf⟩
      rw [navigate_node_stop addr bitlen b px u l r ctx
        (by rw [e1, e2]; simp), e1, e2, e3, e4, e5]
  | cons d ρ2 ih =>
    intro t ctx q u2 l2 r2 hwf hat hag
    cases t with
    | empty => simp [nodeAt] at hat
    | node b px u l r =>
      have hblt : b < bitlen :=
        nodeAt_bit_lt ver ρ2 d b px u l r bitlen (some q) u2 l2 r2 hwf hat
      obtain ⟨-, -, -, -, -, hdirl, hdirr, hwl, hwr⟩ :=
        (wfTree_node_iff ver b px u l r).mp hwf
      have hagr := (bitsAgree_iff q.addr addr bitlen).mp hag b hblt
      cases d with
      | left =>
        have hat2 : nodeAt l ρ2 =
            some (PTree.node bitlen (some q) u2 l2 r2) := hat
        have hqb : bitTest q.addr b = false := by
          have := allPfx_nodeAt (fun q2 => !bitTest q2.addr b) ρ2 l bitlen
            q u2 l2 r2 hdirl hat2
          simpa using this
        have hbt : bitTest addr b = false := by
          rw [← hagr]
          exact hqb
        have hneg : ¬(b < BGPSTREAM_PATRICIA_MAXBITS ∧
            bitTest addr b = true) := by
          intro hc
          rw [hbt] at hc
          exact absurd hc.2 (by simp)
        cases l with
        | empty => simp [nodeAt] at hat2
        | node bl pxl ul ll rl =>
          rw [navigate_node_left addr bitlen b px u r ctx bl pxl ul
            ll rl (Or.inl hblt) hneg]
          obtain ⟨ctx2, h1, h2, h3⟩ := ih (PTree.node bl pxl ul ll rl)
            (⟨b, px, u, PDir.left, r⟩ :: ctx) q u2 l2 r2 hwl hat2 hag
          refine ⟨ctx2, h1, ?_, ?_⟩
          · rw [h2, ctxPath_cons]
            simp
          · intro f hf
            rcases h3 f hf with hin | hlt
            · rcases List.mem_cons.mp hin with rfl | hin2
              · exact Or.inr hblt
              · exact Or.inl hin2
            · exact Or.inr hlt
      | right =>
        have hat2 : nodeAt r ρ2 =
            some (PTree.node bitlen (some q) u2 l2 r2) := hat
        have hqb : bitTest q.addr b = true := by
          have := allPfx_nodeAt (fun q2 => bitTest q2.addr b) ρ2 r bitlen
            q u2 l2 r2 hdirr hat2
          simpa using this
        have hbt : bitTest addr b = true := by
          rw [← hagr]
          exact hqb
        have hpos : b < BGPSTREAM_PATRICIA_MAXBITS ∧
            bitTest addr b = true := by
          refine ⟨?_, hbt⟩
          show b < 128
          omega
        cases r with
        | empty => simp [nodeAt] at hat2
        | node br pxr ur lr rr =>
          rw [navigate_node_right addr bitlen b px u l ctx br pxr ur
            lr rr (Or.inl hblt) hpos]
          obtain ⟨ctx2, h1, h2, h3⟩ := ih (PTree.node br pxr ur lr rr)
            (⟨b, px, u, PDir.right, l⟩ :: ctx) q u2 l2 r2 hwr hat2 hag
          refine ⟨ctx2, h1, ?_, ?_⟩
          · rw [h2, ctxPath_cons]
            simp
          · intro f hf
            rcases h3 f hf with hin | hlt
            · rcases List.mem_cons.mp hin with rfl | hin2
              · exact Or.inr hblt
              · exact Or.inl hin2
            · exact Or.inr hlt

/-- Inserting a prefix already present in the tree returns the existing
node's position and leaves the tree unchanged, and search_exact finds the
same node. -/
theorem patricia_insert_existing (pt : PatTree) (pfx : PatPfx)
    (ρ0 : List PDir) (q : PatPfx) (u2 : Nat) (l2 r2 : PTree)
    (hw : wfPat pt = true) (hq : wfQuery pfx = true)
    (hcont : nodeAt (getHead pt pfx.version) ρ0 =
      some (PTree.node pfx.maskLen (some q) u2 l2 r2))
    (hag : bitsAgreeUpTo q.addr pfx.addr pfx.maskLen = true) :
    bgpstream_patricia_tree_insert pt pfx = (pt, ρ0) ∧
    bgpstream_patricia_tree_search_exact pt pfx = some ρ0 := by
  have hbl : pfx.maskLen ≤ 128 := by
    unfold wfQuery at hq
    rw [Bool.and_eq_true, decide_eq_true_eq] at hq
    exact hq.1
  have haddr : pfx.addr.all (fun t => decide (t < 256)) = true := by
    unfold wfQuery at hq
    rw [Bool.and_eq_true] at hq
    exact hq.2
  have hwhead := wfPat_head pt pfx.version hw
  have hwtarget := wfTree_nodeAt pfx.version ρ0 (getHead pt pfx.version)
    _ hwhead hcont
  obtain ⟨-, hpxq, -, -, -, -, -, -, -⟩ :=
    (wfTree_node_iff pfx.version pfx.maskLen (some q) u2 l2 r2).mp
      hwtarget
  obtain ⟨hqml, hqver, hqbytes, -, -⟩ := hpxq q rfl
  cases hh : getHead pt pfx.version with
  | empty =>
    rw [hh] at hcont
    simp [nodeAt] at hcont
  | node hb0 hpx0 hu0 hl0 hr0 =>
    rw [hh] at hcont hwhead
    have hdiff : differBit pfx.addr q.addr pfx.maskLen = pfx.maskLen :=
      (differBit_eq_iff pfx.addr q.addr pfx.maskLen haddr hqbytes).mpr
        (bitsAgree_symm _ _ _ hag)
    constructor
    · obtain ⟨ctx2, hnav, hpath, hbits⟩ := navigate_reach pfx.addr
        pfx.maskLen pfx.version hbl ρ0
        (PTree.node hb0 hpx0 hu0 hl0 hr0) [] q u2 l2 r2 hwhead hcont hag
      have hfb : ∀ f ∈ ctx2, f.bit < pfx.maskLen := fun f hf =>
        (hbits f hf).elim (fun h => absurd h (List.not_mem_nil f)) id
      simp only [bgpstream_patricia_tree_insert, hh, hnav,
        nodeStorageAddr, lt_irrefl, if_false, hdiff,
        walkUp_nopop pfx.maskLen _ ctx2 hfb]
      rw [hpath]
      simp [ctxPath]
    · have hsearch := searchNav_reach pfx.addr pfx.maskLen pfx.version ρ0
        (PTree.node hb0 hpx0 hu0 hl0 hr0) [] q u2 l2 r2 hwhead hcont hag
      simp only [bgpstream_patricia_tree_search_exact, hh, hsearch,
        List.nil_append, lt_irrefl, false_or]
      rw [if_neg (by simp), if_pos
        (comp_with_mask_of_agree q.addr pfx.addr pfx.maskLen hqbytes
          haddr hag)]

end BgpRt
